
import Mathlib

/-!
# Verification of the GraphML codec (`networkx/readwrite/graphml.py`)

This file gives a shallow embedding of the GraphML reader/writer module and
settles the frozen claims about it.

Modelling conventions:

* Python scalar values are a closed tagged union `GVal` (bool, arbitrary
  precision int, float, str, `None`, plus `dict`-valued entries used by the
  reserved `node_default` / `edge_default` graph attributes).
* Python floats only interact with the codec through `str()` and `float()`.
  They are modelled by their printed decimal form (`PyFloat`: sign, integer
  part, fractional digits); `str` of a Python float in the plain-decimal
  range and exact `float()` parsing of plain decimals are modelled by
  `floatChars` / `floatFromChars`.  Scientific notation, `inf`/`nan` and
  whitespace tolerance of the Python parsers are outside the modelled range.
* The XML layer is the external collaborator: both the writer's output and
  the reader's input are modelled as the element tree (`XmlElem`), matching
  the `xml.etree` interface the source uses.  Namespace prefixes (all
  constant in the source) are dropped from tag names.
* Fallible code returns `Except Err`; `warnings.warn` calls (recovered
  conditions) are ignored, uncaught Python exceptions are `Err` values.
-/

deriving instance DecidableEq for Except

namespace GraphML

/-! ## Decimal printing and parsing (Python `str` / `int` / `float`) -/

/-- The digit character for a digit value `0 ≤ d ≤ 9`. -/
def dchar (d : Nat) : Char :=
  match d with
  | 0 => '0' | 1 => '1' | 2 => '2' | 3 => '3' | 4 => '4'
  | 5 => '5' | 6 => '6' | 7 => '7' | 8 => '8' | _ => '9'

/-- The digit value of a character, if it is `'0'`..`'9'`. -/
def digitVal (c : Char) : Option Nat :=
  if 48 ≤ c.toNat ∧ c.toNat ≤ 57 then some (c.toNat - 48) else none

/-- Fuelled digit printer (structural recursion so that closed terms
reduce inside `decide` / `rfl`; the fuel is irrelevant once larger than
the number, see `natCharsAux_eq`). -/
def natCharsAux : Nat → Nat → List Char
  | 0, _ => []
  | fuel + 1, n => if n < 10 then [dchar n] else natCharsAux fuel (n / 10) ++ [dchar (n % 10)]

/-- Decimal digits of a natural number, most significant first
(Python `str` on a non-negative int). -/
def natChars (n : Nat) : List Char := natCharsAux (n + 1) n

/-- Accumulating decimal parser: consume digit characters,
folding them onto `a`; fails on any non-digit. -/
def parseDigits : Nat → List Char → Option Nat
  | a, [] => some a
  | a, c :: cs =>
    match digitVal c with
    | some d => parseDigits (a * 10 + d) cs
    | none => none

/-- Python `int(s)` on a trimmed literal: optional sign, then a nonempty
run of decimal digits (whitespace tolerance and `_` separators are outside
the modelled range). -/
def intFromChars : List Char → Option Int
  | [] => none
  | c :: rest =>
    if c = '-' then
      if rest = [] then none
      else Option.map (fun n : Nat => -(n : Int)) (parseDigits 0 rest)
    else if c = '+' then
      if rest = [] then none
      else Option.map (fun n : Nat => (n : Int)) (parseDigits 0 rest)
    else Option.map (fun n : Nat => (n : Int)) (parseDigits 0 (c :: rest))

/-- Python `str` on an int. -/
def intChars (i : Int) : List Char :=
  if i < 0 then '-' :: natChars i.natAbs else natChars i.natAbs

/-! ## Python floats as printed decimals

A Python float appears in the codec only through `str()` (producing its
shortest-roundtrip decimal form) and `float()` (exact parsing).  `PyFloat`
is that decimal form: sign, integer part, and the list of fractional
digits.  Canonical (`PyFloat.wf`) forms have at least one fractional digit
and no trailing zero digit unless it is the only one, matching `str()`
output such as `"2.5"`, `"0.25"`, `"5.0"`, `"-0.0"`. -/

structure PyFloat where
  neg : Bool
  ip : Nat
  frac : List Nat
deriving DecidableEq, Repr

/-- Canonicity of the printed-decimal form of a float. -/
def PyFloat.wf (f : PyFloat) : Bool :=
  decide (f.frac ≠ []) && f.frac.all (fun d => decide (d < 10)) &&
    (match f.frac.getLast? with
     | some 0 => decide (f.frac = [0])
     | _ => true)

/-- Python `str` on a float (plain-decimal range). -/
def floatChars (f : PyFloat) : List Char :=
  (if f.neg then ['-'] else []) ++ natChars f.ip ++ '.' :: f.frac.map dchar

/-- Split a character list at the first `'.'`, if any. -/
def splitAtDot : List Char → Option (List Char × List Char)
  | [] => none
  | c :: cs =>
    if c = '.' then some ([], cs)
    else Option.map (fun p => (c :: p.1, p.2)) (splitAtDot cs)

/-- Drop trailing zero digits, keeping at least one digit
(the value-canonical fractional part produced by `float()`). -/
def canonFrac (l : List Nat) : List Nat :=
  let s := (l.reverse.dropWhile (fun d => d = 0)).reverse
  if s = [] then [0] else s

/-- Read every character as a digit. -/
def digitsOf (cs : List Char) : Option (List Nat) :=
  cs.mapM digitVal

/-- Unsigned part of `float()` parsing: digits with an optional single
decimal point. -/
def floatFromCharsCore (neg : Bool) (cs : List Char) : Option PyFloat :=
  match splitAtDot cs with
  | none =>
    if cs = [] then none
    else Option.map (fun n => PyFloat.mk neg n [0]) (parseDigits 0 cs)
  | some (w, fr) =>
    if w = [] ∧ fr = [] then none
    else
      match (if w = [] then some 0 else parseDigits 0 w), digitsOf fr with
      | some ip, some ds => some (PyFloat.mk neg ip (canonFrac ds))
      | _, _ => none

/-- Python `float(s)` on a trimmed plain-decimal literal (scientific
notation, `inf`/`nan` and whitespace are outside the modelled range). -/
def floatFromChars : List Char → Option PyFloat
  | [] => none
  | c :: rest =>
    if c = '-' then if rest = [] then none else floatFromCharsCore true rest
    else if c = '+' then if rest = [] then none else floatFromCharsCore false rest
    else floatFromCharsCore false (c :: rest)

/-! ## Association lists (Python `dict` with insertion order) -/

/-- `dict.get` / `dict[k]`: first (unique) binding of a key. -/
def alookup {α β : Type} [DecidableEq α] : List (α × β) → α → Option β
  | [], _ => none
  | (k, v) :: rest, key => if k = key then some v else alookup rest key

/-- `dict[k] = v`: overwrite in place, else append. -/
def aupdate {α β : Type} [DecidableEq α] : List (α × β) → α → β → List (α × β)
  | [], key, val => [(key, val)]
  | (k, v) :: rest, key, val =>
    if k = key then (k, val) :: rest else (k, v) :: aupdate rest key val

/-- `dict.update(items)`. -/
def aupdates {α β : Type} [DecidableEq α] (m : List (α × β)) (items : List (α × β)) :
    List (α × β) :=
  items.foldl (fun acc p => aupdate acc p.1 p.2) m

/-- `dict.pop(k, None)`, the removal part. -/
def aerase {α β : Type} [DecidableEq α] : List (α × β) → α → List (α × β)
  | [], _ => []
  | (k, v) :: rest, key => if k = key then rest else (k, v) :: aerase rest key

/-! ## Python values (`GraphML.types` tag set) and text conversions -/

/-- Python runtime types distinguished by the codec: the four scalar types
of the `GraphML.types` table, plus `NoneType` and `dict` which have no
table entry (`dict` occurs as the value of the reserved `node_default` /
`edge_default` graph attributes). -/
inductive TagTy where
  | tBool | tInt | tFloat | tStr | tNone | tDict
deriving DecidableEq, Repr

/-- A scalar Python value (an entry of a default bag, which the spec's
data model restricts to scalars). -/
inductive GAtom where
  | ABool (b : Bool)
  | AInt (i : Int)
  | AFloat (f : PyFloat)
  | AStr (s : String)
  | ANone
deriving DecidableEq, Repr

/-- A Python attribute value: the scalars, plus `dict` values, which occur
as the reserved `node_default` / `edge_default` graph attributes (per the
spec's data model a bag maps names to scalars, so dict entries are
`GAtom`). -/
inductive GVal where
  | PBool (b : Bool)
  | PInt (i : Int)
  | PFloat (f : PyFloat)
  | PStr (s : String)
  | PNone
  | PDict (l : List (String × GAtom))
deriving DecidableEq, Repr

/-- Python `type(v)`. -/
def tagOf : GVal → TagTy
  | .PBool _ => .tBool
  | .PInt _ => .tInt
  | .PFloat _ => .tFloat
  | .PStr _ => .tStr
  | .PNone => .tNone
  | .PDict _ => .tDict

/-- Python `repr` on a scalar (string quoting unescaped). -/
def reprAtom : GAtom → String
  | .ABool true => "True"
  | .ABool false => "False"
  | .AInt i => String.mk (intChars i)
  | .AFloat f => String.mk (floatChars f)
  | .AStr s => String.mk ('\'' :: s.data ++ ['\''])
  | .ANone => "None"

/-- Python `str` on a scalar (`networkx.utils.make_str` on Python 3). -/
def strAtom : GAtom → String
  | .AStr s => s
  | v => reprAtom v

/-- Python `str(v)` (`networkx.utils.make_str` on Python 3); a dict is
rendered with `repr` of its entries. -/
def pyStr : GVal → String
  | .PBool true => "True"
  | .PBool false => "False"
  | .PInt i => String.mk (intChars i)
  | .PFloat f => String.mk (floatChars f)
  | .PStr s => s
  | .PNone => "None"
  | .PDict l =>
    "\x7b" ++ String.intercalate ", "
      (l.map (fun p => String.mk ('\'' :: p.1.data ++ ['\'']) ++ ": " ++ reprAtom p.2))
      ++ "\x7d"

/-- `GraphML.xml_type`: the `dict(types)` mapping from a runtime type to
the GraphML type name it is written as (later table entries win, so
`int ↦ "long"`, `float ↦ "double"`, `str ↦ "string"`, `bool ↦ "boolean"`);
`NoneType` and `dict` have no entry. -/
def xmlTypeOf : TagTy → Option String
  | .tBool => some "boolean"
  | .tInt => some "long"
  | .tFloat => some "double"
  | .tStr => some "string"
  | .tNone => none
  | .tDict => none

/-- `GraphML.python_type`: the `dict(reversed(a) for a in types)` inverse
mapping from a GraphML type name to the constructor used while decoding. -/
def pythonTypeOf : String → Option TagTy
  | "integer" => some .tInt
  | "yfiles" => some .tStr
  | "string" => some .tStr
  | "int" => some .tInt
  | "long" => some .tInt
  | "float" => some .tFloat
  | "double" => some .tFloat
  | "boolean" => some .tBool
  | _ => none

/-- Error outcomes: uncaught Python exceptions of one encode/decode call. -/
inductive Err where
  | unsupportedType (t : TagTy)
  | unknownKey (id : Option String)
  | badBoolean (s : String)
  | badNumber (s : String)
  | missingKeyName (id : Option String)
  | unknownKeyType (s : String)
  | hyperedgeFound
  | directionMismatch (directedGraph : Bool)
  | badDefault (s : Option String)
deriving DecidableEq, Repr

/-- Python `s.lower()` (ASCII range; only compared against ASCII tokens). -/
def strLower (s : String) : String := String.mk (s.data.map Char.toLower)

/-- `GraphML.convert_bool[text.lower()]`: the boolean literal table keyed
by the lowered text (the table's integer keys `0`/`1` are unreachable for
string input). -/
def convertBool (s : String) : Option Bool :=
  let l := strLower s
  if l = "true" then some true
  else if l = "false" then some false
  else if l = "0" then some false
  else if l = "1" then some true
  else none

/-- The scalar coercion of `decode_data_elements`: `convert_bool` for
boolean keys, else `data_type(text)`.  `tNone`/`tDict` never occur
(`python_type` cannot produce them). -/
def convertData (t : TagTy) (text : String) : Except Err GVal :=
  match t with
  | .tBool =>
    match convertBool text with
    | some b => .ok (.PBool b)
    | none => .error (.badBoolean text)
  | .tInt =>
    match intFromChars text.data with
    | some i => .ok (.PInt i)
    | none => .error (.badNumber text)
  | .tFloat =>
    match floatFromChars text.data with
    | some f => .ok (.PFloat f)
    | none => .error (.badNumber text)
  | .tStr => .ok (.PStr text)
  | .tNone => .error (.badNumber text)
  | .tDict => .error (.badNumber text)

/-! ## The XML element tree (the external `xml.etree` collaborator) -/

/-- An XML element as the `xml.etree` interface exposes it: tag name
(namespace prefixes dropped — they are constant in the source), attribute
dict, text content, child elements. -/
inductive XmlElem where
  | mk (tag : String) (attrs : List (String × String)) (text : Option String)
      (children : List XmlElem)

def XmlElem.tag : XmlElem → String
  | .mk t _ _ _ => t

def XmlElem.attrs : XmlElem → List (String × String)
  | .mk _ a _ _ => a

def XmlElem.text : XmlElem → Option String
  | .mk _ _ t _ => t

def XmlElem.children : XmlElem → List XmlElem
  | .mk _ _ _ c => c

/-- `element.get(name)`. -/
def XmlElem.get (e : XmlElem) (a : String) : Option String :=
  alookup e.attrs a

/-- `element.findall(tag)`: direct children with the tag. -/
def XmlElem.findall (e : XmlElem) (t : String) : List XmlElem :=
  e.children.filter (fun c => c.tag = t)

/-- `element.find(tag)`: first direct child with the tag. -/
def XmlElem.findTag (e : XmlElem) (t : String) : Option XmlElem :=
  (e.findall t).head?

/-- `element.find("a/b")`: first `b` child of an `a` child, in document
order over the concatenation. -/
def XmlElem.findPath (e : XmlElem) (t1 t2 : String) : Option XmlElem :=
  (((e.findall t1).map (fun c => c.findall t2)).flatten).head?

/-! ## The host graph model -/

/-- A networkx edge as stored: endpoints, multiplicity key (always present
on a multigraph, never on a simple graph), attribute dict. -/
structure PyEdge where
  src : String
  tgt : String
  key : Option GVal
  data : List (String × GVal)
deriving DecidableEq, Repr

/-- A networkx graph.  Node identifiers are modelled as strings (the
writer applies `make_str` to them and the reader's default `node_type` is
`str`, the identity on strings).  `graphAttrs` is `G.graph`, including the
reserved `node_default` / `edge_default` entries when present. -/
structure PyGraph where
  directed : Bool
  multi : Bool
  nodes : List (String × List (String × GVal))
  edges : List PyEdge
  graphAttrs : List (String × GVal)
deriving DecidableEq, Repr

/-- `G.has_edge(u, v)` on the stored edge list (an undirected graph
matches either orientation). -/
def edgeMatches (directed : Bool) (u v : String) (e : PyEdge) : Bool :=
  (e.src == u && e.tgt == v) || (!directed && e.src == v && e.tgt == u)

def hasEdge (G : PyGraph) (u v : String) : Bool :=
  G.edges.any (edgeMatches G.directed u v)

/-! ## The buffered writer (`GraphMLWriter`) -/

def NS_GRAPHML : String := "http://graphml.graphdrawing.org/xmlns"
def NS_XSI : String := "http://www.w3.org/2001/XMLSchema-instance"
def NS_Y : String := "http://www.yworks.com/xml/graphml"

/-- `' '.join([...])` in `GraphML.SCHEMALOCATION`. -/
def SCHEMALOCATION : String :=
  NS_GRAPHML ++ " " ++ NS_GRAPHML ++ "/1.0/graphml.xsd"

def rootAttrs : List (String × String) :=
  [("xmlns", NS_GRAPHML), ("xmlns:xsi", NS_XSI), ("xsi:schemaLocation", SCHEMALOCATION)]

/-- `G.graph.get('node_default', {})`.  A non-dict value here would crash
Python at the first `.get` on it; that corner is unreachable under every
theorem's hypotheses and reads as the empty bag in the model. -/
def asBag : Option GVal → List (String × GAtom)
  | some (.PDict l) => l
  | _ => []

/-- One pending entry of `self.attributes`: attribute name, value, scope,
and the default recorded for it (`default.get(k)`). -/
structure ARec where
  name : String
  value : GVal
  scope : String
  dflt : Option GAtom
deriving DecidableEq, Repr

/-- `self.attribute_types[(name, scope)]`, computed from the full record
list (the buffered writer postpones data processing until the whole graph
has been scanned, so the set is complete at resolution time).  `dedup`
keeps one entry per observed runtime type, as the Python `set` does. -/
def observedTypes (recs : List ARec) (name scope : String) : List TagTy :=
  ((recs.filter (fun r => r.name == name && r.scope == scope)).map
    (fun r => tagOf r.value)).dedup

/-- `GraphMLWriter.attr_type`: with inference on and more than one
observed runtime type, apply the precedence `str` (= `unicode`), then
`float`, then `long` (= `int` on Python 3), then `int`; with exactly one
observed type, that type; with inference off, `type(value)`.  (The
`headD` fallback for an empty observation set is unreachable: every call
site has recorded `type(value)` for this `(name, scope)` first.) -/
def attrType (infer : Bool) (types : List TagTy) (v : GVal) : TagTy :=
  if infer then
    if 1 < types.length then
      if types.contains .tStr then .tStr
      else if types.contains .tFloat then .tFloat
      else .tInt
    else types.headD (tagOf v)
  else tagOf v

/-- A synthetic key identifier `"d%i"`. -/
def dId (n : Nat) : String := String.mk ('d' :: natChars n)

/-- The writer's key registry: `self.keys` (triple → id, insertion
ordered) and the created `<key>` elements in creation order (the code
inserts each at index 0 of the root, so the document order is the
reverse). -/
structure WriterState where
  keys : List ((String × String × String) × String)
  keyElems : List XmlElem

/-- The `<key>` element built by `get_key`, with its `<default>` child
when a default value is present. -/
def mkKeyElem (name xt scope newId : String) (dflt : Option GAtom) : XmlElem :=
  .mk "key" [("id", newId), ("for", scope), ("attr.name", name), ("attr.type", xt)]
    none
    (match dflt with
     | some d => [.mk "default" [] (some (strAtom d)) []]
     | none => [])

/-- `GraphMLWriter.get_key`. -/
def getKey (name xt scope : String) (dflt : Option GAtom) (st : WriterState) :
    String × WriterState :=
  match alookup st.keys (name, xt, scope) with
  | some id0 => (id0, st)
  | none =>
    let newId := dId st.keys.length
    (newId,
     { keys := st.keys ++ [((name, xt, scope), newId)],
       keyElems := st.keyElems ++ [mkKeyElem name xt scope newId dflt] })

/-- `GraphMLWriter.add_data` (the `value` argument is already
`make_str(v)` at every call site). -/
def addData (name : String) (ety : TagTy) (value scope : String)
    (dflt : Option GAtom) (st : WriterState) : Except Err (XmlElem × WriterState) :=
  match xmlTypeOf ety with
  | none => .error (.unsupportedType ety)
  | some xt =>
    let p := getKey name xt scope dflt st
    .ok (.mk "data" [("key", p.1)] (some value) [], p.2)

/-- The postponed data-processing loop body for one object's records. -/
def emitDatas (infer : Bool) (allRecs : List ARec) :
    List ARec → WriterState → Except Err (List XmlElem × WriterState)
  | [], st => .ok ([], st)
  | r :: rest, st => do
    let ety := attrType infer (observedTypes allRecs r.name r.scope) r.value
    let p ← addData r.name ety (pyStr r.value) r.scope r.dflt st
    let q ← emitDatas infer allRecs rest p.2
    .ok (p.1 :: q.1, q.2)

/-- The records `add_attributes` stores for one node. -/
def nodeRecs (ndef : List (String × GAtom)) (n : String × List (String × GVal)) :
    List ARec :=
  n.2.map (fun p => ⟨p.1, p.2, "node", alookup ndef p.1⟩)

/-- The records `add_attributes` stores for one edge. -/
def edgeRecs (edef : List (String × GAtom)) (e : PyEdge) : List ARec :=
  e.data.map (fun p => ⟨p.1, p.2, "edge", alookup edef p.1⟩)

/-- The records `add_attributes` stores for the graph element (its default
dict is `{}`). -/
def graphRecs (plain : List (String × GVal)) : List ARec :=
  plain.map (fun p => ⟨p.1, p.2, "graph", none⟩)

/-- `add_nodes` plus the postponed data pass for each node element. -/
def emitNodes (infer : Bool) (allRecs : List ARec) (ndef : List (String × GAtom)) :
    List (String × List (String × GVal)) → WriterState →
      Except Err (List XmlElem × WriterState)
  | [], st => .ok ([], st)
  | n :: rest, st => do
    let p ← emitDatas infer allRecs (nodeRecs ndef n) st
    let q ← emitNodes infer allRecs ndef rest p.2
    .ok (XmlElem.mk "node" [("id", n.1)] none p.1 :: q.1, q.2)

/-- `add_edges` plus the postponed data pass for each edge element.  On a
multigraph the edge key is written as the `id` XML attribute (networkx
multigraph edges always carry a key; `.getD` makes the model total). -/
def emitEdges (infer : Bool) (allRecs : List ARec) (edef : List (String × GAtom))
    (multi : Bool) :
    List PyEdge → WriterState → Except Err (List XmlElem × WriterState)
  | [], st => .ok ([], st)
  | e :: rest, st => do
    let p ← emitDatas infer allRecs (edgeRecs edef e) st
    let q ← emitEdges infer allRecs edef multi rest p.2
    let eattrs :=
      if multi then
        [("source", e.src), ("target", e.tgt), ("id", pyStr (e.key.getD .PNone))]
      else [("source", e.src), ("target", e.tgt)]
    .ok (XmlElem.mk "edge" eattrs none p.1 :: q.1, q.2)

/-- `GraphMLWriter.add_graph_element` on a fresh writer, returning the
finished document root and the graph's attribute dict after the
`G.graph.pop('id', None)` mutation.  The `id` value is rendered with
`str` as the XML layer would.  (`__init__` + `add_graph_element`; `dump`
/ serialization is the external XML layer.) -/
def encodeBuffered (infer : Bool) (G : PyGraph) :
    Except Err (XmlElem × WriterState × List (String × GVal)) := do
  let graphid := alookup G.graphAttrs "id"
  let g1 := aerase G.graphAttrs "id"
  let plain := g1.filter
    (fun p => !(p.1 == "node_default") && !(p.1 == "edge_default"))
  let ndef := asBag (alookup g1 "node_default")
  let edef := asBag (alookup g1 "edge_default")
  let gRecs := graphRecs plain
  let allRecs := gRecs ++ (G.nodes.map (nodeRecs ndef)).flatten
    ++ (G.edges.map (edgeRecs edef)).flatten
  let pg ← emitDatas infer allRecs gRecs ⟨[], []⟩
  let pn ← emitNodes infer allRecs ndef G.nodes pg.2
  let pe ← emitEdges infer allRecs edef G.multi G.edges pn.2
  let gattrs := ("edgedefault", if G.directed then "directed" else "undirected")
    :: (match graphid with
        | some v => [("id", pyStr v)]
        | none => [])
  let graphElem := XmlElem.mk "graph" gattrs none (pn.1 ++ pe.1 ++ pg.1)
  .ok (XmlElem.mk "graphml" rootAttrs none (pe.2.keyElems.reverse ++ [graphElem]),
    pe.2, g1)

/-! ## The streaming writer (`GraphMLWriterLxml`): key-declaration pass

`GraphMLWriterLxml.add_graph_element` scans the whole graph to fill
`attribute_types` and create every key (pass 1), writes the key elements
collected so far, then opens `<graph>` and streams nodes/edges with their
data (pass 2).  The model below covers the `id` pop, pass 1, and the graph
element's XML attributes; pass 2 re-resolves each datum with
`self.attr_type` and can call `get_key` again, but any key created there
is appended to the already-written list and never reaches the output, so
the emitted key table is exactly pass 1's `keyElems`. -/

/-- `if k not in attributes: attributes[k] = v` (first occurrence wins). -/
def addFirst (m : List (String × GVal)) (k : String) (v : GVal) :
    List (String × GVal) :=
  if (alookup m k).isSome then m else m ++ [(k, v)]

/-- The `attributes` dict collected over all nodes. -/
def lxmlNodeAttrs (nodes : List (String × List (String × GVal))) :
    List (String × GVal) :=
  nodes.foldl (fun m n => n.2.foldl (fun m2 p => addFirst m2 p.1 p.2) m) []

/-- The `attributes` dict collected over all edges; on a multigraph the
edge key is recorded under the attribute name `"key"` before the edge's
own data. -/
def lxmlEdgeAttrs (multi : Bool) (edges : List PyEdge) : List (String × GVal) :=
  if multi then
    edges.foldl (fun m e =>
      (e.data.foldl (fun m2 p => addFirst m2 p.1 p.2)
        (addFirst m "key" (e.key.getD .PNone)))) []
  else
    edges.foldl (fun m e => e.data.foldl (fun m2 p => addFirst m2 p.1 p.2) m) []

/-- The `attribute_types` contributions of the edge scan: on a multigraph
each edge also records `type(ekey)` under `("key", "edge")`. -/
def lxmlEdgeScanRecs (multi : Bool) (edef : List (String × GAtom))
    (edges : List PyEdge) : List ARec :=
  if multi then
    (edges.map (fun e =>
      ⟨"key", e.key.getD .PNone, "edge", alookup edef "key"⟩ :: edgeRecs edef e)).flatten
  else (edges.map (edgeRecs edef)).flatten

/-- One scope's `for k, v in attributes.items(): ... get_key(...)` loop;
`recsSoFar` is the `attribute_types` content at that point of the scan. -/
def lxmlKeysPass (infer : Bool) (recsSoFar : List ARec) (scope : String)
    (dfltOf : String → Option GAtom) :
    List (String × GVal) → WriterState → Except Err WriterState
  | [], st => .ok st
  | (k, v) :: rest, st =>
    match xmlTypeOf (attrType infer (observedTypes recsSoFar k scope) v) with
    | none => .error (.unsupportedType (attrType infer (observedTypes recsSoFar k scope) v))
    | some xt =>
      lxmlKeysPass infer recsSoFar scope dfltOf rest (getKey k xt scope (dfltOf k) st).2

/-- `GraphMLWriterLxml.add_graph_element`, through the point where the
key elements are written: returns the written key registry, the `<graph>`
element's XML attributes, and `G.graph` after the `pop('id', None)`
mutation. -/
def encodeLxmlKeys (infer : Bool) (G : PyGraph) :
    Except Err (WriterState × List (String × String) × List (String × GVal)) := do
  let graphid := alookup G.graphAttrs "id"
  let g1 := aerase G.graphAttrs "id"
  let plain := g1.filter
    (fun p => !(p.1 == "node_default") && !(p.1 == "edge_default"))
  let ndef := asBag (alookup g1 "node_default")
  let edef := asBag (alookup g1 "edge_default")
  let gRecs := graphRecs plain
  let nRecs := (G.nodes.map (nodeRecs ndef)).flatten
  let eScan := lxmlEdgeScanRecs G.multi edef G.edges
  let st1 ← lxmlKeysPass infer gRecs "graph" (fun _ => none) plain ⟨[], []⟩
  let st2 ← lxmlKeysPass infer (gRecs ++ nRecs) "node" (alookup ndef)
    (lxmlNodeAttrs G.nodes) st1
  let st3 ← lxmlKeysPass infer (gRecs ++ nRecs ++ eScan) "edge" (alookup edef)
    (lxmlEdgeAttrs G.multi G.edges) st2
  let gattrs := ("edgedefault", if G.directed then "directed" else "undirected")
    :: (match graphid with
        | some v => [("id", pyStr v)]
        | none => [])
  .ok (st3, gattrs, g1)

/-! ## The reader (`GraphMLReader`) -/

/-- One entry of the reader's key table `graphml_keys[attr_id]`. -/
structure KeyEntry where
  name : String
  ptype : TagTy
  forScope : Option String
deriving DecidableEq, Repr

/-- The local `attr_type` value in `find_graphml_keys` before the
`python_type` lookup: a present `yfiles.type` forces `"yfiles"`, else the
element's `attr.type`, else the recovered default `"string"` (with a
warning). -/
def resolvedKeyTypeName (k : XmlElem) : String :=
  match k.get "yfiles.type" with
  | some _ => "yfiles"
  | none =>
    match k.get "attr.type" with
    | some t => t
    | none => "string"

/-- The local `attr_name` value in `find_graphml_keys`: a present
`yfiles.type` overrides `attr.name`. -/
def resolvedKeyName (k : XmlElem) : Option String :=
  match k.get "yfiles.type" with
  | some y => some y
  | none => k.get "attr.name"

/-- The loop of `GraphMLReader.find_graphml_keys`: build the id → entry
table and the id → default-text table (both Python dicts, insertion
ordered; a key with no `attr.name` and no `yfiles.type` is a fatal
error). -/
def findKeysFold :
    List XmlElem → List (Option String × KeyEntry) →
    List (Option String × Option String) →
    Except Err (List (Option String × KeyEntry) × List (Option String × Option String))
  | [], table, defaults => .ok (table, defaults)
  | k :: rest, table, defaults =>
    let attrId := k.get "id"
    let tn := resolvedKeyTypeName k
    match resolvedKeyName k with
    | none => .error (.missingKeyName attrId)
    | some nm =>
      match pythonTypeOf tn with
      | none => .error (.unknownKeyType tn)
      | some pt =>
        let table1 := aupdate table attrId ⟨nm, pt, k.get "for"⟩
        let defaults1 :=
          match k.findTag "default" with
          | some d => aupdate defaults attrId d.text
          | none => defaults
        findKeysFold rest table1 defaults1

/-- `GraphMLReader.find_graphml_keys`. -/
def findGraphmlKeys (root : XmlElem) :
    Except Err (List (Option String × KeyEntry) × List (Option String × Option String)) :=
  findKeysFold (root.findall "key") [] []

/-- Wrap an optional string the way the yfiles fallback stores raw
`element.get` / `.text` results (`None` included). -/
def optStr : Option String → GVal
  | some s => .PStr s
  | none => .PNone

/-- First present value, as the reader's `break`-on-found loops. -/
def firstSome {α : Type} : List (Option α) → Option α
  | [] => none
  | some a :: _ => some a
  | none :: rest => firstSome rest

/-- The yfiles-extension branch of `decode_data_elements`: scan the three
node-shape containers for a geometry (`x`/`y`) and a first label, then the
five edge-shape containers for a first edge label. -/
def yfilesExtract (d : XmlElem) (data : List (String × GVal)) : List (String × GVal) :=
  let p := ["ShapeNode", "SVGNode", "ImageNode"].foldl
    (fun (acc : List (String × GVal) × Option XmlElem) nt =>
      let acc2 :=
        match d.findPath nt "Geometry" with
        | some geo => aupdate (aupdate acc.1 "x" (optStr (geo.get "x"))) "y"
            (optStr (geo.get "y"))
        | none => acc.1
      let lbl :=
        match acc.2 with
        | some l => some l
        | none => d.findPath nt "NodeLabel"
      (acc2, lbl))
    (data, none)
  let data1 :=
    match p.2 with
    | some l => aupdate p.1 "label" (optStr l.text)
    | none => p.1
  match firstSome (["PolyLineEdge", "SplineEdge", "QuadCurveEdge", "BezierEdge",
      "ArcEdge"].map (fun en => d.findPath en "EdgeLabel")) with
  | some l => aupdate data1 "label" (optStr l.text)
  | none => data1

/-- `GraphMLReader.decode_data_elements`: fold the `<data>` children into
an attribute dict.  A data element with text and no children is coerced
through the key's type; one with children goes to the yfiles fallback;
one with neither contributes nothing. -/
def decodeDatas (table : List (Option String × KeyEntry)) :
    List XmlElem → List (String × GVal) → Except Err (List (String × GVal))
  | [], data => .ok data
  | d :: rest, data =>
    let keyid := d.get "key"
    match alookup table keyid with
    | none => .error (.unknownKey keyid)
    | some entry =>
      match d.text, d.children with
      | some t, [] => do
        let v ← convertData entry.ptype t
        decodeDatas table rest (aupdate data entry.name v)
      | none, [] => decodeDatas table rest data
      | _, _ :: _ => decodeDatas table rest (yfilesExtract d data)

/-- The reader's `node_type` / conversion of raw XML attribute values:
default `str`, with Python `str(None) = "None"` for a missing attribute. -/
def pyNodeType : Option String → String
  | some s => s
  | none => "None"

/-- networkx `G.add_node(id, **data)`: merge into an existing node's
attributes, else append the node. -/
def graphAddNode (G : PyGraph) (nid : String) (data : List (String × GVal)) : PyGraph :=
  match alookup G.nodes nid with
  | some old => {G with nodes := aupdate G.nodes nid (aupdates old data)}
  | none => {G with nodes := G.nodes ++ [(nid, data)]}

/-- `GraphMLReader.add_node`. -/
def addNodeR (table : List (Option String × KeyEntry)) (G : PyGraph) (nx0 : XmlElem) :
    Except Err PyGraph := do
  let data ← decodeDatas table (nx0.findall "data") []
  .ok (graphAddNode G (pyNodeType (nx0.get "id")) data)

/-- networkx auto-adds an endpoint that is not yet a node. -/
def ensureNode (G : PyGraph) (u : String) : PyGraph :=
  if (alookup G.nodes u).isSome then G else {G with nodes := G.nodes ++ [(u, [])]}

/-- networkx `G.add_edges_from([(u, v, key, data)])` on a multigraph:
missing endpoints are added as attribute-less nodes; a `None` key gets the
parallel-edge count as an auto key; an existing `(endpoints, key)` edge
has its data merged, else the edge is appended. -/
def graphAddEdge (G : PyGraph) (u v : String) (key : Option GVal)
    (data : List (String × GVal)) : PyGraph :=
  let G2 := ensureNode (ensureNode G u) v
  match key with
  | some k =>
    if G2.edges.any (fun e => edgeMatches G2.directed u v e && decide (e.key = some k)) then
      {G2 with edges := G2.edges.map (fun e =>
        if edgeMatches G2.directed u v e && decide (e.key = some k) then
          {e with data := aupdates e.data data}
        else e)}
    else {G2 with edges := G2.edges ++ [⟨u, v, some k, data⟩]}
  | none =>
    let cnt := (G2.edges.filter (edgeMatches G2.directed u v)).length
    {G2 with edges := G2.edges ++ [⟨u, v, some (.PInt cnt), data⟩]}

/-- The reader's cross-graph mutable state: the `multigraph` flag and the
`edge_ids` dict, both instance attributes that persist across the
`<graph>` elements of one document. -/
structure ReaderState where
  multigraph : Bool
  edgeIds : List ((String × String) × String)
deriving DecidableEq, Repr

/-- `GraphMLReader.add_edge`: direction-mismatch check, data decode, the
provisional multiplicity key (`id` XML attribute if truthy — converted
through `edge_key_type = int` when possible, else kept as the literal
string — else the `key` data attribute, else `None` for an auto key),
duplicate-endpoint detection, and multi-edge-aware insertion. -/
def addEdgeR (table : List (Option String × KeyEntry)) (ex : XmlElem) (G : PyGraph)
    (st : ReaderState) : Except Err (PyGraph × ReaderState) :=
  let directedAttr := ex.get "directed"
  if G.directed ∧ directedAttr = some "false" then
    .error (.directionMismatch true)
  else if ¬G.directed ∧ directedAttr = some "true" then
    .error (.directionMismatch false)
  else do
    let source := pyNodeType (ex.get "source")
    let target := pyNodeType (ex.get "target")
    let data ← decodeDatas table (ex.findall "data") []
    let p :=
      match ex.get "id" with
      | some s =>
        if s = "" then ((alookup data "key" : Option GVal), st)
        else
          (some (match intFromChars s.data with
                 | some n => GVal.PInt n
                 | none => GVal.PStr s),
           {st with edgeIds := aupdate st.edgeIds (source, target) s})
      | none => (alookup data "key", st)
    let st2 := if hasEdge G source target then {p.2 with multigraph := true} else p.2
    .ok (graphAddEdge G source target p.1 data, st2)

/-- The `defaults.items()` loop of `make_graph`: rebuild the
`node_default` / `edge_default` bags from key declarations that carried a
`<default>` child, coercing each default text with the key's Python type
constructor directly (`python_type(value)` — not `convert_bool`). -/
def defaultConvert (t : TagTy) (v : Option String) : Except Err GAtom :=
  match t with
  | .tBool => .ok (.ABool (match v with | some s => decide (s ≠ "") | none => false))
  | .tStr => .ok (.AStr (match v with | some s => s | none => "None"))
  | .tInt =>
    match v with
    | some s =>
      match intFromChars s.data with
      | some i => .ok (.AInt i)
      | none => .error (.badDefault v)
    | none => .error (.badDefault v)
  | .tFloat =>
    match v with
    | some s =>
      match floatFromChars s.data with
      | some f => .ok (.AFloat f)
      | none => .error (.badDefault v)
    | none => .error (.badDefault v)
  | .tNone => .error (.badDefault v)
  | .tDict => .error (.badDefault v)

def defaultsFold (table : List (Option String × KeyEntry)) :
    List (Option String × Option String) →
    List (String × GAtom) → List (String × GAtom) →
    Except Err (List (String × GAtom) × List (String × GAtom))
  | [], nd, ed => .ok (nd, ed)
  | (keyId, value) :: rest, nd, ed =>
    match alookup table keyId with
    | none => .error (.unknownKey keyId)
    | some entry => do
      let a ← defaultConvert entry.ptype value
      let nd1 := if entry.forScope = some "node" then aupdate nd entry.name a else nd
      let ed1 := if entry.forScope = some "edge" then aupdate ed entry.name a else ed
      defaultsFold table rest nd1 ed1

def nodesFold (table : List (Option String × KeyEntry)) :
    List XmlElem → PyGraph → Except Err PyGraph
  | [], G => .ok G
  | n :: rest, G => do
    let G1 ← addNodeR table G n
    nodesFold table rest G1

def edgesFold (table : List (Option String × KeyEntry)) :
    List XmlElem → PyGraph → ReaderState → Except Err (PyGraph × ReaderState)
  | [], G, st => .ok (G, st)
  | e :: rest, G, st => do
    let p ← addEdgeR table e G st
    edgesFold table rest p.1 p.2

/-- The simple-graph downgrade of `make_graph`: `nx.Graph(G)` /
`nx.DiGraph(G)` (drop multiplicity keys; the guard `not self.multigraph`
guarantees no parallel edges, so nothing merges) followed by
`nx.set_edge_attributes(G, values=self.edge_ids, name='id')`, which
writes each recorded id onto the matching edge and skips absent edges. -/
def downgrade (G : PyGraph) (eids : List ((String × String) × String)) : PyGraph :=
  let G1 : PyGraph :=
    {G with multi := false, edges := G.edges.map (fun e => {e with key := none})}
  eids.foldl (fun acc q =>
    {acc with edges := acc.edges.map (fun e =>
      if edgeMatches acc.directed q.1.1 q.1.2 e then
        {e with data := aupdate e.data "id" (.PStr q.2)}
      else e)}) G1

/-- `GraphMLReader.make_graph`. -/
def makeGraph (table : List (Option String × KeyEntry))
    (defaults : List (Option String × Option String)) (gx : XmlElem)
    (st : ReaderState) : Except Err (PyGraph × ReaderState) := do
  let directed := gx.get "edgedefault" = some "directed"
  let nded ← defaultsFold table defaults [] []
  let G0 : PyGraph := ⟨directed, true, [], [],
    [("node_default", .PDict nded.1), ("edge_default", .PDict nded.2)]⟩
  if (gx.findTag "hyperedge").isSome then
    .error .hyperedgeFound
  else do
    let G1 ← nodesFold table (gx.findall "node") G0
    let p ← edgesFold table (gx.findall "edge") G1 st
    let gdata ← decodeDatas table (gx.findall "data") []
    let G2 := {p.1 with graphAttrs := aupdates p.1.graphAttrs gdata}
    let G3 := if p.2.multigraph then G2 else downgrade G2 p.2.edgeIds
    .ok (G3, p.2)

def graphsFold (table : List (Option String × KeyEntry))
    (defaults : List (Option String × Option String)) :
    List XmlElem → ReaderState → Except Err (List PyGraph)
  | [], _ => .ok []
  | g :: rest, st => do
    let p ← makeGraph table defaults g st
    let q ← graphsFold table defaults rest p.2
    .ok (p.1 :: q)

/-- `GraphMLReader.__call__` forced to a list (as both entry points do):
find the keys, then decode every `<graph>` child of the root, threading
the reader's `multigraph` / `edge_ids` instance state through them. -/
def decodeDocument (root : XmlElem) : Except Err (List PyGraph) := do
  let kd ← findGraphmlKeys root
  graphsFold kd.1 kd.2 (root.findall "graph") ⟨false, []⟩


/-! ## Concrete scenarios and spec-side predicates used by the claims -/

def decodedOf (root : XmlElem) : Option (List PyGraph) :=
  match decodeDocument root with
  | .ok gs => some gs
  | .error _ => none

def encodedDoc (infer : Bool) (G : PyGraph) : Option XmlElem :=
  match encodeBuffered infer G with
  | .ok p => some p.1
  | .error _ => none

/-- The buffered writer's final key registry. -/
def encodedKeys (infer : Bool) (G : PyGraph) :
    Option (List ((String × String × String) × String)) :=
  match encodeBuffered infer G with
  | .ok p => some p.2.1.keys
  | .error _ => none

/-- The streaming writer's written key registry. -/
def lxmlKeysOf (infer : Bool) (G : PyGraph) :
    Option (List ((String × String × String) × String)) :=
  match encodeLxmlKeys infer G with
  | .ok p => some p.1.keys
  | .error _ => none

/-- `(attr.name, for, attr.type)` of each `<key>` declaration of a
document, in document order. -/
def keySummary (root : XmlElem) : List (Option String × Option String × Option String) :=
  root.children.filterMap (fun c => if c.tag == "key"
    then some (c.get "attr.name", c.get "for", c.get "attr.type") else none)

/-- The §8 type-generalization scenario: one edge attribute `weight` seen
as integer `1` on one edge and float `2.5` on another. -/
def weightGraph : PyGraph :=
  ⟨true, false, [("a", []), ("b", []), ("c", [])],
   [⟨"a", "b", none, [("weight", .PInt 1)]⟩,
    ⟨"b", "c", none, [("weight", .PFloat ⟨false, 2, [5]⟩)]⟩],
   [("node_default", .PDict []), ("edge_default", .PDict [])]⟩

/-- A `<key>` declaring a boolean node attribute `flag` with id `k`. -/
def boolKeyElem : XmlElem :=
  .mk "key" [("id", "k"), ("for", "node"), ("attr.name", "flag"),
    ("attr.type", "boolean")] none []

/-- A document with one node whose `flag` data has the given text. -/
def boolDataDoc (t : String) : XmlElem :=
  .mk "graphml" [] none [boolKeyElem,
    .mk "graph" [("edgedefault", "directed")] none
      [.mk "node" [("id", "a")] none [.mk "data" [("key", "k")] (some t) []]]]

def boolFlagGraph (b : Bool) : PyGraph :=
  ⟨true, false, [("a", [("flag", .PBool b)])], [],
   [("node_default", .PDict []), ("edge_default", .PDict [])]⟩

/-- A directed graph whose only edge carries `directed="false"`. -/
def dirMismatchDoc : XmlElem :=
  .mk "graphml" [] none
    [.mk "graph" [("edgedefault", "directed")] none
      [.mk "edge" [("source", "a"), ("target", "b"), ("directed", "false")] none []]]

/-- A directed graph whose only edge carries the consistent
`directed="true"`. -/
def dirOkDoc : XmlElem :=
  .mk "graphml" [] none
    [.mk "graph" [("edgedefault", "directed")] none
      [.mk "edge" [("source", "a"), ("target", "b"), ("directed", "true")] none []]]

/-- A key table declaring a string-typed edge attribute named `key`. -/
def edgeKeyTable : List (Option String × KeyEntry) :=
  [(some "kk", ⟨"key", .tStr, some "edge"⟩)]

/-- An edge element whose `id` XML attribute is present but empty, and
whose data carries a `key` attribute with text `zz`. -/
def emptyIdEdgeElem : XmlElem :=
  .mk "edge" [("source", "a"), ("target", "b"), ("id", "")] none
    [.mk "data" [("key", "kk")] (some "zz") []]

def twoNodeGraph : PyGraph :=
  ⟨true, true, [("a", []), ("b", [])], [], []⟩

/-- The edge-multiplicity-key priority exactly as claimed, amended only
by the truthiness condition the code actually applies to the `id` XML
attribute: a present but empty `id` is skipped. -/
def claimedEdgeKey (idAttr : Option String) (data : List (String × GVal)) :
    Option GVal :=
  match idAttr with
  | some s =>
    if s = "" then alookup data "key"
    else some (match intFromChars s.data with
               | some n => GVal.PInt n
               | none => GVal.PStr s)
  | none => alookup data "key"

/-- Two endpoint pairs denote the same simple-graph slot. -/
def pairMatches (directed : Bool) (p q : String × String) : Bool :=
  (p.1 == q.1 && p.2 == q.2) || (!directed && p.1 == q.2 && p.2 == q.1)

/-- Some two edges of the list share an endpoint pair. -/
def hasDupPair (directed : Bool) : List PyEdge → Bool
  | [] => false
  | e :: rest =>
    rest.any (fun x => pairMatches directed (e.src, e.tgt) (x.src, x.tgt))
      || hasDupPair directed rest

/-- The converted endpoint pair of an `<edge>` element. -/
def elemEndpoints (ex : XmlElem) : String × String :=
  (pyNodeType (ex.get "source"), pyNodeType (ex.get "target"))

/-- Some two `<edge>` elements of the list share an endpoint pair. -/
def dupElemPair (directed : Bool) : List XmlElem → Bool
  | [] => false
  | ex :: rest =>
    rest.any (fun ey => pairMatches directed (elemEndpoints ex) (elemEndpoints ey))
      || dupElemPair directed rest

/-- A document with two `<graph>` elements: the first has a duplicate
`a → b` endpoint pair, the second a single `x → y` edge. -/
def twoGraphDoc : XmlElem :=
  .mk "graphml" [] none
    [.mk "graph" [("edgedefault", "directed")] none
      [.mk "node" [("id", "a")] none [], .mk "node" [("id", "b")] none [],
       .mk "edge" [("source", "a"), ("target", "b")] none [],
       .mk "edge" [("source", "a"), ("target", "b")] none []],
     .mk "graph" [("edgedefault", "directed")] none
      [.mk "node" [("id", "x")] none [], .mk "node" [("id", "y")] none [],
       .mk "edge" [("source", "x"), ("target", "y")] none []]]

/-- A multigraph with a single keyed edge and no parallel pair. -/
def singleEdgeMulti : PyGraph :=
  ⟨false, true, [("a", []), ("b", [])], [⟨"a", "b", some (.PInt 0), []⟩],
   [("node_default", .PDict []), ("edge_default", .PDict [])]⟩

/-- The key-registry invariant the amended C4 states: at most one entry
per `(name, xml type, scope)` triple, and identifiers `d0, d1, …`
assigned in first-seen order. -/
def registryWf (st : WriterState) : Prop :=
  (st.keys.map Prod.fst).Nodup
    ∧ st.keys.map Prod.snd = (List.range st.keys.length).map dId

/-- A key element with an id but neither `attr.name` nor `yfiles.type`. -/
def badKeyElem : XmlElem := .mk "key" [("id", "zz"), ("attr.type", "string")] none []

def badKeyDoc : XmlElem := .mk "graphml" [] none [badKeyElem]

/-- What decoding the encoded weight scenario must give: both `weight`
values widened to floats under the single `double`-typed key. -/
def weightGraphDecoded : PyGraph :=
  ⟨true, false, [("a", []), ("b", []), ("c", [])],
   [⟨"a", "b", none, [("weight", .PFloat ⟨false, 1, [0]⟩)]⟩,
    ⟨"b", "c", none, [("weight", .PFloat ⟨false, 2, [5]⟩)]⟩],
   [("node_default", .PDict []), ("edge_default", .PDict [])]⟩

/-- The single `<graph>` element of `c3WitDoc`. -/
def c3WitGx : XmlElem :=
  .mk "graph" [("edgedefault", "directed")] none
    [.mk "node" [("id", "a")] none [], .mk "node" [("id", "b")] none [],
     .mk "edge" [("source", "a"), ("target", "b"), ("id", "e7")] none []]

/-- A single-graph document whose one edge carries `id="e7"`. -/
def c3WitDoc : XmlElem :=
  .mk "graphml" [] none [c3WitGx]

/-- The graph `c3WitDoc` decodes to: simple (downgraded), with the edge
id reattached as a plain `id` attribute. -/
def c3WitG : PyGraph :=
  ⟨true, false, [("a", []), ("b", [])],
    [⟨"a", "b", none, [("id", GVal.PStr "e7")]⟩],
    [("node_default", GVal.PDict []), ("edge_default", GVal.PDict [])]⟩

/-- The per-name `get_key` request step shared by both writer strategies:
`f` resolves an attribute name to its declared XML type (`none` marks a
name whose resolved type is unsupported; an encode that reaches such a
name fails, so a successful pass never takes that branch), `dfltOf` the
default recorded for the name. -/
def nameStep (f : String → Option String) (dfltOf : String → Option GAtom)
    (scope : String) (st : WriterState) (k : String) : WriterState :=
  match f k with
  | none => st
  | some xt => (getKey k xt scope (dfltOf k) st).2

/-- Folding `nameStep` over an attribute bag. -/
def pairFold (f : String → Option String) (dfltOf : String → Option GAtom)
    (scope : String) (ps : List (String × GVal)) (st : WriterState) :
    WriterState :=
  ps.foldl (fun s p => nameStep f dfltOf scope s p.1) st

/-- The name's key request can no longer change the registry. -/
def kseen (f : String → Option String) (scope : String) (st : WriterState)
    (k : String) : Prop :=
  match f k with
  | none => True
  | some xt => (alookup st.keys (k, xt, scope)).isSome = true

def c5WitG : PyGraph :=
  ⟨true, false, [("a", [("w", .PInt 3)]), ("b", [("w", .PInt 4)])],
   [⟨"a", "b", none, [("rel", .PStr "x")]⟩],
   [("node_default", .PDict []), ("edge_default", .PDict []),
    ("title", .PStr "t")]⟩

/-- A scalar value that survives the `str`-then-convert round trip at its
own runtime type: its type maps to a GraphML type name, and converting its
printed form back at that type returns the value itself. -/
def ValOk (v : GVal) : Prop :=
  (xmlTypeOf (tagOf v)).isSome = true
    ∧ convertData (tagOf v) (pyStr v) = Except.ok v

/-- The `<key>` element the writer creates for a registry entry with no
default. -/
def keyElemOf (q : (String × String × String) × String) : XmlElem :=
  mkKeyElem q.1.1 q.1.2.1 q.1.2.2 q.2 none

/-- Writer-state invariant for the round trip: well-formed registry, one
default-free `<key>` element per entry in creation order, and every
declared type name readable back by the reader. -/
def wsOk (st : WriterState) : Prop :=
  registryWf st ∧ st.keyElems = st.keys.map keyElemOf
    ∧ ∀ q ∈ st.keys, (pythonTypeOf q.1.2.1).isSome = true

/-- The reader key table resolves every id the writer registry assigned,
with the name, the scope, and the declared type read back. -/
def tableCorr (stk : List ((String × String × String) × String))
    (table : List (Option String × KeyEntry)) : Prop :=
  ∀ n x s id t, alookup stk (n, x, s) = some id → pythonTypeOf x = some t →
    alookup table (some id) = some ⟨n, t, some s⟩

def c1WitG : PyGraph :=
  ⟨true, false, [("a", [("w", .PInt 3)]), ("b", [])],
   [⟨"a", "b", none, [("rel", .PStr "x")]⟩],
   [("node_default", .PDict []), ("edge_default", .PDict []),
    ("title", .PStr "t")]⟩

/-! ## Theorems -/


theorem digitVal_dchar {d : Nat} (h : d < 10) : digitVal (dchar d) = some d := by
  interval_cases d <;> decide

theorem dchar_digit_range {d : Nat} (h : d < 10) :
    48 ≤ (dchar d).toNat ∧ (dchar d).toNat ≤ 57 := by
  interval_cases d <;> decide

theorem natCharsAux_eq (fuel1 fuel2 n : Nat) (h1 : n < fuel1) (h2 : n < fuel2) :
    natCharsAux fuel1 n = natCharsAux fuel2 n := by
  induction n using Nat.strong_induction_on generalizing fuel1 fuel2 with
  | _ n ih =>
    cases fuel1 with
    | zero => omega
    | succ f1 =>
      cases fuel2 with
      | zero => omega
      | succ f2 =>
        simp only [natCharsAux]
        split
        · rfl
        · next h =>
          rw [ih (n / 10) (Nat.div_lt_self (by omega) (by omega)) f1 f2
            (by omega) (by omega)]

theorem natChars_eq (n : Nat) :
    natChars n = if n < 10 then [dchar n] else natChars (n / 10) ++ [dchar (n % 10)] := by
  show natCharsAux (n + 1) n = _
  simp only [natCharsAux]
  split
  · rfl
  · next h =>
    rw [natCharsAux_eq n (n / 10 + 1) (n / 10) (by omega) (by omega)]
    rfl

theorem natChars_ne_nil (n : Nat) : natChars n ≠ [] := by
  rw [natChars_eq]
  split <;> simp

theorem natChars_digits (n : Nat) : ∀ c ∈ natChars n, ∃ d, d < 10 ∧ c = dchar d := by
  induction n using Nat.strong_induction_on with
  | _ n ih =>
    rw [natChars_eq]
    split
    · next h =>
      intro c hc
      simp only [List.mem_singleton] at hc
      exact ⟨n, h, hc⟩
    · next h =>
      intro c hc
      rw [List.mem_append] at hc
      rcases hc with hc | hc
      · exact ih (n / 10) (Nat.div_lt_self (by omega) (by omega)) c hc
      · simp only [List.mem_singleton] at hc
        exact ⟨n % 10, Nat.mod_lt _ (by omega), hc⟩

theorem parseDigits_append (a : Nat) (xs ys : List Char) :
    parseDigits a (xs ++ ys) =
      match parseDigits a xs with
      | some b => parseDigits b ys
      | none => none := by
  induction xs generalizing a with
  | nil => simp [parseDigits]
  | cons c cs ih =>
    simp only [List.cons_append, parseDigits]
    cases digitVal c with
    | some d => exact ih (a * 10 + d)
    | none => rfl

theorem parseDigits_natChars (n : Nat) :
    ∀ a, parseDigits a (natChars n) = some (a * 10 ^ (natChars n).length + n) := by
  induction n using Nat.strong_induction_on with
  | _ n ih =>
    intro a
    rw [natChars_eq]
    split
    · next h =>
      simp only [parseDigits, digitVal_dchar h, List.length_cons, List.length_nil]
      rw [pow_one]
    · next h =>
      rw [parseDigits_append, ih (n / 10) (Nat.div_lt_self (by omega) (by omega)) a]
      simp only [parseDigits, digitVal_dchar (Nat.mod_lt n (by omega)), List.length_append,
        List.length_cons, List.length_nil]
      have hpow : (10 : Nat) ^ ((natChars (n / 10)).length + (0 + 1))
          = 10 ^ (natChars (n / 10)).length * 10 := by
        rw [pow_succ]
      rw [hpow]
      have hq : a * (10 ^ (natChars (n / 10)).length * 10)
          = a * 10 ^ (natChars (n / 10)).length * 10 := by ring
      rw [hq]
      generalize a * (10 : Nat) ^ (natChars (n / 10)).length = q
      congr 1
      omega

theorem parseDigits_natChars_zero (n : Nat) : parseDigits 0 (natChars n) = some n := by
  rw [parseDigits_natChars]
  simp

theorem natChars_no_sign (n : Nat) : ∀ c ∈ natChars n, c ≠ '-' ∧ c ≠ '+' := by
  intro c hc
  obtain ⟨d, hd, rfl⟩ := natChars_digits n c hc
  interval_cases d <;> exact ⟨by decide, by decide⟩

theorem intFromChars_neg (cs : List Char) (h : cs ≠ []) :
    intFromChars ('-' :: cs) = Option.map (fun n : Nat => -(n : Int)) (parseDigits 0 cs) := by
  simp [intFromChars, h]

theorem intFromChars_unsigned (c : Char) (cs : List Char) (h1 : c ≠ '-') (h2 : c ≠ '+') :
    intFromChars (c :: cs) = Option.map (fun n : Nat => (n : Int)) (parseDigits 0 (c :: cs)) := by
  simp [intFromChars, h1, h2]

/-- Round trip: Python `int(str(i)) = i`. -/
theorem intFromChars_intChars (i : Int) : intFromChars (intChars i) = some i := by
  unfold intChars
  split
  · next h =>
    rw [intFromChars_neg _ (natChars_ne_nil i.natAbs), parseDigits_natChars_zero]
    show some (-(i.natAbs : Int)) = some i
    congr 1
    omega
  · next h =>
    cases hcs : natChars i.natAbs with
    | nil => exact absurd hcs (natChars_ne_nil _)
    | cons c cs =>
      have hsign : c ≠ '-' ∧ c ≠ '+' := natChars_no_sign _ c (by rw [hcs]; simp)
      rw [intFromChars_unsigned c cs hsign.1 hsign.2, ← hcs, parseDigits_natChars_zero]
      show some ((i.natAbs : Int)) = some i
      congr 1
      omega

theorem floatFromChars_dash (cs : List Char) (h : cs ≠ []) :
    floatFromChars ('-' :: cs) = floatFromCharsCore true cs := by
  simp [floatFromChars, h]

theorem splitAtDot_append (xs ys : List Char) (h : '.' ∉ xs) :
    splitAtDot (xs ++ '.' :: ys) = some (xs, ys) := by
  induction xs with
  | nil => simp [splitAtDot]
  | cons c cs ih =>
    have hc : c ≠ '.' := fun hcontra => h (by rw [hcontra]; exact List.mem_cons_self _ _)
    have hcs : '.' ∉ cs := fun hmem => h (List.mem_cons_of_mem _ hmem)
    simp only [List.cons_append, splitAtDot, if_neg hc, List.append_eq, ih hcs,
      Option.map_some]
    rfl

theorem natChars_no_dot (n : Nat) : '.' ∉ natChars n := by
  intro hmem
  obtain ⟨d, hd, hc⟩ := natChars_digits n '.' hmem
  interval_cases d <;> exact absurd hc (by decide)

theorem digitsOf_map_dchar (ds : List Nat) (h : ∀ d ∈ ds, d < 10) :
    digitsOf (ds.map dchar) = some ds := by
  induction ds with
  | nil => rfl
  | cons d rest ih =>
    simp only [List.map_cons, digitsOf, List.mapM_cons]
    rw [digitVal_dchar (h d (List.mem_cons_self _ _))]
    have := ih (fun x hx => h x (List.mem_cons_of_mem _ hx))
    simp only [digitsOf] at this
    rw [this]
    rfl

theorem canonFrac_of_wf (l : List Nat) (hne : l ≠ [])
    (hlast : l.getLast? = some 0 → l = [0]) : canonFrac l = l := by
  match hrev : l.reverse with
  | [] => exact absurd (by simpa using congrArg List.reverse hrev) hne
  | d :: t =>
    by_cases hd : d = 0
    · subst hd
      have : l.getLast? = some 0 := by
        rw [← List.head?_reverse, hrev]
        rfl
      rw [hlast this]
      decide
    · unfold canonFrac
      rw [hrev]
      simp only [List.dropWhile_cons, decide_eq_true_eq, if_neg hd]
      rw [← hrev, List.reverse_reverse]
      simp [hne]

/-- Round trip: Python `float(str(x)) = x` for a canonical printed form. -/
theorem floatFromChars_floatChars (f : PyFloat) (hwf : f.wf = true) :
    floatFromChars (floatChars f) = some f := by
  have hwf1 : f.frac ≠ [] := by
    unfold PyFloat.wf at hwf
    simp only [Bool.and_eq_true, decide_eq_true_eq] at hwf
    exact hwf.1.1
  have hwf2 : ∀ d ∈ f.frac, d < 10 := by
    unfold PyFloat.wf at hwf
    simp only [Bool.and_eq_true, List.all_eq_true, decide_eq_true_eq] at hwf
    exact hwf.1.2
  have hwf3 : f.frac.getLast? = some 0 → f.frac = [0] := by
    intro hl
    unfold PyFloat.wf at hwf
    rw [hl] at hwf
    simp only [Bool.and_eq_true, decide_eq_true_eq] at hwf
    exact hwf.2
  have hcond : ¬(natChars f.ip = [] ∧ f.frac.map dchar = []) := by
    intro hcontra
    exact natChars_ne_nil f.ip hcontra.1
  have hcore : ∀ b, floatFromCharsCore b (natChars f.ip ++ '.' :: f.frac.map dchar)
      = some (PyFloat.mk b f.ip f.frac) := by
    intro b
    unfold floatFromCharsCore
    rw [splitAtDot_append _ _ (natChars_no_dot f.ip)]
    dsimp only
    rw [if_neg hcond, if_neg (natChars_ne_nil f.ip), parseDigits_natChars_zero,
      digitsOf_map_dchar _ hwf2]
    dsimp only
    rw [canonFrac_of_wf _ hwf1 hwf3]
  unfold floatChars
  cases hneg : f.neg
  · simp only [Bool.false_eq_true, if_false, List.nil_append]
    cases hcs : natChars f.ip with
    | nil => exact absurd hcs (natChars_ne_nil _)
    | cons c cs =>
      have hsign := natChars_no_sign f.ip c (by rw [hcs]; simp)
      rw [List.cons_append]
      simp only [floatFromChars, if_neg hsign.1, if_neg hsign.2]
      rw [← List.cons_append, ← hcs, hcore false, ← hneg]
  · simp only [if_true, List.singleton_append]
    rw [List.cons_append, floatFromChars_dash _ (by simp), hcore true, ← hneg]


theorem ensureNode_edges (G : PyGraph) (u : String) :
    (ensureNode G u).edges = G.edges := by
  unfold ensureNode
  split <;> rfl

theorem ensureNode_directed (G : PyGraph) (u : String) :
    (ensureNode G u).directed = G.directed := by
  unfold ensureNode
  split <;> rfl

theorem ensureNode_multi (G : PyGraph) (u : String) :
    (ensureNode G u).multi = G.multi := by
  unfold ensureNode
  split <;> rfl

theorem ensureNode_graphAttrs (G : PyGraph) (u : String) :
    (ensureNode G u).graphAttrs = G.graphAttrs := by
  unfold ensureNode
  split <;> rfl


/-- Claim C7: decoding a boolean-typed data element is case-insensitive
and accepts exactly the tokens `true`, `false`, `0`, `1`; the text
`"TRUE"` decodes to `true`, while any other token such as `"2"` is a
fatal decode error for the document. -/
theorem C7_bool_literal_set :
    (∀ t : String, convertData TagTy.tBool t =
      (if strLower t = "true" ∨ strLower t = "1" then Except.ok (GVal.PBool true)
       else if strLower t = "false" ∨ strLower t = "0" then Except.ok (GVal.PBool false)
       else Except.error (Err.badBoolean t)))
    ∧ decodeDocument (boolDataDoc "TRUE") = Except.ok [boolFlagGraph true]
    ∧ decodeDocument (boolDataDoc "2") = Except.error (Err.badBoolean "2") := by
  refine ⟨fun t => ?_, by decide, by decide⟩
  unfold convertData convertBool
  by_cases h1 : strLower t = "true" <;> by_cases h2 : strLower t = "false" <;>
    by_cases h3 : strLower t = "0" <;> by_cases h4 : strLower t = "1" <;>
    simp_all

theorem findKeysFold_cons (k : XmlElem) (rest : List XmlElem)
    (table : List (Option String × KeyEntry))
    (defaults : List (Option String × Option String)) :
    findKeysFold (k :: rest) table defaults =
      (match resolvedKeyName k with
       | none => Except.error (Err.missingKeyName (k.get "id"))
       | some nm =>
         match pythonTypeOf (resolvedKeyTypeName k) with
         | none => Except.error (Err.unknownKeyType (resolvedKeyTypeName k))
         | some pt =>
           findKeysFold rest (aupdate table (k.get "id") ⟨nm, pt, k.get "for"⟩)
             (match k.findTag "default" with
              | some d => aupdate defaults (k.get "id") d.text
              | none => defaults)) := rfl

theorem findKeysFold_badkey (ks : List XmlElem) (k : XmlElem) (hk : k ∈ ks)
    (h1 : k.get "attr.name" = none) (h2 : k.get "yfiles.type" = none) :
    ∀ table defaults, ∃ e, findKeysFold ks table defaults = Except.error e := by
  induction ks with
  | nil => cases hk
  | cons k0 rest ih =>
    intro table defaults
    rcases List.mem_cons.mp hk with heq | hmem
    · subst heq
      have hrn : resolvedKeyName k = none := by
        unfold resolvedKeyName
        rw [h2, h1]
      exact ⟨Err.missingKeyName (k.get "id"), by rw [findKeysFold_cons, hrn]⟩
    · rw [findKeysFold_cons]
      cases hr : resolvedKeyName k0 with
      | none => exact ⟨_, rfl⟩
      | some nm =>
        cases hp : pythonTypeOf (resolvedKeyTypeName k0) with
        | none => exact ⟨_, rfl⟩
        | some pt => exact ih hmem _ _

/-- Claim C10: a `<key>` element with neither `attr.name` nor
`yfiles.type` makes the document decode fail (unlike a missing
`attr.type` alone, which is recovered by defaulting the type to `string`
with a warning); a present `yfiles.type` overrides both the name and the
type, the resolved type name becoming the decode-only pseudo-type
`yfiles` (whose decode constructor `python_type["yfiles"]` is `str`). -/
theorem C10_key_header_rules :
    (∀ root k, k ∈ root.findall "key" → k.get "attr.name" = none →
      k.get "yfiles.type" = none → ∃ e, decodeDocument root = Except.error e)
    ∧ (∀ (k : XmlElem) (nm : String), k.get "yfiles.type" = none →
      k.get "attr.type" = none → k.get "attr.name" = some nm →
      ∀ rest table defaults, findKeysFold (k :: rest) table defaults =
        findKeysFold rest
          (aupdate table (k.get "id") ⟨nm, TagTy.tStr, k.get "for"⟩)
          (match k.findTag "default" with
           | some d => aupdate defaults (k.get "id") d.text
           | none => defaults))
    ∧ (∀ (k : XmlElem) (y : String), k.get "yfiles.type" = some y →
      resolvedKeyName k = some y ∧ resolvedKeyTypeName k = "yfiles"
        ∧ pythonTypeOf (resolvedKeyTypeName k) = some TagTy.tStr) := by
  refine ⟨?_, ?_, ?_⟩
  · intro root k hk h1 h2
    obtain ⟨e, he⟩ := findKeysFold_badkey _ k hk h1 h2 [] []
    refine ⟨e, ?_⟩
    unfold decodeDocument findGraphmlKeys
    rw [he]
    rfl
  · intro k nm hy ht hn rest table defaults
    have hrn : resolvedKeyName k = some nm := by
      unfold resolvedKeyName
      rw [hy, hn]
    have hrt : resolvedKeyTypeName k = "string" := by
      unfold resolvedKeyTypeName
      rw [hy, ht]
    rw [findKeysFold_cons, hrn, hrt]
    rfl
  · intro k y hy
    refine ⟨?_, ?_, ?_⟩
    · unfold resolvedKeyName
      rw [hy]
    · unfold resolvedKeyTypeName
      rw [hy]
    · unfold resolvedKeyTypeName
      rw [hy]
      rfl

/-- Witness for C10: a concrete nameless key makes the decode fail. -/
theorem C10_witness : ∃ e, decodeDocument badKeyDoc = Except.error e :=
  C10_key_header_rules.1 badKeyDoc badKeyElem (List.Mem.head _) rfl rfl

/-- Claim C2: with inference enabled and more than one observed runtime
type for a `(name, scope)` pair, the resolved type follows the fixed
precedence — text beats everything, then `float`/`double`, then the
integer type (Python 3 collapses `long` and `int` into one type, so the
wider/narrower integer steps coincide; boolean never wins a mixed set).
Concretely, the graph whose edge attribute `weight` is the integer `1` on
one edge and the float `2.5` on another declares exactly one `<key>`,
for `(weight, edge)` with type `double`, and both data values decode back
as floats. -/
theorem C2_type_generalization :
    (∀ (types : List TagTy) (v : GVal), 1 < types.length →
      (TagTy.tStr ∈ types → attrType true types v = TagTy.tStr)
      ∧ (TagTy.tStr ∉ types → TagTy.tFloat ∈ types →
          attrType true types v = TagTy.tFloat)
      ∧ (TagTy.tStr ∉ types → TagTy.tFloat ∉ types →
          attrType true types v = TagTy.tInt))
    ∧ (encodedDoc true weightGraph).map keySummary
        = some [(some "weight", some "edge", some "double")]
    ∧ (encodedDoc true weightGraph).bind decodedOf = some [weightGraphDecoded] := by
  refine ⟨fun types v h => ⟨?_, ?_, ?_⟩, by decide, by rfl⟩
  · intro hs
    simp [attrType, h, hs]
  · intro hs hf
    simp [attrType, h, hs, hf]
  · intro hs hf
    simp [attrType, h, hs, hf]

/-- Witness for C2 at a concrete mixed observation set. -/
theorem C2_witness :
    attrType true [TagTy.tInt, TagTy.tFloat] (GVal.PInt 1) = TagTy.tFloat :=
  (C2_type_generalization.1 [TagTy.tInt, TagTy.tFloat] (GVal.PInt 1)
    (by decide)).2.1 (by simp) (by simp)

/-- Counterexample to C6 as stated: this edge element's `id` XML
attribute is present (the empty string), yet the decoded multiplicity key
is taken from the `key` data attribute (`"zz"`), not from the `id`
(which, per the claim, should have been kept as the literal `""` after
`int("")` fails).  The code's `if edge_id:` treats an empty `id` as
absent. -/
theorem C6_counterexample :
    emptyIdEdgeElem.get "id" = some ""
    ∧ addEdgeR edgeKeyTable emptyIdEdgeElem twoNodeGraph ⟨false, []⟩
        = Except.ok (⟨true, true, [("a", []), ("b", [])],
            [⟨"a", "b", some (.PStr "zz"), [("key", .PStr "zz")]⟩], []⟩, ⟨false, []⟩) :=
  ⟨rfl, rfl⟩

/-- Claim C6 amended: the provisional multiplicity key of a decoded edge
follows the priority (1) a present, non-empty `id` XML attribute,
converted through the edge-key type (`int`) when possible and otherwise
kept as its literal string form, (2) else the `key` data attribute, (3)
else a `None` key, which the multigraph insertion replaces by an
auto-assigned integer key. -/
theorem C6_edge_key_priority :
    (∀ table ex G st p, addEdgeR table ex G st = Except.ok p →
      ∃ data, decodeDatas table (ex.findall "data") [] = Except.ok data
        ∧ p.1 = graphAddEdge G (pyNodeType (ex.get "source"))
            (pyNodeType (ex.get "target")) (claimedEdgeKey (ex.get "id") data) data)
    ∧ (∀ (G : PyGraph) (u v : String) (data : List (String × GVal)), ∃ n : Nat,
        (graphAddEdge G u v none data).edges
          = G.edges ++ [⟨u, v, some (.PInt n), data⟩]) := by
  constructor
  · intro table ex G st p h
    unfold addEdgeR at h
    by_cases h1 : G.directed = true ∧ ex.get "directed" = some "false"
    · rw [if_pos h1] at h
      cases h
    · rw [if_neg h1] at h
      by_cases h2 : ¬G.directed = true ∧ ex.get "directed" = some "true"
      · rw [if_pos h2] at h
        cases h
      · rw [if_neg h2] at h
        cases hd : decodeDatas table (ex.findall "data") [] with
        | error e =>
          rw [hd] at h
          simp only [Bind.bind, Except.bind] at h
          cases h
        | ok data =>
          rw [hd] at h
          simp only [Bind.bind, Except.bind, Except.ok.injEq] at h
          refine ⟨data, rfl, ?_⟩
          rw [← h]
          cases hid : ex.get "id" with
          | none => rfl
          | some s =>
            by_cases hs : s = ""
            · subst hs
              simp [claimedEdgeKey]
            · simp [claimedEdgeKey, hs]
  · intro G u v data
    unfold graphAddEdge
    dsimp only
    refine ⟨((ensureNode (ensureNode G u) v).edges.filter
      (edgeMatches (ensureNode (ensureNode G u) v).directed u v)).length, ?_⟩
    show (ensureNode (ensureNode G u) v).edges ++ _ = _
    rw [ensureNode_edges, ensureNode_edges]

/-- Witness for the amended C6 at the concrete inputs. -/
theorem C6_witness :
    ∃ data, decodeDatas edgeKeyTable (emptyIdEdgeElem.findall "data") [] = Except.ok data
      ∧ (⟨true, true, [("a", []), ("b", [])],
          [⟨"a", "b", some (.PStr "zz"), [("key", .PStr "zz")]⟩], []⟩ : PyGraph)
        = graphAddEdge twoNodeGraph (pyNodeType (emptyIdEdgeElem.get "source"))
            (pyNodeType (emptyIdEdgeElem.get "target"))
            (claimedEdgeKey (emptyIdEdgeElem.get "id") data) data :=
  C6_edge_key_priority.1 edgeKeyTable emptyIdEdgeElem twoNodeGraph ⟨false, []⟩
    (⟨true, true, [("a", []), ("b", [])],
      [⟨"a", "b", some (.PStr "zz"), [("key", .PStr "zz")]⟩], []⟩, ⟨false, []⟩) rfl

theorem graphAddEdge_directed (G : PyGraph) (u v : String) (k : Option GVal)
    (d : List (String × GVal)) : (graphAddEdge G u v k d).directed = G.directed := by
  unfold graphAddEdge
  dsimp only
  cases k with
  | none =>
    rw [show (ensureNode (ensureNode G u) v).directed = G.directed by
      rw [ensureNode_directed, ensureNode_directed]]
  | some k0 =>
    dsimp only
    split <;>
      first
        | rfl
        | rw [show (ensureNode (ensureNode G u) v).directed = G.directed by
            rw [ensureNode_directed, ensureNode_directed]]

theorem graphAddEdge_multi (G : PyGraph) (u v : String) (k : Option GVal)
    (d : List (String × GVal)) : (graphAddEdge G u v k d).multi = G.multi := by
  unfold graphAddEdge
  dsimp only
  cases k with
  | none =>
    rw [show (ensureNode (ensureNode G u) v).multi = G.multi by
      rw [ensureNode_multi, ensureNode_multi]]
  | some k0 =>
    dsimp only
    split <;>
      first
        | rfl
        | rw [show (ensureNode (ensureNode G u) v).multi = G.multi by
            rw [ensureNode_multi, ensureNode_multi]]

theorem graphAddEdge_graphAttrs (G : PyGraph) (u v : String) (k : Option GVal)
    (d : List (String × GVal)) : (graphAddEdge G u v k d).graphAttrs = G.graphAttrs := by
  unfold graphAddEdge
  dsimp only
  cases k with
  | none =>
    rw [show (ensureNode (ensureNode G u) v).graphAttrs = G.graphAttrs by
      rw [ensureNode_graphAttrs, ensureNode_graphAttrs]]
  | some k0 =>
    dsimp only
    split <;>
      first
        | rfl
        | rw [show (ensureNode (ensureNode G u) v).graphAttrs = G.graphAttrs by
            rw [ensureNode_graphAttrs, ensureNode_graphAttrs]]

theorem graphAddNode_directed (G : PyGraph) (nid : String)
    (d : List (String × GVal)) : (graphAddNode G nid d).directed = G.directed := by
  unfold graphAddNode
  split <;> rfl

theorem addNodeR_directed (table : List (Option String × KeyEntry)) (G : PyGraph)
    (nx0 : XmlElem) (G1 : PyGraph) (h : addNodeR table G nx0 = Except.ok G1) :
    G1.directed = G.directed := by
  unfold addNodeR at h
  cases hd : decodeDatas table (nx0.findall "data") [] with
  | error e =>
    rw [hd] at h
    simp only [Bind.bind, Except.bind] at h
    cases h
  | ok data =>
    rw [hd] at h
    simp only [Bind.bind, Except.bind, Except.ok.injEq] at h
    rw [← h]
    exact graphAddNode_directed G _ data

theorem nodesFold_directed (table : List (Option String × KeyEntry)) :
    ∀ (ns : List XmlElem) (G G1 : PyGraph),
      nodesFold table ns G = Except.ok G1 → G1.directed = G.directed := by
  intro ns
  induction ns with
  | nil =>
    intro G G1 h
    unfold nodesFold at h
    cases h
    rfl
  | cons n rest ih =>
    intro G G1 h
    unfold nodesFold at h
    cases ha : addNodeR table G n with
    | error e =>
      rw [ha] at h
      simp only [Bind.bind, Except.bind] at h
      cases h
    | ok G2 =>
      rw [ha] at h
      simp only [Bind.bind, Except.bind] at h
      rw [ih G2 G1 h]
      exact addNodeR_directed table G n G2 ha

theorem addEdgeR_ok_checks (table : List (Option String × KeyEntry)) (ex : XmlElem)
    (G : PyGraph) (st : ReaderState) (p : PyGraph × ReaderState)
    (h : addEdgeR table ex G st = Except.ok p) :
    ¬(G.directed = true ∧ ex.get "directed" = some "false")
      ∧ ¬(G.directed = false ∧ ex.get "directed" = some "true")
      ∧ p.1.directed = G.directed := by
  unfold addEdgeR at h
  by_cases h1 : G.directed = true ∧ ex.get "directed" = some "false"
  · rw [if_pos h1] at h
    cases h
  · rw [if_neg h1] at h
    by_cases h2 : ¬G.directed = true ∧ ex.get "directed" = some "true"
    · rw [if_pos h2] at h
      cases h
    · rw [if_neg h2] at h
      refine ⟨h1, ?_, ?_⟩
      · intro hcontra
        exact h2 ⟨by simp [hcontra.1], hcontra.2⟩
      · cases hd : decodeDatas table (ex.findall "data") [] with
        | error e =>
          rw [hd] at h
          simp only [Bind.bind, Except.bind] at h
          cases h
        | ok data =>
          rw [hd] at h
          simp only [Bind.bind, Except.bind, Except.ok.injEq] at h
          rw [← h]
          exact graphAddEdge_directed G _ _ _ data

theorem edgesFold_checks (table : List (Option String × KeyEntry)) :
    ∀ (exs : List XmlElem) (G : PyGraph) (st : ReaderState)
      (p : PyGraph × ReaderState), edgesFold table exs G st = Except.ok p →
      ∀ ex ∈ exs,
        ¬(G.directed = true ∧ ex.get "directed" = some "false")
          ∧ ¬(G.directed = false ∧ ex.get "directed" = some "true") := by
  intro exs
  induction exs with
  | nil =>
    intro G st p _ ex hmem
    cases hmem
  | cons e0 rest ih =>
    intro G st p h ex hmem
    unfold edgesFold at h
    cases ha : addEdgeR table e0 G st with
    | error err =>
      rw [ha] at h
      simp only [Bind.bind, Except.bind] at h
      cases h
    | ok q =>
      rw [ha] at h
      simp only [Bind.bind, Except.bind] at h
      obtain ⟨hc1, hc2, hdir⟩ := addEdgeR_ok_checks table e0 G st q ha
      rcases List.mem_cons.mp hmem with rfl | hmem2
      · exact ⟨hc1, hc2⟩
      · have := ih q.1 q.2 p h ex hmem2
        rw [hdir] at this
        exact this

theorem makeGraph_ok_edges (table : List (Option String × KeyEntry))
    (defaults : List (Option String × Option String)) (gx : XmlElem)
    (st : ReaderState) (p : PyGraph × ReaderState)
    (h : makeGraph table defaults gx st = Except.ok p) :
    ∃ (G1 : PyGraph) (st1 : ReaderState) (q : PyGraph × ReaderState),
      edgesFold table (gx.findall "edge") G1 st1 = Except.ok q
        ∧ G1.directed = decide (gx.get "edgedefault" = some "directed") := by
  unfold makeGraph at h
  cases hdf : defaultsFold table defaults [] [] with
  | error e =>
    rw [hdf] at h
    simp only [Bind.bind, Except.bind] at h
    cases h
  | ok nded =>
    rw [hdf] at h
    simp only [Bind.bind, Except.bind] at h
    split at h
    · cases h
    · cases hn : nodesFold table (gx.findall "node")
        ⟨decide (gx.get "edgedefault" = some "directed"), true, [], [],
         [("node_default", .PDict nded.1), ("edge_default", .PDict nded.2)]⟩ with
      | error e =>
        rw [hn] at h
        simp only [Bind.bind, Except.bind] at h
        cases h
      | ok G1 =>
        rw [hn] at h
        simp only [Bind.bind, Except.bind] at h
        cases he : edgesFold table (gx.findall "edge") G1 st with
        | error e =>
          rw [he] at h
          simp only [Bind.bind, Except.bind] at h
          cases h
        | ok q =>
          exact ⟨G1, st, q, he, nodesFold_directed table _ _ G1 hn⟩

theorem graphsFold_ok_each (table : List (Option String × KeyEntry))
    (defaults : List (Option String × Option String)) :
    ∀ (gxs : List XmlElem) (st : ReaderState) (gs : List PyGraph),
      graphsFold table defaults gxs st = Except.ok gs →
      ∀ gx ∈ gxs, ∃ (st1 : ReaderState) (p : PyGraph × ReaderState),
        makeGraph table defaults gx st1 = Except.ok p := by
  intro gxs
  induction gxs with
  | nil =>
    intro st gs _ gx hmem
    cases hmem
  | cons g0 rest ih =>
    intro st gs h gx hmem
    unfold graphsFold at h
    cases hm : makeGraph table defaults g0 st with
    | error e =>
      rw [hm] at h
      simp only [Bind.bind, Except.bind] at h
      cases h
    | ok p0 =>
      rw [hm] at h
      simp only [Bind.bind, Except.bind] at h
      rcases List.mem_cons.mp hmem with rfl | hmem2
      · exact ⟨st, p0, hm⟩
      · cases hr : graphsFold table defaults rest p0.2 with
        | error e =>
          rw [hr] at h
          simp only [Bind.bind, Except.bind] at h
          cases h
        | ok gs2 => exact ih p0.2 gs2 hr gx hmem2

/-- Claim C8: an edge whose own `directed` XML attribute contradicts the
enclosing graph's directedness (`directed="false"` inside a directed
graph, or `directed="true"` inside an undirected one) makes the decode of
the whole document fail — equivalently, a document that decodes
successfully contains no such edge; and the concrete mismatching document
fails with the direction-mismatch error. -/
theorem C8_direction_mismatch :
    (∀ root gs, decodeDocument root = Except.ok gs →
      ∀ gx ∈ root.findall "graph", ∀ ex ∈ gx.findall "edge",
        ¬(gx.get "edgedefault" = some "directed" ∧ ex.get "directed" = some "false")
          ∧ ¬(¬(gx.get "edgedefault" = some "directed")
              ∧ ex.get "directed" = some "true"))
    ∧ decodeDocument dirMismatchDoc = Except.error (Err.directionMismatch true) := by
  refine ⟨?_, by rfl⟩
  intro root gs h gx hgx ex hex
  unfold decodeDocument at h
  cases hk : findGraphmlKeys root with
  | error e =>
    rw [hk] at h
    simp only [Bind.bind, Except.bind] at h
    cases h
  | ok kd =>
    rw [hk] at h
    simp only [Bind.bind, Except.bind] at h
    obtain ⟨st1, p, hm⟩ := graphsFold_ok_each kd.1 kd.2 _ _ _ h gx hgx
    obtain ⟨G1, st2, q, he, hdir⟩ := makeGraph_ok_edges kd.1 kd.2 gx st1 p hm
    have hc := edgesFold_checks kd.1 _ G1 st2 q he ex hex
    by_cases hedd : gx.get "edgedefault" = some "directed"
    · have : G1.directed = true := by rw [hdir]; simp [hedd]
      rw [this] at hc
      exact ⟨fun hcontra => hc.1 ⟨rfl, hcontra.2⟩, fun hcontra => absurd hedd hcontra.1⟩
    · have : G1.directed = false := by rw [hdir]; simp [hedd]
      rw [this] at hc
      exact ⟨fun hcontra => absurd hcontra.1 hedd, fun hcontra => hc.2 ⟨rfl, hcontra.2⟩⟩

/-- Witness for C8: a consistent document decodes, and the theorem then
denies any contradiction on its edge. -/
theorem C8_witness :
    ¬((dirOkDoc.children.headD (XmlElem.mk "" [] none [])).get "edgedefault"
          = some "directed"
        ∧ (((dirOkDoc.children.headD (XmlElem.mk "" [] none [])).findall
            "edge").headD (XmlElem.mk "" [] none [])).get "directed" = some "false") :=
  (C8_direction_mismatch.1 dirOkDoc
    [⟨true, false, [("a", []), ("b", [])], [⟨"a", "b", none, []⟩],
      [("node_default", .PDict []), ("edge_default", .PDict [])]⟩] rfl
    ((dirOkDoc.children.headD (XmlElem.mk "" [] none [])))
    (by exact List.Mem.head _)
    ((((dirOkDoc.children.headD (XmlElem.mk "" [] none [])).findall
        "edge").headD (XmlElem.mk "" [] none [])))
    (by exact List.Mem.head _)).1

theorem alookup_eq_none {α β : Type} [DecidableEq α] (l : List (α × β)) (k : α)
    (h : k ∉ l.map Prod.fst) : alookup l k = none := by
  induction l with
  | nil => rfl
  | cons p rest ih =>
    obtain ⟨a, b⟩ := p
    simp only [List.map_cons, List.mem_cons] at h
    simp only [alookup]
    rw [if_neg (fun hcontra => h (Or.inl hcontra.symm))]
    exact ih (fun hm => h (Or.inr hm))

theorem alookup_aerase_ne {α β : Type} [DecidableEq α] (l : List (α × β)) (k k1 : α)
    (hne : k1 ≠ k) : alookup (aerase l k) k1 = alookup l k1 := by
  induction l with
  | nil => rfl
  | cons p rest ih =>
    obtain ⟨a, b⟩ := p
    by_cases hp : a = k
    · subst hp
      have h1 : aerase ((a, b) :: rest) a = rest := by
        simp [aerase]
      rw [h1]
      have h2 : alookup ((a, b) :: rest) k1 = alookup rest k1 := by
        simp only [alookup]
        rw [if_neg (fun hcontra => hne hcontra.symm)]
      rw [h2]
    · have h1 : aerase ((a, b) :: rest) k = (a, b) :: aerase rest k := by
        simp only [aerase]
        rw [if_neg hp]
      rw [h1]
      simp only [alookup]
      by_cases hq : a = k1
      · rw [if_pos hq, if_pos hq]
      · rw [if_neg hq, if_neg hq]
        exact ih

theorem alookup_aerase_self {α β : Type} [DecidableEq α] (l : List (α × β)) (k : α)
    (hnd : (l.map Prod.fst).Nodup) : alookup (aerase l k) k = none := by
  induction l with
  | nil => rfl
  | cons p rest ih =>
    obtain ⟨a, b⟩ := p
    simp only [List.map_cons, List.nodup_cons] at hnd
    by_cases hp : a = k
    · simp only [aerase, if_pos hp]
      subst hp
      exact alookup_eq_none rest a hnd.1
    · simp only [aerase, if_neg hp, alookup]
      exact ih hnd.2

theorem emitDatas_cons (infer : Bool) (allRecs : List ARec) (r : ARec)
    (rest : List ARec) (st : WriterState) :
    emitDatas infer allRecs (r :: rest) st =
      Except.bind (addData r.name (attrType infer (observedTypes allRecs r.name
          r.scope) r.value) (pyStr r.value) r.scope r.dflt st)
        (fun p => Except.bind (emitDatas infer allRecs rest p.2)
          (fun q => Except.ok (p.1 :: q.1, q.2))) := rfl

theorem emitNodes_cons (infer : Bool) (allRecs : List ARec)
    (ndef : List (String × GAtom)) (n : String × List (String × GVal))
    (rest : List (String × List (String × GVal))) (st : WriterState) :
    emitNodes infer allRecs ndef (n :: rest) st =
      Except.bind (emitDatas infer allRecs (nodeRecs ndef n) st)
        (fun p => Except.bind (emitNodes infer allRecs ndef rest p.2)
          (fun q => Except.ok (XmlElem.mk "node" [("id", n.1)] none p.1 :: q.1,
            q.2))) := rfl

theorem emitEdges_cons (infer : Bool) (allRecs : List ARec)
    (edef : List (String × GAtom)) (multi : Bool) (e0 : PyEdge)
    (rest : List PyEdge) (st : WriterState) :
    emitEdges infer allRecs edef multi (e0 :: rest) st =
      Except.bind (emitDatas infer allRecs (edgeRecs edef e0) st)
        (fun p => Except.bind (emitEdges infer allRecs edef multi rest p.2)
          (fun q => Except.ok (XmlElem.mk "edge"
            (if multi then
              [("source", e0.src), ("target", e0.tgt), ("id", pyStr (e0.key.getD .PNone))]
             else [("source", e0.src), ("target", e0.tgt)]) none p.1 :: q.1, q.2))) := rfl

theorem getKey_keyElems (name xt scope : String) (dflt : Option GAtom)
    (st : WriterState) :
    (getKey name xt scope dflt st).2.keyElems = st.keyElems
      ∨ (getKey name xt scope dflt st).2.keyElems
          = st.keyElems ++ [mkKeyElem name xt scope (dId st.keys.length) dflt] := by
  unfold getKey
  cases alookup st.keys (name, xt, scope) with
  | none => exact Or.inr rfl
  | some id0 => exact Or.inl rfl

theorem keysOnly_getKey (name xt scope : String) (dflt : Option GAtom)
    (st : WriterState) (h : ∀ e ∈ st.keyElems, e.tag = "key") :
    ∀ e ∈ (getKey name xt scope dflt st).2.keyElems, e.tag = "key" := by
  rcases getKey_keyElems name xt scope dflt st with heq | heq <;> rw [heq]
  · exact h
  · intro e hmem
    rcases List.mem_append.mp hmem with hm | hm
    · exact h e hm
    · simp only [List.mem_singleton] at hm
      rw [hm]
      rfl

theorem keysOnly_addData (name : String) (ety : TagTy) (value scope : String)
    (dflt : Option GAtom) (st : WriterState) (p : XmlElem × WriterState)
    (hp : addData name ety value scope dflt st = Except.ok p)
    (h : ∀ e ∈ st.keyElems, e.tag = "key") :
    ∀ e ∈ p.2.keyElems, e.tag = "key" := by
  unfold addData at hp
  cases hx : xmlTypeOf ety with
  | none =>
    rw [hx] at hp
    cases hp
  | some xt =>
    rw [hx] at hp
    simp only [Except.ok.injEq] at hp
    rw [← hp]
    exact keysOnly_getKey name xt scope dflt st h

theorem keysOnly_emitDatas (infer : Bool) (allRecs : List ARec) :
    ∀ (rs : List ARec) (st : WriterState) (p : List XmlElem × WriterState),
      emitDatas infer allRecs rs st = Except.ok p →
      (∀ e ∈ st.keyElems, e.tag = "key") → ∀ e ∈ p.2.keyElems, e.tag = "key" := by
  intro rs
  induction rs with
  | nil =>
    intro st p hp h
    cases hp
    exact h
  | cons r rest ih =>
    intro st p hp h
    rw [emitDatas_cons] at hp
    cases ha : addData r.name (attrType infer (observedTypes allRecs r.name r.scope)
        r.value) (pyStr r.value) r.scope r.dflt st with
    | error e =>
      rw [ha] at hp
      cases hp
    | ok q =>
      rw [ha] at hp
      simp only [Except.bind] at hp
      cases hr : emitDatas infer allRecs rest q.2 with
      | error e =>
        rw [hr] at hp
        cases hp
      | ok q2 =>
        rw [hr] at hp
        simp only [Except.bind, Except.ok.injEq] at hp
        rw [← hp]
        exact ih q.2 q2 hr (keysOnly_addData _ _ _ _ _ _ _ ha h)

theorem keysOnly_emitNodes (infer : Bool) (allRecs : List ARec)
    (ndef : List (String × GAtom)) :
    ∀ (ns : List (String × List (String × GVal))) (st : WriterState)
      (p : List XmlElem × WriterState),
      emitNodes infer allRecs ndef ns st = Except.ok p →
      (∀ e ∈ st.keyElems, e.tag = "key") → ∀ e ∈ p.2.keyElems, e.tag = "key" := by
  intro ns
  induction ns with
  | nil =>
    intro st p hp h
    cases hp
    exact h
  | cons n rest ih =>
    intro st p hp h
    rw [emitNodes_cons] at hp
    cases ha : emitDatas infer allRecs (nodeRecs ndef n) st with
    | error e =>
      rw [ha] at hp
      cases hp
    | ok q =>
      rw [ha] at hp
      simp only [Except.bind] at hp
      cases hr : emitNodes infer allRecs ndef rest q.2 with
      | error e =>
        rw [hr] at hp
        cases hp
      | ok q2 =>
        rw [hr] at hp
        simp only [Except.bind, Except.ok.injEq] at hp
        rw [← hp]
        exact ih q.2 q2 hr (keysOnly_emitDatas infer allRecs _ st q ha h)

theorem keysOnly_emitEdges (infer : Bool) (allRecs : List ARec)
    (edef : List (String × GAtom)) (multi : Bool) :
    ∀ (es : List PyEdge) (st : WriterState) (p : List XmlElem × WriterState),
      emitEdges infer allRecs edef multi es st = Except.ok p →
      (∀ e ∈ st.keyElems, e.tag = "key") → ∀ e ∈ p.2.keyElems, e.tag = "key" := by
  intro es
  induction es with
  | nil =>
    intro st p hp h
    cases hp
    exact h
  | cons e0 rest ih =>
    intro st p hp h
    rw [emitEdges_cons] at hp
    cases ha : emitDatas infer allRecs (edgeRecs edef e0) st with
    | error e =>
      rw [ha] at hp
      cases hp
    | ok q =>
      rw [ha] at hp
      simp only [Except.bind] at hp
      cases hr : emitEdges infer allRecs edef multi rest q.2 with
      | error e =>
        rw [hr] at hp
        cases hp
      | ok q2 =>
        rw [hr] at hp
        simp only [Except.bind, Except.ok.injEq] at hp
        rw [← hp]
        exact ih q.2 q2 hr (keysOnly_emitDatas infer allRecs _ st q ha h)

theorem encodeBuffered_eq (infer : Bool) (G : PyGraph) :
    encodeBuffered infer G =
      Except.bind (emitDatas infer
          (graphRecs ((aerase G.graphAttrs "id").filter
              (fun p => !(p.1 == "node_default") && !(p.1 == "edge_default")))
            ++ (G.nodes.map (nodeRecs (asBag (alookup (aerase G.graphAttrs "id")
                "node_default")))).flatten
            ++ (G.edges.map (edgeRecs (asBag (alookup (aerase G.graphAttrs "id")
                "edge_default")))).flatten)
          (graphRecs ((aerase G.graphAttrs "id").filter
            (fun p => !(p.1 == "node_default") && !(p.1 == "edge_default")))) ⟨[], []⟩)
        (fun pg =>
          Except.bind (emitNodes infer
              (graphRecs ((aerase G.graphAttrs "id").filter
                  (fun p => !(p.1 == "node_default") && !(p.1 == "edge_default")))
                ++ (G.nodes.map (nodeRecs (asBag (alookup (aerase G.graphAttrs "id")
                    "node_default")))).flatten
                ++ (G.edges.map (edgeRecs (asBag (alookup (aerase G.graphAttrs "id")
                    "edge_default")))).flatten)
              (asBag (alookup (aerase G.graphAttrs "id") "node_default")) G.nodes pg.2)
            (fun pn =>
              Except.bind (emitEdges infer
                  (graphRecs ((aerase G.graphAttrs "id").filter
                      (fun p => !(p.1 == "node_default") && !(p.1 == "edge_default")))
                    ++ (G.nodes.map (nodeRecs (asBag (alookup (aerase G.graphAttrs "id")
                        "node_default")))).flatten
                    ++ (G.edges.map (edgeRecs (asBag (alookup (aerase G.graphAttrs "id")
                        "edge_default")))).flatten)
                  (asBag (alookup (aerase G.graphAttrs "id") "edge_default"))
                  G.multi G.edges pn.2)
                (fun pe =>
                  Except.ok (XmlElem.mk "graphml" rootAttrs none
                    (pe.2.keyElems.reverse
                      ++ [XmlElem.mk "graph"
                          (("edgedefault",
                            if G.directed then "directed" else "undirected")
                            :: (match alookup G.graphAttrs "id" with
                                | some v => [("id", pyStr v)]
                                | none => []))
                          none (pn.1 ++ pe.1 ++ pg.1)]),
                    pe.2, aerase G.graphAttrs "id")))) := rfl

theorem findall_keys_graph (kelems : List XmlElem) (gattrs : List (String × String))
    (gtext : Option String) (gchildren : List XmlElem)
    (hk : ∀ e ∈ kelems, e.tag = "key") :
    (XmlElem.mk "graphml" rootAttrs none
        (kelems ++ [XmlElem.mk "graph" gattrs gtext gchildren])).findall "graph"
      = [XmlElem.mk "graph" gattrs gtext gchildren] := by
  unfold XmlElem.findall
  show (kelems ++ [XmlElem.mk "graph" gattrs gtext gchildren]).filter _
    = [XmlElem.mk "graph" gattrs gtext gchildren]
  rw [List.filter_append]
  have h1 : kelems.filter (fun c => decide (c.tag = "graph")) = [] := by
    rw [List.filter_eq_nil_iff]
    intro e hmem
    rw [hk e hmem]
    decide
  rw [h1]
  simp [XmlElem.tag]

theorem encodeLxmlKeys_eq (infer : Bool) (G : PyGraph) :
    encodeLxmlKeys infer G =
      Except.bind (lxmlKeysPass infer
          (graphRecs ((aerase G.graphAttrs "id").filter
            (fun p => !(p.1 == "node_default") && !(p.1 == "edge_default"))))
          "graph" (fun _ => none)
          ((aerase G.graphAttrs "id").filter
            (fun p => !(p.1 == "node_default") && !(p.1 == "edge_default"))) ⟨[], []⟩)
        (fun st1 =>
          Except.bind (lxmlKeysPass infer
              (graphRecs ((aerase G.graphAttrs "id").filter
                  (fun p => !(p.1 == "node_default") && !(p.1 == "edge_default")))
                ++ (G.nodes.map (nodeRecs (asBag (alookup (aerase G.graphAttrs "id")
                    "node_default")))).flatten)
              "node" (alookup (asBag (alookup (aerase G.graphAttrs "id")
                "node_default"))) (lxmlNodeAttrs G.nodes) st1)
            (fun st2 =>
              Except.bind (lxmlKeysPass infer
                  (graphRecs ((aerase G.graphAttrs "id").filter
                      (fun p => !(p.1 == "node_default") && !(p.1 == "edge_default")))
                    ++ (G.nodes.map (nodeRecs (asBag (alookup (aerase G.graphAttrs "id")
                        "node_default")))).flatten
                    ++ lxmlEdgeScanRecs G.multi (asBag (alookup (aerase G.graphAttrs
                        "id") "edge_default")) G.edges)
                  "edge" (alookup (asBag (alookup (aerase G.graphAttrs "id")
                    "edge_default"))) (lxmlEdgeAttrs G.multi G.edges) st2)
                (fun st3 =>
                  Except.ok (st3,
                    ("edgedefault", if G.directed then "directed" else "undirected")
                      :: (match alookup G.graphAttrs "id" with
                          | some v => [("id", pyStr v)]
                          | none => []),
                    aerase G.graphAttrs "id")))) := rfl

/-- Claim C9: both encoders pop a graph-level `id` attribute — a
caller-visible mutation that removes exactly that attribute and no other —
and reuse its value as the `id` XML attribute of the emitted `<graph>`
element. -/
theorem C9_graph_id_consumed (G : PyGraph) (v : GVal)
    (hnd : (G.graphAttrs.map Prod.fst).Nodup)
    (hid : alookup G.graphAttrs "id" = some v) (infer : Bool) :
    (∀ root stw g1, encodeBuffered infer G = Except.ok (root, stw, g1) →
      alookup g1 "id" = none
        ∧ (∀ k, k ≠ "id" → alookup g1 k = alookup G.graphAttrs k)
        ∧ ∀ gx ∈ root.findall "graph", gx.get "id" = some (pyStr v))
    ∧ (∀ stw gattrs g1, encodeLxmlKeys infer G = Except.ok (stw, gattrs, g1) →
      alookup g1 "id" = none
        ∧ (∀ k, k ≠ "id" → alookup g1 k = alookup G.graphAttrs k)
        ∧ alookup gattrs "id" = some (pyStr v)) := by
  constructor
  · intro root stw g1 h
    rw [encodeBuffered_eq] at h
    cases hg : emitDatas infer _ (graphRecs ((aerase G.graphAttrs "id").filter
        (fun p => !(p.1 == "node_default") && !(p.1 == "edge_default")))) ⟨[], []⟩ with
    | error e =>
      rw [hg] at h
      cases h
    | ok pg =>
      rw [hg] at h
      simp only [Except.bind] at h
      cases hn : emitNodes infer _ (asBag (alookup (aerase G.graphAttrs "id")
          "node_default")) G.nodes pg.2 with
      | error e =>
        rw [hn] at h
        cases h
      | ok pn =>
        rw [hn] at h
        simp only [Except.bind] at h
        cases he : emitEdges infer _ (asBag (alookup (aerase G.graphAttrs "id")
            "edge_default")) G.multi G.edges pn.2 with
        | error e =>
          rw [he] at h
          cases h
        | ok pe =>
          rw [he] at h
          simp only [Except.bind, Except.ok.injEq] at h
          obtain ⟨rfl, rfl, rfl⟩ := h
          refine ⟨alookup_aerase_self _ _ hnd,
            fun k hk => alookup_aerase_ne _ _ _ hk, ?_⟩
          intro gx hgx
          have hkeys : ∀ e ∈ pe.2.keyElems.reverse, e.tag = "key" := by
            intro e hmem
            refine keysOnly_emitEdges infer _ _ G.multi G.edges pn.2 pe he ?_ e
              (List.mem_reverse.mp hmem)
            refine keysOnly_emitNodes infer _ _ G.nodes pg.2 pn hn ?_
            refine keysOnly_emitDatas infer _ _ ⟨[], []⟩ pg hg ?_
            intro e2 hmem2
            cases hmem2
          rw [findall_keys_graph _ _ _ _ hkeys] at hgx
          simp only [List.mem_singleton] at hgx
          rw [hgx, hid]
          simp [XmlElem.get, alookup]
  · intro stw gattrs g1 h
    rw [encodeLxmlKeys_eq] at h
    cases h1 : lxmlKeysPass infer (graphRecs ((aerase G.graphAttrs "id").filter
        (fun p => !(p.1 == "node_default") && !(p.1 == "edge_default")))) "graph"
        (fun _ => none) ((aerase G.graphAttrs "id").filter
        (fun p => !(p.1 == "node_default") && !(p.1 == "edge_default"))) ⟨[], []⟩ with
    | error e =>
      rw [h1] at h
      cases h
    | ok st1 =>
      rw [h1] at h
      simp only [Except.bind] at h
      cases h2 : lxmlKeysPass infer _ "node" (alookup (asBag (alookup
          (aerase G.graphAttrs "id") "node_default"))) (lxmlNodeAttrs G.nodes) st1 with
      | error e =>
        rw [h2] at h
        cases h
      | ok st2 =>
        rw [h2] at h
        simp only [Except.bind] at h
        cases h3 : lxmlKeysPass infer _ "edge" (alookup (asBag (alookup
            (aerase G.graphAttrs "id") "edge_default")))
            (lxmlEdgeAttrs G.multi G.edges) st2 with
        | error e =>
          rw [h3] at h
          cases h
        | ok st3 =>
          rw [h3] at h
          simp only [Except.bind, Except.ok.injEq] at h
          obtain ⟨rfl, rfl, rfl⟩ := h
          refine ⟨alookup_aerase_self _ _ hnd,
            fun k hk => alookup_aerase_ne _ _ _ hk, ?_⟩
          rw [hid]
          simp [alookup]

/-- Witness for C9 at a concrete graph with an `id` graph attribute. -/
theorem C9_witness :
    ∃ root stw g1, encodeBuffered false
        (⟨true, false, [], [], [("id", .PStr "g7")]⟩ : PyGraph) = Except.ok (root, stw, g1)
      ∧ alookup g1 "id" = none :=
  ⟨XmlElem.mk "graphml" rootAttrs none
      [XmlElem.mk "graph" [("edgedefault", "directed"), ("id", "g7")] none []],
    ⟨[], []⟩, [],
    rfl,
    ((C9_graph_id_consumed (⟨true, false, [], [], [("id", .PStr "g7")]⟩ : PyGraph)
      (.PStr "g7") (by decide) rfl false).1
      (XmlElem.mk "graphml" rootAttrs none
        [XmlElem.mk "graph" [("edgedefault", "directed"), ("id", "g7")] none []])
      ⟨[], []⟩ [] rfl).1⟩

theorem alookup_none_not_mem {α β : Type} [DecidableEq α] (l : List (α × β)) (k : α)
    (h : alookup l k = none) : k ∉ l.map Prod.fst := by
  induction l with
  | nil => simp
  | cons p rest ih =>
    obtain ⟨a, b⟩ := p
    simp only [alookup] at h
    by_cases hp : a = k
    · rw [if_pos hp] at h
      cases h
    · rw [if_neg hp] at h
      simp only [List.map_cons, List.mem_cons]
      rintro (rfl | hm)
      · exact hp rfl
      · exact ih h hm

theorem dId_inj : Function.Injective dId := by
  intro m n h
  have h2 : 'd' :: natChars m = 'd' :: natChars n := congrArg String.data h
  have h3 : natChars m = natChars n := (List.cons.injEq _ _ _ _).mp h2 |>.2
  have h4 := parseDigits_natChars_zero m
  rw [h3, parseDigits_natChars_zero n] at h4
  exact (Option.some.injEq _ _).mp h4.symm

theorem registryWf_getKey (name xt scope : String) (dflt : Option GAtom)
    (st : WriterState) (h : registryWf st) :
    registryWf (getKey name xt scope dflt st).2
      ∧ st.keys <+: (getKey name xt scope dflt st).2.keys := by
  unfold getKey
  cases hl : alookup st.keys (name, xt, scope) with
  | some id0 => exact ⟨h, List.prefix_refl _⟩
  | none =>
    refine ⟨⟨?_, ?_⟩, ⟨[((name, xt, scope), dId st.keys.length)], rfl⟩⟩
    · rw [List.map_append]
      rw [List.nodup_append]
      refine ⟨h.1, by simp, ?_⟩
      intro t hmem
      simp only [List.map_cons, List.map_nil, List.mem_singleton]
      rintro rfl
      exact alookup_none_not_mem st.keys _ hl hmem
    · rw [List.map_append, List.length_append]
      rw [h.2]
      simp [List.range_succ, h.1]

theorem registryWf_addData (name : String) (ety : TagTy) (value scope : String)
    (dflt : Option GAtom) (st : WriterState) (p : XmlElem × WriterState)
    (hp : addData name ety value scope dflt st = Except.ok p) (h : registryWf st) :
    registryWf p.2 := by
  unfold addData at hp
  cases hx : xmlTypeOf ety with
  | none =>
    rw [hx] at hp
    cases hp
  | some xt =>
    rw [hx] at hp
    simp only [Except.ok.injEq] at hp
    rw [← hp]
    exact (registryWf_getKey name xt scope dflt st h).1

theorem registryWf_emitDatas (infer : Bool) (allRecs : List ARec) :
    ∀ (rs : List ARec) (st : WriterState) (p : List XmlElem × WriterState),
      emitDatas infer allRecs rs st = Except.ok p → registryWf st → registryWf p.2 := by
  intro rs
  induction rs with
  | nil =>
    intro st p hp h
    cases hp
    exact h
  | cons r rest ih =>
    intro st p hp h
    rw [emitDatas_cons] at hp
    cases ha : addData r.name (attrType infer (observedTypes allRecs r.name r.scope)
        r.value) (pyStr r.value) r.scope r.dflt st with
    | error e =>
      rw [ha] at hp
      cases hp
    | ok q =>
      rw [ha] at hp
      simp only [Except.bind] at hp
      cases hr : emitDatas infer allRecs rest q.2 with
      | error e =>
        rw [hr] at hp
        cases hp
      | ok q2 =>
        rw [hr] at hp
        simp only [Except.ok.injEq] at hp
        rw [← hp]
        exact ih q.2 q2 hr (registryWf_addData _ _ _ _ _ _ _ ha h)

theorem registryWf_emitNodes (infer : Bool) (allRecs : List ARec)
    (ndef : List (String × GAtom)) :
    ∀ (ns : List (String × List (String × GVal))) (st : WriterState)
      (p : List XmlElem × WriterState),
      emitNodes infer allRecs ndef ns st = Except.ok p → registryWf st →
        registryWf p.2 := by
  intro ns
  induction ns with
  | nil =>
    intro st p hp h
    cases hp
    exact h
  | cons n rest ih =>
    intro st p hp h
    rw [emitNodes_cons] at hp
    cases ha : emitDatas infer allRecs (nodeRecs ndef n) st with
    | error e =>
      rw [ha] at hp
      cases hp
    | ok q =>
      rw [ha] at hp
      simp only [Except.bind] at hp
      cases hr : emitNodes infer allRecs ndef rest q.2 with
      | error e =>
        rw [hr] at hp
        cases hp
      | ok q2 =>
        rw [hr] at hp
        simp only [Except.ok.injEq] at hp
        rw [← hp]
        exact ih q.2 q2 hr (registryWf_emitDatas infer allRecs _ st q ha h)

theorem registryWf_emitEdges (infer : Bool) (allRecs : List ARec)
    (edef : List (String × GAtom)) (multi : Bool) :
    ∀ (es : List PyEdge) (st : WriterState) (p : List XmlElem × WriterState),
      emitEdges infer allRecs edef multi es st = Except.ok p → registryWf st →
        registryWf p.2 := by
  intro es
  induction es with
  | nil =>
    intro st p hp h
    cases hp
    exact h
  | cons e0 rest ih =>
    intro st p hp h
    rw [emitEdges_cons] at hp
    cases ha : emitDatas infer allRecs (edgeRecs edef e0) st with
    | error e =>
      rw [ha] at hp
      cases hp
    | ok q =>
      rw [ha] at hp
      simp only [Except.bind] at hp
      cases hr : emitEdges infer allRecs edef multi rest q.2 with
      | error e =>
        rw [hr] at hp
        cases hp
      | ok q2 =>
        rw [hr] at hp
        simp only [Except.ok.injEq] at hp
        rw [← hp]
        exact ih q.2 q2 hr (registryWf_emitDatas infer allRecs _ st q ha h)

/-- Counterexample to C4 as stated: encoding the mixed-type `weight`
scenario without inference leaves the registry with two entries whose
`(attribute name, scope)` pair is the same `("weight", "edge")` — the
registry is keyed by the `(name, type, scope)` triple, not the pair. -/
theorem C4_counterexample :
    encodedKeys false weightGraph
      = some [(("weight", "long", "edge"), "d0"),
              (("weight", "double", "edge"), "d1")] := rfl

/-- Claim C4 amended: within one encode operation the registry holds at
most one entry per `(name, declared type, scope)` triple (not per
`(name, scope)` pair); synthetic identifiers `d0, d1, …` are assigned in
first-seen order, never reassigned (the key list only grows), and never
reused (all identifiers are distinct). -/
theorem C4_registry_invariant :
    (∀ name xt scope dflt st, registryWf st →
      registryWf (getKey name xt scope dflt st).2
        ∧ st.keys <+: (getKey name xt scope dflt st).2.keys)
    ∧ (∀ st : WriterState, registryWf st → (st.keys.map Prod.snd).Nodup)
    ∧ (∀ infer G root stw g1, encodeBuffered infer G = Except.ok (root, stw, g1) →
        registryWf stw) := by
  refine ⟨registryWf_getKey, ?_, ?_⟩
  · intro st h
    rw [h.2]
    exact (List.nodup_range _).map dId_inj
  · intro infer G root stw g1 h
    rw [encodeBuffered_eq] at h
    cases hg : emitDatas infer _ (graphRecs ((aerase G.graphAttrs "id").filter
        (fun p => !(p.1 == "node_default") && !(p.1 == "edge_default")))) ⟨[], []⟩ with
    | error e =>
      rw [hg] at h
      cases h
    | ok pg =>
      rw [hg] at h
      simp only [Except.bind] at h
      cases hn : emitNodes infer _ (asBag (alookup (aerase G.graphAttrs "id")
          "node_default")) G.nodes pg.2 with
      | error e =>
        rw [hn] at h
        cases h
      | ok pn =>
        rw [hn] at h
        simp only [Except.bind] at h
        cases he : emitEdges infer _ (asBag (alookup (aerase G.graphAttrs "id")
            "edge_default")) G.multi G.edges pn.2 with
        | error e =>
          rw [he] at h
          cases h
        | ok pe =>
          rw [he] at h
          simp only [Except.bind, Except.ok.injEq] at h
          obtain ⟨rfl, rfl, rfl⟩ := h
          refine registryWf_emitEdges infer _ _ G.multi G.edges pn.2 pe he ?_
          refine registryWf_emitNodes infer _ _ G.nodes pg.2 pn hn ?_
          refine registryWf_emitDatas infer _ _ ⟨[], []⟩ pg hg ?_
          exact ⟨List.nodup_nil, rfl⟩

/-- Witness for the amended C4: one `get_key` call on the empty registry. -/
theorem C4_witness :
    registryWf (getKey "color" "string" "node" none ⟨[], []⟩).2
      ∧ ([] : List ((String × String × String) × String))
          <+: (getKey "color" "string" "node" none ⟨[], []⟩).2.keys :=
  C4_registry_invariant.1 "color" "string" "node" none ⟨[], []⟩
    ⟨List.nodup_nil, rfl⟩

theorem pairMatches_iff (d : Bool) (p q : String × String) :
    pairMatches d p q = true
      ↔ (p.1 = q.1 ∧ p.2 = q.2) ∨ (d = false ∧ p.1 = q.2 ∧ p.2 = q.1) := by
  unfold pairMatches
  cases d <;>
    simp only [Bool.or_eq_true, Bool.and_eq_true, beq_iff_eq, Bool.not_true,
      Bool.not_false, Bool.false_and, Bool.true_and, false_and, and_assoc,
      false_or, or_false] <;>
    tauto

theorem pairMatches_refl (d : Bool) (p : String × String) : pairMatches d p p = true := by
  rw [pairMatches_iff]
  exact Or.inl ⟨rfl, rfl⟩

theorem pairMatches_symm (d : Bool) (p q : String × String) :
    pairMatches d p q = pairMatches d q p := by
  rw [Bool.eq_iff_iff, pairMatches_iff, pairMatches_iff]
  constructor
  · rintro (⟨h1, h2⟩ | ⟨hd, h1, h2⟩)
    · exact Or.inl ⟨h1.symm, h2.symm⟩
    · exact Or.inr ⟨hd, h2.symm, h1.symm⟩
  · rintro (⟨h1, h2⟩ | ⟨hd, h1, h2⟩)
    · exact Or.inl ⟨h1.symm, h2.symm⟩
    · exact Or.inr ⟨hd, h2.symm, h1.symm⟩

theorem pairMatches_trans {d : Bool} {p q r : String × String}
    (h1 : pairMatches d p q = true) (h2 : pairMatches d q r = true) :
    pairMatches d p r = true := by
  rw [pairMatches_iff] at h1 h2 ⊢
  rcases h1 with ⟨ha, hb⟩ | ⟨hd, ha, hb⟩ <;> rcases h2 with ⟨hc, he⟩ | ⟨hd2, hc, he⟩
  · exact Or.inl ⟨ha.trans hc, hb.trans he⟩
  · exact Or.inr ⟨hd2, ha.trans hc, hb.trans he⟩
  · exact Or.inr ⟨hd, ha.trans he, hb.trans hc⟩
  · exact Or.inl ⟨ha.trans he, hb.trans hc⟩

theorem edgeMatches_iff (d : Bool) (u v : String) (e : PyEdge) :
    edgeMatches d u v e = true ↔ pairMatches d (u, v) (e.src, e.tgt) = true := by
  unfold edgeMatches
  rw [pairMatches_iff]
  cases d <;>
    simp only [Bool.or_eq_true, Bool.and_eq_true, beq_iff_eq, Bool.not_true,
      Bool.not_false, Bool.false_and, Bool.true_and, false_and, and_assoc,
      false_or, or_false] <;>
    constructor <;>
    (intro h; tauto)

theorem hasEdge_iff (G : PyGraph) (u v : String) :
    hasEdge G u v = true
      ↔ ∃ e ∈ G.edges, pairMatches G.directed (u, v) (e.src, e.tgt) = true := by
  unfold hasEdge
  rw [List.any_eq_true]
  constructor
  · rintro ⟨e, hmem, hm⟩
    exact ⟨e, hmem, (edgeMatches_iff _ _ _ _).mp hm⟩
  · rintro ⟨e, hmem, hm⟩
    exact ⟨e, hmem, (edgeMatches_iff _ _ _ _).mpr hm⟩

theorem graphAddEdge_nodes_edges (G : PyGraph) (u v : String) (k : Option GVal)
    (d : List (String × GVal)) :
    ((graphAddEdge G u v k d).edges = G.edges.map (fun e =>
        if edgeMatches G.directed u v e && decide (e.key = k) then
          {e with data := aupdates e.data d}
        else e)
      ∧ hasEdge G u v = true)
    ∨ ∃ k2, (graphAddEdge G u v k d).edges = G.edges ++ [⟨u, v, k2, d⟩] := by
  unfold graphAddEdge
  dsimp only
  have he2 : (ensureNode (ensureNode G u) v).edges = G.edges := by
    rw [ensureNode_edges, ensureNode_edges]
  have hd2 : (ensureNode (ensureNode G u) v).directed = G.directed := by
    rw [ensureNode_directed, ensureNode_directed]
  cases k with
  | none =>
    right
    show ∃ k2, (ensureNode (ensureNode G u) v).edges ++ _ = G.edges ++ [⟨u, v, k2, d⟩]
    rw [he2, hd2]
    exact ⟨_, rfl⟩
  | some k0 =>
    dsimp only
    rw [he2, hd2]
    by_cases hm : (G.edges.any (fun e =>
        edgeMatches G.directed u v e && decide (e.key = some k0))) = true
    · rw [if_pos hm]
      refine Or.inl ⟨rfl, ?_⟩
      rw [hasEdge_iff]
      rw [List.any_eq_true] at hm
      obtain ⟨e, hmem, hprop⟩ := hm
      rw [Bool.and_eq_true] at hprop
      exact ⟨e, hmem, (edgeMatches_iff _ _ _ _).mp hprop.1⟩
    · rw [if_neg hm]
      exact Or.inr ⟨some k0, rfl⟩

theorem hasEdge_map_data (G : PyGraph) (f : PyEdge → List (String × GVal))
    (g : PyEdge → Bool) (x y : String) :
    hasEdge {G with edges := G.edges.map (fun e =>
      if g e then {e with data := f e} else e)} x y = hasEdge G x y := by
  rw [Bool.eq_iff_iff, hasEdge_iff, hasEdge_iff]
  constructor
  · rintro ⟨e, hmem, hm⟩
    simp only [List.mem_map] at hmem
    obtain ⟨e0, hmem0, heq⟩ := hmem
    refine ⟨e0, hmem0, ?_⟩
    have : e.src = e0.src ∧ e.tgt = e0.tgt := by
      rw [← heq]
      split <;> exact ⟨rfl, rfl⟩
    rw [← this.1, ← this.2]
    exact hm
  · rintro ⟨e, hmem, hm⟩
    by_cases hg : g e = true
    · refine ⟨{e with data := f e}, List.mem_map.mpr ⟨e, hmem, by rw [if_pos hg]⟩, hm⟩
    · refine ⟨e, List.mem_map.mpr ⟨e, hmem, by rw [if_neg hg]⟩, hm⟩

theorem hasEdge_graphAddEdge (G : PyGraph) (u v : String) (k : Option GVal)
    (d : List (String × GVal)) (x y : String) :
    hasEdge (graphAddEdge G u v k d) x y
      = (hasEdge G x y || pairMatches G.directed (x, y) (u, v)) := by
  have hdir := graphAddEdge_directed G u v k d
  rcases graphAddEdge_nodes_edges G u v k d with ⟨hedges, hhas⟩ | ⟨k2, hedges⟩
  · rw [Bool.eq_iff_iff]
    have h1 : hasEdge (graphAddEdge G u v k d) x y = hasEdge G x y := by
      have := hasEdge_map_data G (fun e => aupdates e.data d)
        (fun e => edgeMatches G.directed u v e && decide (e.key = k)) x y
      rw [← this]
      unfold hasEdge at *
      rw [hedges, hdir]
    rw [h1]
    simp only [Bool.or_eq_true]
    constructor
    · exact Or.inl
    · rintro (hl | hr)
      · exact hl
      · rw [hasEdge_iff] at hhas ⊢
        obtain ⟨e, hmem, hme⟩ := hhas
        exact ⟨e, hmem, pairMatches_trans hr hme⟩
  · rw [Bool.eq_iff_iff, hasEdge_iff]
    rw [hedges, hdir]
    simp only [List.mem_append, List.mem_singleton]
    constructor
    · rintro ⟨e, hmem | hmem, hme⟩
      · rw [Bool.or_eq_true, hasEdge_iff]
        exact Or.inl ⟨e, hmem, hme⟩
      · rw [Bool.or_eq_true]
        subst hmem
        exact Or.inr hme
    · intro hor
      rw [Bool.or_eq_true, hasEdge_iff] at hor
      rcases hor with ⟨e, hmem, hme⟩ | hpm
      · exact ⟨e, Or.inl hmem, hme⟩
      · exact ⟨⟨u, v, k2, d⟩, Or.inr rfl, hpm⟩

theorem addEdgeR_inv (table : List (Option String × KeyEntry)) (ex : XmlElem)
    (G : PyGraph) (st : ReaderState) (p : PyGraph × ReaderState)
    (h : addEdgeR table ex G st = Except.ok p) :
    ∃ data, decodeDatas table (ex.findall "data") [] = Except.ok data
      ∧ p.1 = graphAddEdge G (elemEndpoints ex).1 (elemEndpoints ex).2
          (claimedEdgeKey (ex.get "id") data) data
      ∧ p.2.multigraph
          = (st.multigraph || hasEdge G (elemEndpoints ex).1 (elemEndpoints ex).2)
      ∧ p.2.edgeIds = (match ex.get "id" with
          | some s => if s = "" then st.edgeIds
              else aupdate st.edgeIds (elemEndpoints ex) s
          | none => st.edgeIds) := by
  unfold addEdgeR at h
  by_cases h1 : G.directed = true ∧ ex.get "directed" = some "false"
  · rw [if_pos h1] at h
    cases h
  · rw [if_neg h1] at h
    by_cases h2 : ¬G.directed = true ∧ ex.get "directed" = some "true"
    · rw [if_pos h2] at h
      cases h
    · rw [if_neg h2] at h
      cases hd : decodeDatas table (ex.findall "data") [] with
      | error e =>
        rw [hd] at h
        simp only [Bind.bind, Except.bind] at h
        cases h
      | ok data =>
        rw [hd] at h
        simp only [Bind.bind, Except.bind] at h
        refine ⟨data, rfl, ?_⟩
        cases h
        simp only [elemEndpoints]
        cases hid : ex.get "id" with
        | none =>
          refine ⟨rfl, ?_, ?_⟩
          · dsimp only
            by_cases hhe : hasEdge G (pyNodeType (ex.get "source"))
                (pyNodeType (ex.get "target")) = true
            · rw [if_pos hhe, hhe, Bool.or_true]
            · rw [if_neg hhe, (Bool.not_eq_true _).mp hhe, Bool.or_false]
          · dsimp only
            split <;> rfl
        | some s =>
          by_cases hs : s = ""
          · subst hs
            refine ⟨?_, ?_, ?_⟩
            · simp [claimedEdgeKey]
            · dsimp only
              rw [if_pos rfl]
              by_cases hhe : hasEdge G (pyNodeType (ex.get "source"))
                  (pyNodeType (ex.get "target")) = true
              · rw [if_pos hhe, hhe, Bool.or_true]
              · rw [if_neg hhe, (Bool.not_eq_true _).mp hhe, Bool.or_false]
            · dsimp only
              rw [if_pos rfl]
              split <;> rfl
          · refine ⟨?_, ?_, ?_⟩
            · simp [claimedEdgeKey, hs]
            · dsimp only
              rw [if_neg hs]
              by_cases hhe : hasEdge G (pyNodeType (ex.get "source"))
                  (pyNodeType (ex.get "target")) = true
              · rw [if_pos hhe, hhe, Bool.or_true]
              · rw [if_neg hhe, (Bool.not_eq_true _).mp hhe, Bool.or_false]
            · dsimp only
              rw [if_neg hs]
              split <;> rfl

theorem graphAddNode_edges (G : PyGraph) (nid : String) (d : List (String × GVal)) :
    (graphAddNode G nid d).edges = G.edges := by
  unfold graphAddNode
  split <;> rfl

theorem graphAddNode_multi (G : PyGraph) (nid : String) (d : List (String × GVal)) :
    (graphAddNode G nid d).multi = G.multi := by
  unfold graphAddNode
  split <;> rfl

theorem graphAddNode_graphAttrs (G : PyGraph) (nid : String)
    (d : List (String × GVal)) : (graphAddNode G nid d).graphAttrs = G.graphAttrs := by
  unfold graphAddNode
  split <;> rfl

theorem addNodeR_inv (table : List (Option String × KeyEntry)) (G : PyGraph)
    (nx0 : XmlElem) (G1 : PyGraph) (h : addNodeR table G nx0 = Except.ok G1) :
    G1.edges = G.edges ∧ G1.multi = G.multi ∧ G1.directed = G.directed
      ∧ G1.graphAttrs = G.graphAttrs := by
  unfold addNodeR at h
  cases hd : decodeDatas table (nx0.findall "data") [] with
  | error e =>
    rw [hd] at h
    simp only [Bind.bind, Except.bind] at h
    cases h
  | ok data =>
    rw [hd] at h
    simp only [Bind.bind, Except.bind, Except.ok.injEq] at h
    rw [← h]
    exact ⟨graphAddNode_edges G _ data, graphAddNode_multi G _ data,
      graphAddNode_directed G _ data, graphAddNode_graphAttrs G _ data⟩

theorem nodesFold_inv (table : List (Option String × KeyEntry)) :
    ∀ (ns : List XmlElem) (G G1 : PyGraph), nodesFold table ns G = Except.ok G1 →
      G1.edges = G.edges ∧ G1.multi = G.multi ∧ G1.directed = G.directed
        ∧ G1.graphAttrs = G.graphAttrs := by
  intro ns
  induction ns with
  | nil =>
    intro G G1 h
    cases h
    exact ⟨rfl, rfl, rfl, rfl⟩
  | cons n rest ih =>
    intro G G1 h
    unfold nodesFold at h
    cases ha : addNodeR table G n with
    | error e =>
      rw [ha] at h
      simp only [Bind.bind, Except.bind] at h
      cases h
    | ok G2 =>
      rw [ha] at h
      simp only [Bind.bind, Except.bind] at h
      obtain ⟨e1, m1, d1, a1⟩ := addNodeR_inv table G n G2 ha
      obtain ⟨e2, m2, d2, a2⟩ := ih G2 G1 h
      exact ⟨e2.trans e1, m2.trans m1, d2.trans d1, a2.trans a1⟩

theorem any_pairMatches_symm (d : Bool) (q : String × String) (l : List XmlElem) :
    (l.any fun ex => pairMatches d (elemEndpoints ex) q)
      = (l.any fun ex => pairMatches d q (elemEndpoints ex)) := by
  have hf : (fun ex => pairMatches d (elemEndpoints ex) q)
      = (fun ex => pairMatches d q (elemEndpoints ex)) :=
    funext fun ex => pairMatches_symm d (elemEndpoints ex) q
  rw [hf]

theorem edgesFold_inv (table : List (Option String × KeyEntry)) :
    ∀ (exs : List XmlElem) (G : PyGraph) (st : ReaderState)
      (p : PyGraph × ReaderState), edgesFold table exs G st = Except.ok p →
      p.1.directed = G.directed
      ∧ p.1.multi = G.multi
      ∧ p.1.graphAttrs = G.graphAttrs
      ∧ (∀ x y, hasEdge p.1 x y = (hasEdge G x y
          || exs.any (fun ex => pairMatches G.directed (x, y) (elemEndpoints ex))))
      ∧ p.2.multigraph = (st.multigraph
          || exs.any (fun ex => hasEdge G (elemEndpoints ex).1 (elemEndpoints ex).2)
          || dupElemPair G.directed exs) := by
  intro exs
  induction exs with
  | nil =>
    intro G st p h
    cases h
    refine ⟨rfl, rfl, rfl, fun x y => by simp, by simp [dupElemPair]⟩
  | cons ex0 rest ih =>
    intro G st p h
    unfold edgesFold at h
    cases ha : addEdgeR table ex0 G st with
    | error e =>
      rw [ha] at h
      simp only [Bind.bind, Except.bind] at h
      cases h
    | ok q =>
      rw [ha] at h
      simp only [Bind.bind, Except.bind] at h
      obtain ⟨data, hdata, hq1, hqm, hqids⟩ := addEdgeR_inv table ex0 G st q ha
      obtain ⟨ihd, ihm, iha, ihhas, ihflag⟩ := ih q.1 q.2 p h
      have hqd : q.1.directed = G.directed := by
        rw [hq1]
        exact graphAddEdge_directed G _ _ _ data
      have hqmu : q.1.multi = G.multi := by
        rw [hq1]
        exact graphAddEdge_multi G _ _ _ data
      have hqa : q.1.graphAttrs = G.graphAttrs := by
        rw [hq1]
        exact graphAddEdge_graphAttrs G _ _ _ data
      have hqhas : ∀ x y, hasEdge q.1 x y
          = (hasEdge G x y
            || pairMatches G.directed (x, y) (elemEndpoints ex0)) := by
        intro x y
        rw [hq1]
        exact hasEdge_graphAddEdge G _ _ _ data x y
      refine ⟨ihd.trans hqd, ihm.trans hqmu, iha.trans hqa, ?_, ?_⟩
      · intro x y
        rw [ihhas x y, hqhas x y, hqd]
        rw [List.any_cons, Bool.or_assoc]
      · rw [ihflag, hqm, hqd]
        have hstep : ∀ ex : XmlElem,
            hasEdge q.1 (elemEndpoints ex).1 (elemEndpoints ex).2
              = (hasEdge G (elemEndpoints ex).1 (elemEndpoints ex).2
                || pairMatches G.directed (elemEndpoints ex) (elemEndpoints ex0)) := by
          intro ex
          rw [hqhas]
        have hany : (rest.any fun ex =>
            hasEdge q.1 (elemEndpoints ex).1 (elemEndpoints ex).2)
            = ((rest.any fun ex =>
                hasEdge G (elemEndpoints ex).1 (elemEndpoints ex).2)
              || rest.any fun ex =>
                pairMatches G.directed (elemEndpoints ex) (elemEndpoints ex0)) := by
          rw [Bool.eq_iff_iff]
          simp only [List.any_eq_true, Bool.or_eq_true]
          constructor
          · rintro ⟨ex, hmem, hor⟩
            rw [hstep ex] at hor
            rw [Bool.or_eq_true] at hor
            rcases hor with hl | hr
            · exact Or.inl ⟨ex, hmem, hl⟩
            · exact Or.inr ⟨ex, hmem, hr⟩
          · rintro (⟨ex, hmem, hl⟩ | ⟨ex, hmem, hr⟩)
            · exact ⟨ex, hmem, by rw [hstep ex, Bool.or_eq_true]; exact Or.inl hl⟩
            · exact ⟨ex, hmem, by rw [hstep ex, Bool.or_eq_true]; exact Or.inr hr⟩
        rw [hany]
        have hdup : dupElemPair G.directed (ex0 :: rest)
            = ((rest.any fun ey => pairMatches G.directed (elemEndpoints ex0)
                (elemEndpoints ey)) || dupElemPair G.directed rest) := rfl
        rw [hdup, List.any_cons]
        rw [any_pairMatches_symm G.directed (elemEndpoints ex0) rest]
        rw [Bool.eq_iff_iff]
        simp only [Bool.or_eq_true]
        tauto

theorem alookup_aupdate_self {α β : Type} [DecidableEq α] (l : List (α × β))
    (k : α) (v : β) : alookup (aupdate l k v) k = some v := by
  induction l with
  | nil => simp [aupdate, alookup]
  | cons p rest ih =>
    obtain ⟨a, b⟩ := p
    by_cases hp : a = k
    · simp only [aupdate, if_pos hp, alookup]
    · simp only [aupdate, if_neg hp, alookup]
      exact ih

theorem alookup_aupdate_ne {α β : Type} [DecidableEq α] (l : List (α × β))
    (k k2 : α) (v : β) (hne : k2 ≠ k) :
    alookup (aupdate l k v) k2 = alookup l k2 := by
  induction l with
  | nil =>
    simp only [aupdate, alookup]
    rw [if_neg (fun hcontra => hne hcontra.symm)]
  | cons p rest ih =>
    obtain ⟨a, b⟩ := p
    by_cases hp : a = k
    · simp only [aupdate, if_pos hp, alookup]
      by_cases hq : a = k2
      · exact absurd (hq.symm.trans hp) hne
      · rw [if_neg hq, if_neg hq]
    · simp only [aupdate, if_neg hp, alookup]
      by_cases hq : a = k2
      · rw [if_pos hq, if_pos hq]
      · rw [if_neg hq, if_neg hq]
        exact ih

theorem aupdate_mem {α β : Type} [DecidableEq α] (l : List (α × β)) (k : α) (v : β) :
    ∀ q ∈ aupdate l k v, q ∈ l ∨ q.1 = k := by
  induction l with
  | nil =>
    intro q hq
    simp only [aupdate, List.mem_singleton] at hq
    rw [hq]
    exact Or.inr rfl
  | cons p rest ih =>
    intro q hq
    obtain ⟨a, b⟩ := p
    by_cases hp : a = k
    · simp only [aupdate, if_pos hp, List.mem_cons] at hq
      rcases hq with rfl | hq
      · exact Or.inr hp
      · exact Or.inl (List.mem_cons_of_mem _ hq)
    · simp only [aupdate, if_neg hp, List.mem_cons] at hq
      rcases hq with rfl | hq
      · exact Or.inl (List.mem_cons_self _ _)
      · rcases ih q hq with hm | hk
        · exact Or.inl (List.mem_cons_of_mem _ hm)
        · exact Or.inr hk

theorem aupdate_keys_nodup {α β : Type} [DecidableEq α] (l : List (α × β))
    (k : α) (v : β) (h : (l.map Prod.fst).Nodup) :
    ((aupdate l k v).map Prod.fst).Nodup := by
  induction l with
  | nil => simp [aupdate]
  | cons p rest ih =>
    obtain ⟨a, b⟩ := p
    simp only [List.map_cons, List.nodup_cons] at h
    by_cases hp : a = k
    · simp only [aupdate, if_pos hp, List.map_cons, List.nodup_cons]
      exact h
    · simp only [aupdate, if_neg hp, List.map_cons, List.nodup_cons]
      refine ⟨?_, ih h.2⟩
      intro hmem
      rcases (List.mem_map.mp hmem) with ⟨q, hq, hq1⟩
      rcases aupdate_mem rest k v q hq with hm | hk
      · exact h.1 (List.mem_map.mpr ⟨q, hm, hq1⟩)
      · exact hp (hq1 ▸ hk)

theorem dupElemPair_cons (d : Bool) (ex : XmlElem) (rest : List XmlElem) :
    dupElemPair d (ex :: rest)
      = ((rest.any fun ey => pairMatches d (elemEndpoints ex) (elemEndpoints ey))
        || dupElemPair d rest) := rfl

theorem dup_false_head (d : Bool) (ex : XmlElem) (rest : List XmlElem)
    (h : dupElemPair d (ex :: rest) = false) :
    (∀ ey ∈ rest, pairMatches d (elemEndpoints ex) (elemEndpoints ey) = false)
      ∧ dupElemPair d rest = false := by
  rw [dupElemPair_cons, Bool.or_eq_false_iff] at h
  refine ⟨?_, h.2⟩
  intro ey hmem
  have h1 := h.1
  rw [List.any_eq_false] at h1
  simpa using h1 ey hmem

theorem dup_false_entry_exact (d : Bool) :
    ∀ (exs : List XmlElem), dupElemPair d exs = false →
      ∀ ex ∈ exs, ∀ ey ∈ exs,
        pairMatches d (elemEndpoints ey) (elemEndpoints ex) = true →
        elemEndpoints ey = elemEndpoints ex := by
  intro exs
  induction exs with
  | nil =>
    intro _ ex hex
    cases hex
  | cons e0 rest ih =>
    intro h ex hex ey hey hm
    obtain ⟨hhead, hrest⟩ := dup_false_head d e0 rest h
    rcases List.mem_cons.mp hex with rfl | hex2 <;>
      rcases List.mem_cons.mp hey with rfl | hey2
    · rfl
    · rw [← pairMatches_symm] at hm
      rw [hhead ey hey2] at hm
      cases hm
    · rw [hhead ex hex2] at hm
      cases hm
    · exact ih hrest ex hex2 ey hey2 hm

theorem edgesFold_eids_frame (table : List (Option String × KeyEntry)) :
    ∀ (exs : List XmlElem) (G : PyGraph) (st : ReaderState)
      (p : PyGraph × ReaderState), edgesFold table exs G st = Except.ok p →
      ∀ pt, (∀ ex ∈ exs, elemEndpoints ex ≠ pt) →
        alookup p.2.edgeIds pt = alookup st.edgeIds pt := by
  intro exs
  induction exs with
  | nil =>
    intro G st p h pt _
    cases h
    rfl
  | cons ex0 rest ih =>
    intro G st p h pt hno
    unfold edgesFold at h
    cases ha : addEdgeR table ex0 G st with
    | error e =>
      rw [ha] at h
      simp only [Bind.bind, Except.bind] at h
      cases h
    | ok q =>
      rw [ha] at h
      simp only [Bind.bind, Except.bind] at h
      obtain ⟨data, _, _, _, hqids⟩ := addEdgeR_inv table ex0 G st q ha
      have h1 := ih q.1 q.2 p h pt (fun ex hm => hno ex (List.mem_cons_of_mem _ hm))
      rw [h1, hqids]
      cases hid : ex0.get "id" with
      | none => rfl
      | some s =>
        dsimp only
        by_cases hs : s = ""
        · rw [if_pos hs]
        · rw [if_neg hs]
          exact alookup_aupdate_ne _ _ _ _
            (fun hc => hno ex0 (List.mem_cons_self _ _) hc.symm)

theorem edgesFold_eids_lookup (table : List (Option String × KeyEntry)) :
    ∀ (exs : List XmlElem) (G : PyGraph) (st : ReaderState)
      (p : PyGraph × ReaderState), edgesFold table exs G st = Except.ok p →
      dupElemPair G.directed exs = false →
      ∀ ex ∈ exs, ∀ s, ex.get "id" = some s → s ≠ "" →
        alookup p.2.edgeIds (elemEndpoints ex) = some s := by
  intro exs
  induction exs with
  | nil =>
    intro G st p _ _ ex hex
    cases hex
  | cons ex0 rest ih =>
    intro G st p h hdup ex hex s hid hs
    unfold edgesFold at h
    cases ha : addEdgeR table ex0 G st with
    | error e =>
      rw [ha] at h
      simp only [Bind.bind, Except.bind] at h
      cases h
    | ok q =>
      rw [ha] at h
      simp only [Bind.bind, Except.bind] at h
      obtain ⟨data, _, hq1, _, hqids⟩ := addEdgeR_inv table ex0 G st q ha
      obtain ⟨hhead, hrest⟩ := dup_false_head G.directed ex0 rest hdup
      have hqd : q.1.directed = G.directed := by
        rw [hq1]
        exact graphAddEdge_directed G _ _ _ data
      rcases List.mem_cons.mp hex with rfl | hex2
      · have hframe := edgesFold_eids_frame table rest q.1 q.2 p h (elemEndpoints ex)
          (fun ey hm hc => by
            have := hhead ey hm
            rw [← hc, pairMatches_refl] at this
            cases this)
        rw [hframe, hqids, hid]
        dsimp only
        rw [if_neg hs]
        exact alookup_aupdate_self _ _ _
      · exact ih q.1 q.2 p h (by rw [hqd]; exact hrest) ex hex2 s hid hs

theorem edgesFold_mem_frame (table : List (Option String × KeyEntry)) :
    ∀ (exs : List XmlElem) (G : PyGraph) (st : ReaderState)
      (p : PyGraph × ReaderState), edgesFold table exs G st = Except.ok p →
      ∀ e ∈ G.edges,
        (∀ ex ∈ exs,
          pairMatches G.directed (elemEndpoints ex) (e.src, e.tgt) = false) →
        e ∈ p.1.edges := by
  intro exs
  induction exs with
  | nil =>
    intro G st p h e hmem _
    cases h
    exact hmem
  | cons ex0 rest ih =>
    intro G st p h e hmem hno
    unfold edgesFold at h
    cases ha : addEdgeR table ex0 G st with
    | error err =>
      rw [ha] at h
      simp only [Bind.bind, Except.bind] at h
      cases h
    | ok q =>
      rw [ha] at h
      simp only [Bind.bind, Except.bind] at h
      obtain ⟨data, _, hq1, _, _⟩ := addEdgeR_inv table ex0 G st q ha
      have hqd : q.1.directed = G.directed := by
        rw [hq1]
        exact graphAddEdge_directed G _ _ _ data
      have hmem2 : e ∈ q.1.edges := by
        rw [hq1]
        rcases graphAddEdge_nodes_edges G (elemEndpoints ex0).1 (elemEndpoints ex0).2
            (claimedEdgeKey (ex0.get "id") data) data with ⟨hedges, _⟩ | ⟨k2, hedges⟩
        · rw [hedges]
          refine List.mem_map.mpr ⟨e, hmem, ?_⟩
          have hfalse : edgeMatches G.directed (elemEndpoints ex0).1
              (elemEndpoints ex0).2 e = false := by
            by_contra hcontra
            rw [Bool.not_eq_false] at hcontra
            have := (edgeMatches_iff _ _ _ _).mp hcontra
            rw [hno ex0 (List.mem_cons_self _ _)] at this
            cases this
          rw [hfalse]
          simp
        · rw [hedges]
          exact List.mem_append_left _ hmem
      exact ih q.1 q.2 p h e hmem2 (by
        intro ex hm
        rw [hqd]
        exact hno ex (List.mem_cons_of_mem _ hm))

theorem edgesFold_exact_edge (table : List (Option String × KeyEntry)) :
    ∀ (exs : List XmlElem) (G : PyGraph) (st : ReaderState)
      (p : PyGraph × ReaderState), edgesFold table exs G st = Except.ok p →
      dupElemPair G.directed exs = false →
      (∀ ex ∈ exs, hasEdge G (elemEndpoints ex).1 (elemEndpoints ex).2 = false) →
      ∀ ex ∈ exs, ∃ e ∈ p.1.edges, (e.src, e.tgt) = elemEndpoints ex := by
  intro exs
  induction exs with
  | nil =>
    intro G st p _ _ _ ex hex
    cases hex
  | cons ex0 rest ih =>
    intro G st p h hdup hnoedge ex hex
    unfold edgesFold at h
    cases ha : addEdgeR table ex0 G st with
    | error err =>
      rw [ha] at h
      simp only [Bind.bind, Except.bind] at h
      cases h
    | ok q =>
      rw [ha] at h
      simp only [Bind.bind, Except.bind] at h
      obtain ⟨data, _, hq1, _, _⟩ := addEdgeR_inv table ex0 G st q ha
      obtain ⟨hhead, hrest⟩ := dup_false_head G.directed ex0 rest hdup
      have hqd : q.1.directed = G.directed := by
        rw [hq1]
        exact graphAddEdge_directed G _ _ _ data
      rcases List.mem_cons.mp hex with rfl | hex2
      · rcases graphAddEdge_nodes_edges G (elemEndpoints ex).1 (elemEndpoints ex).2
            (claimedEdgeKey (ex.get "id") data) data with ⟨_, hhas⟩ | ⟨k2, hedges⟩
        · rw [hnoedge ex (List.mem_cons_self _ _)] at hhas
          cases hhas
        · have hmem0 : (⟨(elemEndpoints ex).1, (elemEndpoints ex).2, k2, data⟩ : PyEdge)
              ∈ q.1.edges := by
            rw [hq1, hedges]
            exact List.mem_append_right _ (List.mem_singleton.mpr rfl)
          refine ⟨_, edgesFold_mem_frame table rest q.1 q.2 p h _ hmem0 ?_, rfl⟩
          intro ey hm
          rw [hqd, pairMatches_symm]
          exact hhead ey hm
      · exact ih q.1 q.2 p h (by rw [hqd]; exact hrest)
          (by
            intro ey hm
            rw [hq1, hasEdge_graphAddEdge, Bool.or_eq_false_iff]
            refine ⟨hnoedge ey (List.mem_cons_of_mem _ hm), ?_⟩
            rw [pairMatches_symm]
            exact hhead ey hm)
          ex hex2

theorem downgrade_fold_dm (eids : List ((String × String) × String)) :
    ∀ (H : PyGraph),
      ((eids.foldl (fun acc q =>
        {acc with edges := acc.edges.map (fun e =>
          if edgeMatches acc.directed q.1.1 q.1.2 e then
            {e with data := aupdate e.data "id" (GVal.PStr q.2)}
          else e)}) H).directed = H.directed)
      ∧ ((eids.foldl (fun acc q =>
        {acc with edges := acc.edges.map (fun e =>
          if edgeMatches acc.directed q.1.1 q.1.2 e then
            {e with data := aupdate e.data "id" (GVal.PStr q.2)}
          else e)}) H).multi = H.multi) := by
  induction eids with
  | nil => intro H; exact ⟨rfl, rfl⟩
  | cons q0 rest ih =>
    intro H
    rw [List.foldl_cons]
    exact ih _

theorem downgrade_directed (G : PyGraph) (eids : List ((String × String) × String)) :
    (downgrade G eids).directed = G.directed :=
  (downgrade_fold_dm eids
    {G with multi := false, edges := G.edges.map (fun e => {e with key := none})}).1

theorem downgrade_multi (G : PyGraph) (eids : List ((String × String) × String)) :
    (downgrade G eids).multi = false :=
  (downgrade_fold_dm eids
    {G with multi := false, edges := G.edges.map (fun e => {e with key := none})}).2

theorem edgeMatches_eq_pm (d : Bool) (u v : String) (e : PyEdge) :
    edgeMatches d u v e = pairMatches d (u, v) (e.src, e.tgt) := by
  rw [Bool.eq_iff_iff]
  exact edgeMatches_iff d u v e

theorem downgrade_fold_edges (dct : Bool) :
    ∀ (eids : List ((String × String) × String)) (H : PyGraph), H.directed = dct →
      (eids.foldl (fun acc q =>
        {acc with edges := acc.edges.map (fun e =>
          if edgeMatches acc.directed q.1.1 q.1.2 e then
            {e with data := aupdate e.data "id" (GVal.PStr q.2)}
          else e)}) H).edges
      = H.edges.map (fun e =>
          {e with data := eids.foldl (fun d q =>
            if pairMatches dct (q.1.1, q.1.2) (e.src, e.tgt) then
              aupdate d "id" (GVal.PStr q.2)
            else d) e.data}) := by
  intro eids
  induction eids with
  | nil =>
    intro H _
    show H.edges = H.edges.map (fun e => {e with data := e.data})
    have he : (fun e : PyEdge => ({e with data := e.data} : PyEdge)) = id := by
      funext e
      rfl
    rw [he, List.map_id]
  | cons q0 rest ih =>
    intro H hd
    rw [List.foldl_cons]
    rw [ih _ (show ({H with edges := H.edges.map (fun e =>
      if edgeMatches H.directed q0.1.1 q0.1.2 e then
        {e with data := aupdate e.data "id" (GVal.PStr q0.2)}
      else e)} : PyGraph).directed = dct from hd)]
    show (H.edges.map _).map _ = _
    rw [List.map_map]
    refine List.map_congr_left ?_
    intro e _
    dsimp only [Function.comp]
    rw [hd, edgeMatches_eq_pm, List.foldl_cons]
    by_cases hp : pairMatches dct (q0.1.1, q0.1.2) (e.src, e.tgt) = true
    · rw [if_pos hp, if_pos hp]
    · rw [if_neg hp, if_neg hp]

theorem downgrade_edges (G : PyGraph) (eids : List ((String × String) × String)) :
    (downgrade G eids).edges
      = (G.edges.map (fun e => ({e with key := none} : PyEdge))).map (fun e =>
          {e with data := eids.foldl (fun d q =>
            if pairMatches G.directed (q.1.1, q.1.2) (e.src, e.tgt) then
              aupdate d "id" (GVal.PStr q.2)
            else d) e.data}) :=
  downgrade_fold_edges G.directed eids
    {G with multi := false, edges := G.edges.map (fun e => {e with key := none})} rfl

theorem ids_fold_skip (dct : Bool) (pt : String × String) :
    ∀ (eids : List ((String × String) × String)) (d : List (String × GVal)),
      (∀ q ∈ eids, pairMatches dct (q.1.1, q.1.2) pt = false) →
      eids.foldl (fun dd q =>
        if pairMatches dct (q.1.1, q.1.2) pt then aupdate dd "id" (GVal.PStr q.2)
        else dd) d = d := by
  intro eids
  induction eids with
  | nil => intro d _; rfl
  | cons q0 rest ih =>
    intro d hno
    rw [List.foldl_cons]
    rw [if_neg (by rw [hno q0 (List.mem_cons_self _ _)]; exact Bool.false_ne_true)]
    exact ih d (fun q hq => hno q (List.mem_cons_of_mem _ hq))

theorem ids_fold_lookup (dct : Bool) (pt : String × String) :
    ∀ (eids : List ((String × String) × String)) (d : List (String × GVal))
      (s : String), alookup eids pt = some s →
      (∀ q ∈ eids, pairMatches dct (q.1.1, q.1.2) pt = true → q.1 = pt) →
      ((eids.map Prod.fst).Nodup) →
      alookup (eids.foldl (fun dd q =>
        if pairMatches dct (q.1.1, q.1.2) pt then aupdate dd "id" (GVal.PStr q.2)
        else dd) d) "id" = some (GVal.PStr s) := by
  intro eids
  induction eids with
  | nil =>
    intro d s hlk
    cases hlk
  | cons q0 rest ih =>
    intro d s hlk hex hnd
    obtain ⟨k0, v0⟩ := q0
    rw [List.foldl_cons]
    dsimp only
    simp only [List.map_cons, List.nodup_cons] at hnd
    by_cases hk : k0 = pt
    · have hv : v0 = s := by
        simp only [alookup, if_pos hk] at hlk
        exact Option.some.inj hlk
      subst hv
      have hcond : pairMatches dct (k0.1, k0.2) pt = true := by
        rw [hk]
        exact pairMatches_refl dct pt
      rw [if_pos hcond]
      rw [ids_fold_skip dct pt rest _ (by
        intro q hq
        by_contra hc
        rw [Bool.not_eq_false] at hc
        have hq1 : q.1 = pt := hex q (List.mem_cons_of_mem _ hq) hc
        exact hnd.1 (List.mem_map.mpr ⟨q, hq, hq1.trans hk.symm⟩))]
      exact alookup_aupdate_self _ _ _
    · have hlk2 : alookup rest pt = some s := by
        simp only [alookup, if_neg hk] at hlk
        exact hlk
      have hcond : pairMatches dct (k0.1, k0.2) pt = false := by
        by_contra hc
        rw [Bool.not_eq_false] at hc
        exact hk (hex (k0, v0) (List.mem_cons_self _ _) hc)
      rw [if_neg (by rw [hcond]; exact Bool.false_ne_true)]
      exact ih _ s hlk2 (fun q hq hc => hex q (List.mem_cons_of_mem _ hq) hc) hnd.2

theorem downgrade_attach (G : PyGraph) (eids : List ((String × String) × String))
    (e : PyEdge) (he : e ∈ G.edges) (s : String)
    (hlk : alookup eids (e.src, e.tgt) = some s)
    (hex : ∀ q ∈ eids,
      pairMatches G.directed (q.1.1, q.1.2) (e.src, e.tgt) = true →
      q.1 = (e.src, e.tgt))
    (hnd : (eids.map Prod.fst).Nodup) :
    ∃ e2 ∈ (downgrade G eids).edges, (e2.src, e2.tgt) = (e.src, e.tgt)
      ∧ alookup e2.data "id" = some (GVal.PStr s) := by
  rw [downgrade_edges]
  refine ⟨_, List.mem_map.mpr ⟨({e with key := none} : PyEdge),
    List.mem_map.mpr ⟨e, he, rfl⟩, rfl⟩, rfl, ?_⟩
  exact ids_fold_lookup G.directed (e.src, e.tgt) eids e.data s hlk hex hnd

theorem edgesFold_eids_domain (table : List (Option String × KeyEntry)) :
    ∀ (exs : List XmlElem) (G : PyGraph) (st : ReaderState)
      (p : PyGraph × ReaderState), edgesFold table exs G st = Except.ok p →
      ∀ q ∈ p.2.edgeIds, q ∈ st.edgeIds ∨ ∃ ex ∈ exs, q.1 = elemEndpoints ex := by
  intro exs
  induction exs with
  | nil =>
    intro G st p h q hq
    cases h
    exact Or.inl hq
  | cons ex0 rest ih =>
    intro G st p h q hq
    unfold edgesFold at h
    cases ha : addEdgeR table ex0 G st with
    | error err =>
      rw [ha] at h
      simp only [Bind.bind, Except.bind] at h
      cases h
    | ok r =>
      rw [ha] at h
      simp only [Bind.bind, Except.bind] at h
      obtain ⟨data, _, _, _, hrids⟩ := addEdgeR_inv table ex0 G st r ha
      rcases ih r.1 r.2 p h q hq with hmem | ⟨ex, hex, hpt⟩
      · rw [hrids] at hmem
        cases hid : ex0.get "id" with
        | none =>
          rw [hid] at hmem
          exact Or.inl hmem
        | some s =>
          rw [hid] at hmem
          dsimp only at hmem
          by_cases hs : s = ""
          · rw [if_pos hs] at hmem
            exact Or.inl hmem
          · rw [if_neg hs] at hmem
            rcases aupdate_mem st.edgeIds (elemEndpoints ex0) s q hmem with hm | hk
            · exact Or.inl hm
            · exact Or.inr ⟨ex0, List.mem_cons_self _ _, hk⟩
      · exact Or.inr ⟨ex, List.mem_cons_of_mem _ hex, hpt⟩

theorem edgesFold_eids_nodup (table : List (Option String × KeyEntry)) :
    ∀ (exs : List XmlElem) (G : PyGraph) (st : ReaderState)
      (p : PyGraph × ReaderState), edgesFold table exs G st = Except.ok p →
      (st.edgeIds.map Prod.fst).Nodup → (p.2.edgeIds.map Prod.fst).Nodup := by
  intro exs
  induction exs with
  | nil =>
    intro G st p h hnd
    cases h
    exact hnd
  | cons ex0 rest ih =>
    intro G st p h hnd
    unfold edgesFold at h
    cases ha : addEdgeR table ex0 G st with
    | error err =>
      rw [ha] at h
      simp only [Bind.bind, Except.bind] at h
      cases h
    | ok r =>
      rw [ha] at h
      simp only [Bind.bind, Except.bind] at h
      obtain ⟨data, _, _, _, hrids⟩ := addEdgeR_inv table ex0 G st r ha
      refine ih r.1 r.2 p h ?_
      rw [hrids]
      cases hid : ex0.get "id" with
      | none => exact hnd
      | some s =>
        dsimp only
        by_cases hs : s = ""
        · rw [if_pos hs]
          exact hnd
        · rw [if_neg hs]
          exact aupdate_keys_nodup _ _ _ hnd

theorem makeGraph_eq (table : List (Option String × KeyEntry))
    (defaults : List (Option String × Option String)) (gx : XmlElem)
    (st : ReaderState) :
    makeGraph table defaults gx st =
      Except.bind (defaultsFold table defaults [] [])
        (fun nded =>
          if (gx.findTag "hyperedge").isSome then .error .hyperedgeFound
          else
            Except.bind (nodesFold table (gx.findall "node")
                ⟨decide (gx.get "edgedefault" = some "directed"), true, [], [],
                  [("node_default", GVal.PDict nded.1),
                   ("edge_default", GVal.PDict nded.2)]⟩)
              (fun G1 =>
                Except.bind (edgesFold table (gx.findall "edge") G1 st)
                  (fun p =>
                    Except.bind (decodeDatas table (gx.findall "data") [])
                      (fun gdata =>
                        Except.ok
                          ((if p.2.multigraph then
                              {p.1 with graphAttrs := aupdates p.1.graphAttrs gdata}
                            else
                              downgrade
                                {p.1 with
                                  graphAttrs := aupdates p.1.graphAttrs gdata}
                                p.2.edgeIds),
                            p.2))))) := rfl

theorem graphsFold_nil (table : List (Option String × KeyEntry))
    (defaults : List (Option String × Option String)) (st : ReaderState) :
    graphsFold table defaults [] st = Except.ok [] := rfl

theorem graphsFold_cons (table : List (Option String × KeyEntry))
    (defaults : List (Option String × Option String)) (g : XmlElem)
    (rest : List XmlElem) (st : ReaderState) :
    graphsFold table defaults (g :: rest) st =
      Except.bind (makeGraph table defaults g st)
        (fun p =>
          Except.bind (graphsFold table defaults rest p.2)
            (fun q => Except.ok (p.1 :: q))) := rfl

theorem makeGraph_inv (table : List (Option String × KeyEntry))
    (defaults : List (Option String × Option String)) (gx : XmlElem)
    (st : ReaderState) (p : PyGraph × ReaderState)
    (h : makeGraph table defaults gx st = Except.ok p) :
    ∃ nded G1 q gdata,
      defaultsFold table defaults [] [] = Except.ok nded
      ∧ nodesFold table (gx.findall "node")
          ⟨decide (gx.get "edgedefault" = some "directed"), true, [], [],
            [("node_default", GVal.PDict nded.1),
             ("edge_default", GVal.PDict nded.2)]⟩ = Except.ok G1
      ∧ edgesFold table (gx.findall "edge") G1 st = Except.ok q
      ∧ decodeDatas table (gx.findall "data") [] = Except.ok gdata
      ∧ p.2 = q.2
      ∧ p.1 = (if q.2.multigraph then
            {q.1 with graphAttrs := aupdates q.1.graphAttrs gdata}
          else
            downgrade {q.1 with graphAttrs := aupdates q.1.graphAttrs gdata}
              q.2.edgeIds) := by
  rw [makeGraph_eq] at h
  cases hnd : defaultsFold table defaults [] [] with
  | error e =>
    rw [hnd] at h
    simp only [Except.bind] at h
    cases h
  | ok nded =>
    rw [hnd] at h
    simp only [Except.bind] at h
    by_cases hhyp : (gx.findTag "hyperedge").isSome
    · rw [if_pos hhyp] at h
      cases h
    · rw [if_neg hhyp] at h
      cases hn1 : nodesFold table (gx.findall "node")
          ⟨decide (gx.get "edgedefault" = some "directed"), true, [], [],
            [("node_default", GVal.PDict nded.1),
             ("edge_default", GVal.PDict nded.2)]⟩ with
      | error e =>
        rw [hn1] at h
        simp only [Except.bind] at h
        cases h
      | ok G1 =>
        rw [hn1] at h
        simp only [Except.bind] at h
        cases he1 : edgesFold table (gx.findall "edge") G1 st with
        | error e =>
          rw [he1] at h
          simp only [Except.bind] at h
          cases h
        | ok q =>
          rw [he1] at h
          simp only [Except.bind] at h
          cases hd1 : decodeDatas table (gx.findall "data") [] with
          | error e =>
            rw [hd1] at h
            simp only [Except.bind] at h
            cases h
          | ok gdata =>
            rw [hd1] at h
            simp only [Except.bind] at h
            rw [Except.ok.injEq] at h
            refine ⟨nded, G1, q, gdata, rfl, hn1, he1, rfl, ?_, ?_⟩
            · exact (congrArg Prod.snd h).symm
            · exact (congrArg Prod.fst h).symm

/-- C3 counterexample: `twoGraphDoc` holds two `<graph>` elements; the
first has a duplicate `a → b` endpoint pair, the second a single `x → y`
edge.  The reader's `multigraph` flag persists across graphs in one
document, so the second graph stays a multigraph even though none of its
own endpoint pairs is duplicated. -/
theorem C3_counterexample :
    decodeDocument twoGraphDoc = Except.ok
      [⟨true, true, [("a", []), ("b", [])],
        [⟨"a", "b", some (GVal.PInt 0), []⟩, ⟨"a", "b", some (GVal.PInt 1), []⟩],
        [("node_default", GVal.PDict []), ("edge_default", GVal.PDict [])]⟩,
       ⟨true, true, [("x", []), ("y", [])],
        [⟨"x", "y", some (GVal.PInt 0), []⟩],
        [("node_default", GVal.PDict []), ("edge_default", GVal.PDict [])]⟩]
    ∧ hasDupPair true [⟨"x", "y", some (GVal.PInt 0), []⟩] = false :=
  ⟨by rfl, by rfl⟩

/-- C3 (amended): for a document whose root holds exactly one `<graph>`
element, decoded with a fresh reader, the graph is built internally as a
multigraph and ends up simple iff no duplicate (source, target) endpoint
pair occurs among that graph element's `<edge>` children; when it is
downgraded, every edge whose element carried a non-empty `id` XML
attribute appears with that value reattached as a plain `id` edge
attribute.  (The per-document wording of the original claim fails
because the reader's multigraph flag persists across the graphs of one
document.) -/
theorem C3_downgrade_characterization (root gx : XmlElem) (gs : List PyGraph)
    (hroot : root.findall "graph" = [gx])
    (h : decodeDocument root = Except.ok gs) :
    ∃ G, gs = [G]
      ∧ (G.multi = false ↔ dupElemPair G.directed (gx.findall "edge") = false)
      ∧ (dupElemPair G.directed (gx.findall "edge") = false →
          ∀ ex ∈ gx.findall "edge", ∀ s, ex.get "id" = some s → s ≠ "" →
            ∃ e ∈ G.edges, (e.src, e.tgt) = elemEndpoints ex
              ∧ alookup e.data "id" = some (GVal.PStr s)) := by
  unfold decodeDocument at h
  cases hk : findGraphmlKeys root with
  | error e =>
    rw [hk] at h
    simp only [Bind.bind, Except.bind] at h
    cases h
  | ok kd =>
    rw [hk] at h
    simp only [Bind.bind, Except.bind] at h
    rw [hroot, graphsFold_cons] at h
    cases hm : makeGraph kd.1 kd.2 gx ⟨false, []⟩ with
    | error e =>
      rw [hm] at h
      simp only [Except.bind] at h
      cases h
    | ok p =>
      rw [hm] at h
      simp only [Except.bind] at h
      rw [graphsFold_nil] at h
      simp only [Except.bind, Except.ok.injEq] at h
      obtain ⟨nded, G1, q, gdata, hnded, hn1, he1, hgd, hp2, hp1⟩ :=
        makeGraph_inv kd.1 kd.2 gx ⟨false, []⟩ p hm
      obtain ⟨hG1edges, hG1multi, hG1dir, hG1attrs⟩ :=
        nodesFold_inv kd.1 (gx.findall "node") _ G1 hn1
      have hG1e : G1.edges = [] := hG1edges
      have hnoe : ∀ ex ∈ gx.findall "edge",
          hasEdge G1 (elemEndpoints ex).1 (elemEndpoints ex).2 = false := by
        intro ex _
        unfold hasEdge
        rw [hG1e]
        rfl
      obtain ⟨hqdir, hqmulti, hqattrs, hqhas, hqflag⟩ :=
        edgesFold_inv kd.1 (gx.findall "edge") G1 ⟨false, []⟩ q he1
      have hany : ((gx.findall "edge").any (fun ex =>
          hasEdge G1 (elemEndpoints ex).1 (elemEndpoints ex).2)) = false := by
        rw [List.any_eq_false]
        intro ex hex
        rw [hnoe ex hex]
        exact Bool.false_ne_true
      have hflag : q.2.multigraph = dupElemPair G1.directed (gx.findall "edge") := by
        rw [hqflag, hany]
        rfl
      have hpdir : p.1.directed = G1.directed := by
        rw [hp1]
        by_cases hf : q.2.multigraph = true
        · rw [if_pos hf]
          exact hqdir
        · rw [if_neg hf, downgrade_directed]
          exact hqdir
      refine ⟨p.1, h.symm, ?_, ?_⟩
      · by_cases hf : q.2.multigraph = true
        · rw [if_pos hf] at hp1
          have hdup1 : dupElemPair G1.directed (gx.findall "edge") = true := by
            rw [← hflag]
            exact hf
          constructor
          · intro hmf
            have hcontra : (true : Bool) = false := by
              rw [hp1] at hmf
              have hq1m : q.1.multi = false := hmf
              rw [hqmulti, hG1multi] at hq1m
              exact hq1m
            cases hcontra
          · intro hdupf
            rw [hpdir, hdup1] at hdupf
            cases hdupf
        · rw [if_neg hf] at hp1
          have hff : q.2.multigraph = false := Bool.eq_false_iff.mpr hf
          have hmulti : p.1.multi = false := by
            rw [hp1]
            exact downgrade_multi _ _
          have hdupf : dupElemPair G1.directed (gx.findall "edge") = false := by
            rw [← hflag]
            exact hff
          constructor
          · intro _
            rw [hpdir]
            exact hdupf
          · intro _
            exact hmulti
      · intro hdupP ex hex s hid hs
        have hdup1 : dupElemPair G1.directed (gx.findall "edge") = false := by
          rw [← hpdir]
          exact hdupP
        have hff : q.2.multigraph = false := by
          rw [hflag]
          exact hdup1
        rw [if_neg (by rw [hff]; exact Bool.false_ne_true)] at hp1
        have hlk : alookup q.2.edgeIds (elemEndpoints ex) = some s :=
          edgesFold_eids_lookup kd.1 (gx.findall "edge") G1 ⟨false, []⟩ q he1
            hdup1 ex hex s hid hs
        obtain ⟨e, hemem, hept⟩ :=
          edgesFold_exact_edge kd.1 (gx.findall "edge") G1 ⟨false, []⟩ q he1
            hdup1 hnoe ex hex
        have hndk : (q.2.edgeIds.map Prod.fst).Nodup :=
          edgesFold_eids_nodup kd.1 (gx.findall "edge") G1 ⟨false, []⟩ q he1
            (by exact List.nodup_nil)
        have hlk2 : alookup q.2.edgeIds (e.src, e.tgt) = some s := by
          rw [hept]
          exact hlk
        have hexact : ∀ r ∈ q.2.edgeIds,
            pairMatches ({q.1 with
                graphAttrs := aupdates q.1.graphAttrs gdata} : PyGraph).directed
              (r.1.1, r.1.2) (e.src, e.tgt) = true → r.1 = (e.src, e.tgt) := by
          intro r hr hpm
          rcases edgesFold_eids_domain kd.1 (gx.findall "edge") G1 ⟨false, []⟩ q
              he1 r hr with hmem0 | ⟨ey, hey, hpt⟩
          · exact absurd hmem0 (List.not_mem_nil r)
          · have hpm2 : pairMatches G1.directed (elemEndpoints ey)
                (elemEndpoints ex) = true := by
              have h1 : ((r.1.1, r.1.2) : String × String) = elemEndpoints ey := by
                rw [← hpt]
              rw [h1, hept] at hpm
              rw [show ({q.1 with
                  graphAttrs := aupdates q.1.graphAttrs gdata} : PyGraph).directed
                    = G1.directed from hqdir] at hpm
              exact hpm
            have heq := dup_false_entry_exact G1.directed (gx.findall "edge")
              hdup1 ex hex ey hey hpm2
            rw [hpt, heq, ← hept]
        obtain ⟨e2, he2mem, he2pt, he2id⟩ :=
          downgrade_attach {q.1 with graphAttrs := aupdates q.1.graphAttrs gdata}
            q.2.edgeIds e hemem s hlk2 hexact hndk
        refine ⟨e2, ?_, ?_, he2id⟩
        · rw [hp1]
          exact he2mem
        · rw [he2pt]
          exact hept

/-- Witness for the amended C3 theorem at a concrete one-graph document
whose single edge carries `id="e7"`. -/
theorem C3_witness :
    ∃ G, [c3WitG] = [G]
      ∧ (G.multi = false ↔ dupElemPair G.directed (c3WitGx.findall "edge") = false)
      ∧ (dupElemPair G.directed (c3WitGx.findall "edge") = false →
          ∀ ex ∈ c3WitGx.findall "edge", ∀ s, ex.get "id" = some s → s ≠ "" →
            ∃ e ∈ G.edges, (e.src, e.tgt) = elemEndpoints ex
              ∧ alookup e.data "id" = some (GVal.PStr s)) :=
  C3_downgrade_characterization c3WitDoc c3WitGx [c3WitG] (by rfl) (by rfl)

theorem alookup_append_some {α β : Type} [DecidableEq α] (l l2 : List (α × β))
    (k : α) (v : β) (h : alookup l k = some v) : alookup (l ++ l2) k = some v := by
  induction l with
  | nil => cases h
  | cons p rest ih =>
    obtain ⟨a, b⟩ := p
    simp only [alookup] at h
    simp only [List.cons_append, alookup]
    by_cases hp : a = k
    · rw [if_pos hp] at h ⊢
      exact h
    · rw [if_neg hp] at h ⊢
      exact ih h

theorem alookup_append_none {α β : Type} [DecidableEq α] (l l2 : List (α × β))
    (k : α) (h : alookup l k = none) : alookup (l ++ l2) k = alookup l2 k := by
  induction l with
  | nil => rfl
  | cons p rest ih =>
    obtain ⟨a, b⟩ := p
    simp only [alookup] at h
    simp only [List.cons_append, alookup]
    by_cases hp : a = k
    · rw [if_pos hp] at h
      cases h
    · rw [if_neg hp] at h ⊢
      exact ih h

theorem getKey_keys_persist (n x s : String) (d : Option GAtom)
    (st : WriterState) (t : String × String × String) (i : String)
    (h : alookup st.keys t = some i) :
    alookup ((getKey n x s d st).2).keys t = some i := by
  unfold getKey
  cases hl : alookup st.keys (n, x, s) with
  | some i0 => exact h
  | none => exact alookup_append_some _ _ _ _ h

theorem getKey_seen (n x s : String) (d : Option GAtom) (st : WriterState) :
    (alookup ((getKey n x s d st).2).keys (n, x, s)).isSome = true := by
  unfold getKey
  cases hl : alookup st.keys (n, x, s) with
  | some i0 =>
    rw [hl]
    rfl
  | none =>
    rw [alookup_append_none _ _ _ hl]
    simp only [alookup]
    simp

theorem getKey_noop (n x s : String) (d : Option GAtom) (st : WriterState)
    (i : String) (h : alookup st.keys (n, x, s) = some i) :
    (getKey n x s d st).2 = st := by
  unfold getKey
  rw [h]

theorem nameStep_noop (f : String → Option String) (dfltOf : String → Option GAtom)
    (scope : String) (st : WriterState) (k : String)
    (h : kseen f scope st k) : nameStep f dfltOf scope st k = st := by
  unfold nameStep
  unfold kseen at h
  cases hf : f k with
  | none => rfl
  | some xt =>
    rw [hf] at h
    have h2 : (alookup st.keys (k, xt, scope)).isSome = true := h
    cases hl : alookup st.keys (k, xt, scope) with
    | none =>
      rw [hl] at h2
      cases h2
    | some i => exact getKey_noop _ _ _ _ _ _ hl

theorem nameStep_keys_persist (f : String → Option String)
    (dfltOf : String → Option GAtom) (scope : String) (st : WriterState)
    (k2 : String) (t : String × String × String) (i : String)
    (h : alookup st.keys t = some i) :
    alookup ((nameStep f dfltOf scope st k2).keys) t = some i := by
  unfold nameStep
  cases hf2 : f k2 with
  | none => exact h
  | some xt2 => exact getKey_keys_persist _ _ _ _ _ _ _ h

theorem kseen_mono (f : String → Option String) (dfltOf : String → Option GAtom)
    (scope : String) (st : WriterState) (k k2 : String)
    (h : kseen f scope st k) : kseen f scope (nameStep f dfltOf scope st k2) k := by
  unfold kseen at h ⊢
  cases hf : f k with
  | none => trivial
  | some xt =>
    rw [hf] at h
    have h2 : (alookup st.keys (k, xt, scope)).isSome = true := h
    show (alookup ((nameStep f dfltOf scope st k2).keys) (k, xt, scope)).isSome
      = true
    cases hl : alookup st.keys (k, xt, scope) with
    | none =>
      rw [hl] at h2
      cases h2
    | some i =>
      rw [nameStep_keys_persist f dfltOf scope st k2 _ i hl]
      rfl

theorem kseen_after (f : String → Option String) (dfltOf : String → Option GAtom)
    (scope : String) (st : WriterState) (k : String) :
    kseen f scope (nameStep f dfltOf scope st k) k := by
  unfold kseen nameStep
  cases hf : f k with
  | none => trivial
  | some xt =>
    show (alookup (((getKey k xt scope (dfltOf k) st).2)).keys
      (k, xt, scope)).isSome = true
    exact getKey_seen _ _ _ _ _

theorem pairFold_cons (f : String → Option String) (dfltOf : String → Option GAtom)
    (scope : String) (p : String × GVal) (ps : List (String × GVal))
    (st : WriterState) :
    pairFold f dfltOf scope (p :: ps) st
      = pairFold f dfltOf scope ps (nameStep f dfltOf scope st p.1) := rfl

theorem pairFold_append (f : String → Option String) (dfltOf : String → Option GAtom)
    (scope : String) (a b : List (String × GVal)) (st : WriterState) :
    pairFold f dfltOf scope (a ++ b) st
      = pairFold f dfltOf scope b (pairFold f dfltOf scope a st) :=
  List.foldl_append _ _ _ _

theorem kseen_pairFold_mono (f : String → Option String)
    (dfltOf : String → Option GAtom) (scope : String) (k : String) :
    ∀ (ps : List (String × GVal)) (st : WriterState), kseen f scope st k →
      kseen f scope (pairFold f dfltOf scope ps st) k := by
  intro ps
  induction ps with
  | nil =>
    intro st h
    exact h
  | cons p rest ih =>
    intro st h
    rw [pairFold_cons]
    exact ih _ (kseen_mono f dfltOf scope st k p.1 h)

theorem pairFold_seen (f : String → Option String) (dfltOf : String → Option GAtom)
    (scope : String) (k : String) :
    ∀ (m : List (String × GVal)) (st : WriterState) (v : GVal),
      alookup m k = some v → kseen f scope (pairFold f dfltOf scope m st) k := by
  intro m
  induction m with
  | nil =>
    intro st v h
    cases h
  | cons p rest ih =>
    intro st v h
    obtain ⟨a, b⟩ := p
    simp only [alookup] at h
    rw [pairFold_cons]
    by_cases hp : a = k
    · subst hp
      exact kseen_pairFold_mono f dfltOf scope a rest _
        (kseen_after f dfltOf scope st a)
    · rw [if_neg hp] at h
      exact ih _ v h

theorem pairFold_dict (f : String → Option String) (dfltOf : String → Option GAtom)
    (scope : String) :
    ∀ (ps m : List (String × GVal)) (st : WriterState),
      pairFold f dfltOf scope
        (ps.foldl (fun m2 p => addFirst m2 p.1 p.2) m) st
      = pairFold f dfltOf scope ps (pairFold f dfltOf scope m st) := by
  intro ps
  induction ps with
  | nil =>
    intro m st
    rfl
  | cons p rest ih =>
    intro m st
    rw [List.foldl_cons, ih, pairFold_cons]
    have hstep : pairFold f dfltOf scope (addFirst m p.1 p.2) st
        = nameStep f dfltOf scope (pairFold f dfltOf scope m st) p.1 := by
      unfold addFirst
      cases hl : alookup m p.1 with
      | some w =>
        rw [if_pos (show (some w).isSome = true from rfl)]
        exact (nameStep_noop f dfltOf scope _ p.1
          (pairFold_seen f dfltOf scope p.1 m st w hl)).symm
      | none =>
        rw [if_neg (show ¬((none : Option GVal).isSome = true) from
          fun hc => Bool.false_ne_true hc)]
        rw [pairFold_append]
        rfl
    rw [hstep]

theorem pairFold_dict_bags (f : String → Option String)
    (dfltOf : String → Option GAtom) (scope : String) :
    ∀ (bags : List (List (String × GVal))) (m : List (String × GVal))
      (st : WriterState),
      pairFold f dfltOf scope
        (bags.foldl (fun m2 b => b.foldl (fun m3 p => addFirst m3 p.1 p.2) m2) m)
        st
      = bags.foldl (fun s2 b => pairFold f dfltOf scope b s2)
          (pairFold f dfltOf scope m st) := by
  intro bags
  induction bags with
  | nil =>
    intro m st
    rfl
  | cons b rest ih =>
    intro m st
    rw [List.foldl_cons, ih, List.foldl_cons, pairFold_dict]

theorem observedTypes_append (a b : List ARec) (n s : String)
    (hb : ∀ r ∈ b, r.scope ≠ s) :
    observedTypes (a ++ b) n s = observedTypes a n s := by
  unfold observedTypes
  rw [List.filter_append]
  have hnil : b.filter (fun r => r.name == n && r.scope == s) = [] := by
    rw [List.filter_eq_nil_iff]
    intro r hr
    simp only [Bool.and_eq_true, beq_iff_eq, not_and]
    intro _ hcontra
    exact hb r hr hcontra
  rw [hnil, List.append_nil]

theorem attrType_infer_indep (types : List TagTy) (v w : GVal)
    (hne : types ≠ []) : attrType true types v = attrType true types w := by
  unfold attrType
  cases types with
  | nil => exact absurd rfl hne
  | cons t rest => simp [List.headD]

theorem observedTypes_mem_ne_nil (R : List ARec) (r : ARec) (hr : r ∈ R) :
    observedTypes R r.name r.scope ≠ [] := by
  unfold observedTypes
  rw [Ne, List.dedup_eq_nil, List.map_eq_nil_iff, List.filter_eq_nil_iff]
  intro hall
  have := hall r hr
  simp at this

theorem addData_inv (name : String) (ety : TagTy) (value scope : String)
    (dflt : Option GAtom) (st : WriterState) (pr : XmlElem × WriterState)
    (h : addData name ety value scope dflt st = Except.ok pr) :
    ∃ xt, xmlTypeOf ety = some xt ∧ pr.2 = (getKey name xt scope dflt st).2 := by
  unfold addData at h
  cases hx : xmlTypeOf ety with
  | none =>
    rw [hx] at h
    cases h
  | some xt =>
    rw [hx] at h
    have h2 : Except.ok ((XmlElem.mk "data"
        [("key", (getKey name xt scope dflt st).1)] (some value) []),
        (getKey name xt scope dflt st).2) = Except.ok pr := h
    rw [Except.ok.injEq] at h2
    exact ⟨xt, rfl, congrArg Prod.snd h2.symm⟩

theorem lxmlKeysPass_state (infer : Bool) (R : List ARec) (scope : String)
    (dfltOf : String → Option GAtom) (f : String → Option String) :
    ∀ (ps : List (String × GVal)) (st st2 : WriterState),
      lxmlKeysPass infer R scope dfltOf ps st = Except.ok st2 →
      (∀ p ∈ ps, xmlTypeOf (attrType infer (observedTypes R p.1 scope) p.2)
        = f p.1) →
      st2 = pairFold f dfltOf scope ps st := by
  intro ps
  induction ps with
  | nil =>
    intro st st2 h _
    cases h
    rfl
  | cons p rest ih =>
    intro st st2 h hf
    obtain ⟨k, v⟩ := p
    unfold lxmlKeysPass at h
    cases hx : xmlTypeOf (attrType infer (observedTypes R k scope) v) with
    | none =>
      rw [hx] at h
      cases h
    | some xt =>
      rw [hx] at h
      have h2 : lxmlKeysPass infer R scope dfltOf rest
          (getKey k xt scope (dfltOf k) st).2 = Except.ok st2 := h
      rw [pairFold_cons]
      have hk2 : xmlTypeOf (attrType infer (observedTypes R k scope) v) = f k :=
        hf (k, v) (List.mem_cons_self _ _)
      have hfk : f k = some xt := hk2.symm.trans hx
      have hns : nameStep f dfltOf scope st (k, v).1
          = (getKey k xt scope (dfltOf k) st).2 := by
        unfold nameStep
        rw [show f (k, v).1 = some xt from hfk]
      rw [hns]
      exact ih _ st2 h2 (fun q hq => hf q (List.mem_cons_of_mem _ hq))

theorem emitDatas_state (infer : Bool) (R : List ARec) (scope : String)
    (dfltOf : String → Option GAtom) (f : String → Option String) :
    ∀ (recs : List ARec) (st : WriterState) (p : List XmlElem × WriterState),
      emitDatas infer R recs st = Except.ok p →
      (∀ r ∈ recs, r.scope = scope) →
      (∀ r ∈ recs, r.dflt = dfltOf r.name) →
      (∀ r ∈ recs, xmlTypeOf (attrType infer (observedTypes R r.name scope)
        r.value) = f r.name) →
      p.2 = recs.foldl (fun s r => nameStep f dfltOf scope s r.name) st := by
  intro recs
  induction recs with
  | nil =>
    intro st p h _ _ _
    cases h
    rfl
  | cons r rest ih =>
    intro st p h hs hd hf
    rw [emitDatas_cons] at h
    have hsc : r.scope = scope := hs r (List.mem_cons_self _ _)
    rw [hsc] at h
    cases ha : addData r.name (attrType infer (observedTypes R r.name scope)
        r.value) (pyStr r.value) scope r.dflt st with
    | error err =>
      rw [ha] at h
      simp only [Except.bind] at h
      cases h
    | ok pr =>
      rw [ha] at h
      simp only [Except.bind] at h
      cases he : emitDatas infer R rest pr.2 with
      | error err =>
        rw [he] at h
        simp only [Except.bind] at h
        cases h
      | ok q =>
        rw [he] at h
        simp only [Except.bind] at h
        cases h
        obtain ⟨xt, hx, hpr2⟩ := addData_inv _ _ _ _ _ _ _ ha
        have hfr := hf r (List.mem_cons_self _ _)
        have hdr := hd r (List.mem_cons_self _ _)
        rw [List.foldl_cons]
        have hns : nameStep f dfltOf scope st r.name = pr.2 := by
          unfold nameStep
          rw [← hfr, hx, hpr2, ← hdr]
        rw [hns]
        show q.2 = _
        exact ih pr.2 q he (fun r2 h2 => hs r2 (List.mem_cons_of_mem _ h2))
          (fun r2 h2 => hd r2 (List.mem_cons_of_mem _ h2))
          (fun r2 h2 => hf r2 (List.mem_cons_of_mem _ h2))

theorem emitDatas_state_node (infer : Bool) (R : List ARec)
    (ndef : List (String × GAtom)) (f : String → Option String)
    (n : String × List (String × GVal)) (st : WriterState)
    (p : List XmlElem × WriterState)
    (h : emitDatas infer R (nodeRecs ndef n) st = Except.ok p)
    (hf : ∀ q ∈ n.2, xmlTypeOf (attrType infer
      (observedTypes R q.1 "node") q.2) = f q.1) :
    p.2 = pairFold f (alookup ndef) "node" n.2 st := by
  have hst := emitDatas_state infer R "node" (alookup ndef) f (nodeRecs ndef n)
    st p h
    (by
      intro r hr
      obtain ⟨q, hq, rfl⟩ := List.mem_map.mp hr
      rfl)
    (by
      intro r hr
      obtain ⟨q, hq, rfl⟩ := List.mem_map.mp hr
      rfl)
    (by
      intro r hr
      obtain ⟨q, hq, rfl⟩ := List.mem_map.mp hr
      exact hf q hq)
  rw [hst]
  unfold nodeRecs pairFold
  rw [List.foldl_map]

theorem emitDatas_state_edge (infer : Bool) (R : List ARec)
    (edef : List (String × GAtom)) (f : String → Option String)
    (e : PyEdge) (st : WriterState) (p : List XmlElem × WriterState)
    (h : emitDatas infer R (edgeRecs edef e) st = Except.ok p)
    (hf : ∀ q ∈ e.data, xmlTypeOf (attrType infer
      (observedTypes R q.1 "edge") q.2) = f q.1) :
    p.2 = pairFold f (alookup edef) "edge" e.data st := by
  have hst := emitDatas_state infer R "edge" (alookup edef) f (edgeRecs edef e)
    st p h
    (by
      intro r hr
      obtain ⟨q, hq, rfl⟩ := List.mem_map.mp hr
      rfl)
    (by
      intro r hr
      obtain ⟨q, hq, rfl⟩ := List.mem_map.mp hr
      rfl)
    (by
      intro r hr
      obtain ⟨q, hq, rfl⟩ := List.mem_map.mp hr
      exact hf q hq)
  rw [hst]
  unfold edgeRecs pairFold
  rw [List.foldl_map]

theorem emitNodes_state (infer : Bool) (R : List ARec)
    (ndef : List (String × GAtom)) (f : String → Option String) :
    ∀ (nodes : List (String × List (String × GVal))) (st : WriterState)
      (p : List XmlElem × WriterState),
      emitNodes infer R ndef nodes st = Except.ok p →
      (∀ n ∈ nodes, ∀ q ∈ n.2, xmlTypeOf (attrType infer
        (observedTypes R q.1 "node") q.2) = f q.1) →
      p.2 = nodes.foldl (fun s n => pairFold f (alookup ndef) "node" n.2 s) st := by
  intro nodes
  induction nodes with
  | nil =>
    intro st p h _
    cases h
    rfl
  | cons n rest ih =>
    intro st p h hf
    rw [emitNodes_cons] at h
    cases hd : emitDatas infer R (nodeRecs ndef n) st with
    | error err =>
      rw [hd] at h
      simp only [Except.bind] at h
      cases h
    | ok pd =>
      rw [hd] at h
      simp only [Except.bind] at h
      cases hn : emitNodes infer R ndef rest pd.2 with
      | error err =>
        rw [hn] at h
        simp only [Except.bind] at h
        cases h
      | ok q =>
        rw [hn] at h
        simp only [Except.bind] at h
        cases h
        rw [List.foldl_cons]
        have hpd : pd.2 = pairFold f (alookup ndef) "node" n.2 st :=
          emitDatas_state_node infer R ndef f n st pd hd
            (hf n (List.mem_cons_self _ _))
        show q.2 = _
        rw [ih pd.2 q hn (fun n2 h2 => hf n2 (List.mem_cons_of_mem _ h2)), hpd]

theorem emitEdges_state (infer : Bool) (R : List ARec)
    (edef : List (String × GAtom)) (multi : Bool) (f : String → Option String) :
    ∀ (edges : List PyEdge) (st : WriterState)
      (p : List XmlElem × WriterState),
      emitEdges infer R edef multi edges st = Except.ok p →
      (∀ e ∈ edges, ∀ q ∈ e.data, xmlTypeOf (attrType infer
        (observedTypes R q.1 "edge") q.2) = f q.1) →
      p.2 = edges.foldl (fun s e => pairFold f (alookup edef) "edge" e.data s)
        st := by
  intro edges
  induction edges with
  | nil =>
    intro st p h _
    cases h
    rfl
  | cons e0 rest ih =>
    intro st p h hf
    rw [emitEdges_cons] at h
    cases hd : emitDatas infer R (edgeRecs edef e0) st with
    | error err =>
      rw [hd] at h
      simp only [Except.bind] at h
      cases h
    | ok pd =>
      rw [hd] at h
      simp only [Except.bind] at h
      cases hn : emitEdges infer R edef multi rest pd.2 with
      | error err =>
        rw [hn] at h
        simp only [Except.bind] at h
        cases h
      | ok q =>
        rw [hn] at h
        simp only [Except.bind] at h
        cases h
        rw [List.foldl_cons]
        have hpd : pd.2 = pairFold f (alookup edef) "edge" e0.data st :=
          emitDatas_state_edge infer R edef f e0 st pd hd
            (hf e0 (List.mem_cons_self _ _))
        show q.2 = _
        rw [ih pd.2 q hn (fun e2 h2 => hf e2 (List.mem_cons_of_mem _ h2)), hpd]

theorem emitDatas_state_graph (infer : Bool) (R : List ARec)
    (f : String → Option String) (plain : List (String × GVal))
    (st : WriterState) (p : List XmlElem × WriterState)
    (h : emitDatas infer R (graphRecs plain) st = Except.ok p)
    (hf : ∀ q ∈ plain, xmlTypeOf (attrType infer
      (observedTypes R q.1 "graph") q.2) = f q.1) :
    p.2 = pairFold f (fun _ => none) "graph" plain st := by
  have hst := emitDatas_state infer R "graph" (fun _ => none) f (graphRecs plain)
    st p h
    (by
      intro r hr
      obtain ⟨q, hq, rfl⟩ := List.mem_map.mp hr
      rfl)
    (by
      intro r hr
      obtain ⟨q, hq, rfl⟩ := List.mem_map.mp hr
      rfl)
    (by
      intro r hr
      obtain ⟨q, hq, rfl⟩ := List.mem_map.mp hr
      exact hf q hq)
  rw [hst]
  unfold graphRecs pairFold
  rw [List.foldl_map]

theorem addFirst_mem (m : List (String × GVal)) (k : String) (v : GVal) :
    ∀ q ∈ addFirst m k v, q ∈ m ∨ q = (k, v) := by
  intro q hq
  unfold addFirst at hq
  by_cases hc : (alookup m k).isSome = true
  · rw [if_pos hc] at hq
    exact Or.inl hq
  · rw [if_neg hc] at hq
    rcases List.mem_append.mp hq with hm | hone
    · exact Or.inl hm
    · exact Or.inr (List.mem_singleton.mp hone)

theorem bagfold_mem (b : List (String × GVal)) :
    ∀ (m : List (String × GVal)) (q : String × GVal),
      q ∈ b.foldl (fun m2 p => addFirst m2 p.1 p.2) m → q ∈ m ∨ q ∈ b := by
  induction b with
  | nil =>
    intro m q hq
    exact Or.inl hq
  | cons p rest ih =>
    intro m q hq
    rw [List.foldl_cons] at hq
    rcases ih _ q hq with hm | hb
    · rcases addFirst_mem m p.1 p.2 q hm with h1 | h2
      · exact Or.inl h1
      · right
        rw [h2]
        exact List.mem_cons_self _ _
    · exact Or.inr (List.mem_cons_of_mem _ hb)

theorem bagsfold_mem (bags : List (List (String × GVal))) :
    ∀ (m : List (String × GVal)) (q : String × GVal),
      q ∈ bags.foldl (fun m2 b =>
        b.foldl (fun m3 p => addFirst m3 p.1 p.2) m2) m →
      q ∈ m ∨ ∃ b ∈ bags, q ∈ b := by
  induction bags with
  | nil =>
    intro m q hq
    exact Or.inl hq
  | cons b rest ih =>
    intro m q hq
    rw [List.foldl_cons] at hq
    rcases ih _ q hq with hm | ⟨b2, hb2, hq2⟩
    · rcases bagfold_mem b m q hm with h1 | h2
      · exact Or.inl h1
      · exact Or.inr ⟨b, List.mem_cons_self _ _, h2⟩
    · exact Or.inr ⟨b2, List.mem_cons_of_mem _ hb2, hq2⟩

theorem lxmlNodeAttrs_mem (nodes : List (String × List (String × GVal))) :
    ∀ q ∈ lxmlNodeAttrs nodes, ∃ n ∈ nodes, q ∈ n.2 := by
  intro q hq
  unfold lxmlNodeAttrs at hq
  rw [show nodes.foldl (fun m n =>
        n.2.foldl (fun m2 p => addFirst m2 p.1 p.2) m) ([] : List (String × GVal))
      = (nodes.map (fun n => n.2)).foldl (fun m2 b =>
          b.foldl (fun m3 p => addFirst m3 p.1 p.2) m2) []
    from (List.foldl_map _ _ _ _).symm] at hq
  rcases bagsfold_mem _ _ q hq with hnil | ⟨b, hb, hqb⟩
  · cases hnil
  · obtain ⟨n, hn, rfl⟩ := List.mem_map.mp hb
    exact ⟨n, hn, hqb⟩

theorem lxmlEdgeAttrs_mem (edges : List PyEdge) :
    ∀ q ∈ lxmlEdgeAttrs false edges, ∃ e ∈ edges, q ∈ e.data := by
  intro q hq
  have hq2 : q ∈ edges.foldl (fun m e =>
      e.data.foldl (fun m2 p => addFirst m2 p.1 p.2) m) [] := hq
  rw [show edges.foldl (fun m e =>
        e.data.foldl (fun m2 p => addFirst m2 p.1 p.2) m) ([] : List (String × GVal))
      = (edges.map (fun e => e.data)).foldl (fun m2 b =>
          b.foldl (fun m3 p => addFirst m3 p.1 p.2) m2) []
    from (List.foldl_map _ _ _ _).symm] at hq2
  rcases bagsfold_mem _ _ q hq2 with hnil | ⟨b, hb, hqb⟩
  · cases hnil
  · obtain ⟨e, he, rfl⟩ := List.mem_map.mp hb
    exact ⟨e, he, hqb⟩

theorem nodeRecs_scope (ndef : List (String × GAtom))
    (nodes : List (String × List (String × GVal))) :
    ∀ r ∈ (nodes.map (nodeRecs ndef)).flatten, r.scope = "node" := by
  intro r hr
  rw [List.mem_flatten] at hr
  obtain ⟨l, hl, hrl⟩ := hr
  obtain ⟨n, hn, rfl⟩ := List.mem_map.mp hl
  obtain ⟨q, hq, rfl⟩ := List.mem_map.mp hrl
  rfl

theorem edgeRecs_scope (edef : List (String × GAtom)) (edges : List PyEdge) :
    ∀ r ∈ (edges.map (edgeRecs edef)).flatten, r.scope = "edge" := by
  intro r hr
  rw [List.mem_flatten] at hr
  obtain ⟨l, hl, hrl⟩ := hr
  obtain ⟨e, he, rfl⟩ := List.mem_map.mp hl
  obtain ⟨q, hq, rfl⟩ := List.mem_map.mp hrl
  rfl

theorem nodeRec_mem (ndef : List (String × GAtom))
    (nodes : List (String × List (String × GVal)))
    (n : String × List (String × GVal)) (q : String × GVal)
    (hn : n ∈ nodes) (hq : q ∈ n.2) :
    (⟨q.1, q.2, "node", alookup ndef q.1⟩ : ARec)
      ∈ (nodes.map (nodeRecs ndef)).flatten := by
  rw [List.mem_flatten]
  exact ⟨nodeRecs ndef n, List.mem_map.mpr ⟨n, hn, rfl⟩,
    List.mem_map.mpr ⟨q, hq, rfl⟩⟩

theorem edgeRec_mem (edef : List (String × GAtom)) (edges : List PyEdge)
    (e : PyEdge) (q : String × GVal) (he : e ∈ edges) (hq : q ∈ e.data) :
    (⟨q.1, q.2, "edge", alookup edef q.1⟩ : ARec)
      ∈ (edges.map (edgeRecs edef)).flatten := by
  rw [List.mem_flatten]
  exact ⟨edgeRecs edef e, List.mem_map.mpr ⟨e, he, rfl⟩,
    List.mem_map.mpr ⟨q, hq, rfl⟩⟩

theorem graphRec_mem (plain : List (String × GVal)) (q : String × GVal)
    (hq : q ∈ plain) :
    (⟨q.1, q.2, "graph", none⟩ : ARec) ∈ graphRecs plain :=
  List.mem_map.mpr ⟨q, hq, rfl⟩
theorem encodeBuffered_inv (infer : Bool) (G : PyGraph)
    (rb : XmlElem × WriterState × List (String × GVal))
    (hb : encodeBuffered infer G = Except.ok rb) :
    ∃ pg pn pe,
      emitDatas infer ((graphRecs ((aerase G.graphAttrs "id").filter
        (fun p => !(p.1 == "node_default") && !(p.1 == "edge_default"))))
      ++ ((G.nodes.map (nodeRecs (asBag (alookup (aerase G.graphAttrs "id") "node_default")))).flatten)
      ++ ((G.edges.map (edgeRecs (asBag (alookup (aerase G.graphAttrs "id") "edge_default")))).flatten))
        (graphRecs ((aerase G.graphAttrs "id").filter
        (fun p => !(p.1 == "node_default") && !(p.1 == "edge_default")))) ⟨[], []⟩ = Except.ok pg
      ∧ emitNodes infer ((graphRecs ((aerase G.graphAttrs "id").filter
        (fun p => !(p.1 == "node_default") && !(p.1 == "edge_default"))))
      ++ ((G.nodes.map (nodeRecs (asBag (alookup (aerase G.graphAttrs "id") "node_default")))).flatten)
      ++ ((G.edges.map (edgeRecs (asBag (alookup (aerase G.graphAttrs "id") "edge_default")))).flatten))
          (asBag (alookup (aerase G.graphAttrs "id") "node_default")) G.nodes pg.2 = Except.ok pn
      ∧ emitEdges infer ((graphRecs ((aerase G.graphAttrs "id").filter
        (fun p => !(p.1 == "node_default") && !(p.1 == "edge_default"))))
      ++ ((G.nodes.map (nodeRecs (asBag (alookup (aerase G.graphAttrs "id") "node_default")))).flatten)
      ++ ((G.edges.map (edgeRecs (asBag (alookup (aerase G.graphAttrs "id") "edge_default")))).flatten))
          (asBag (alookup (aerase G.graphAttrs "id") "edge_default")) G.multi G.edges pn.2 = Except.ok pe
      ∧ rb.2.1 = pe.2
      ∧ rb.1 = XmlElem.mk "graphml" rootAttrs none (pe.2.keyElems.reverse
          ++ [XmlElem.mk "graph"
              (("edgedefault", if G.directed then "directed" else "undirected")
                :: (match alookup G.graphAttrs "id" with
                    | some v => [("id", pyStr v)]
                    | none => []))
              none (pn.1 ++ pe.1 ++ pg.1)]) := by
  rw [encodeBuffered_eq] at hb
  cases hg : emitDatas infer ((graphRecs ((aerase G.graphAttrs "id").filter
        (fun p => !(p.1 == "node_default") && !(p.1 == "edge_default"))))
      ++ ((G.nodes.map (nodeRecs (asBag (alookup (aerase G.graphAttrs "id") "node_default")))).flatten)
      ++ ((G.edges.map (edgeRecs (asBag (alookup (aerase G.graphAttrs "id") "edge_default")))).flatten))
      (graphRecs ((aerase G.graphAttrs "id").filter
        (fun p => !(p.1 == "node_default") && !(p.1 == "edge_default")))) ⟨[], []⟩ with
  | error err =>
    rw [hg] at hb
    simp only [Except.bind] at hb
    cases hb
  | ok pg =>
    rw [hg] at hb
    simp only [Except.bind] at hb
    cases hn : emitNodes infer ((graphRecs ((aerase G.graphAttrs "id").filter
        (fun p => !(p.1 == "node_default") && !(p.1 == "edge_default"))))
      ++ ((G.nodes.map (nodeRecs (asBag (alookup (aerase G.graphAttrs "id") "node_default")))).flatten)
      ++ ((G.edges.map (edgeRecs (asBag (alookup (aerase G.graphAttrs "id") "edge_default")))).flatten))
        (asBag (alookup (aerase G.graphAttrs "id") "node_default")) G.nodes pg.2 with
    | error err =>
      rw [hn] at hb
      simp only [Except.bind] at hb
      cases hb
    | ok pn =>
      rw [hn] at hb
      simp only [Except.bind] at hb
      cases he : emitEdges infer ((graphRecs ((aerase G.graphAttrs "id").filter
        (fun p => !(p.1 == "node_default") && !(p.1 == "edge_default"))))
      ++ ((G.nodes.map (nodeRecs (asBag (alookup (aerase G.graphAttrs "id") "node_default")))).flatten)
      ++ ((G.edges.map (edgeRecs (asBag (alookup (aerase G.graphAttrs "id") "edge_default")))).flatten))
          (asBag (alookup (aerase G.graphAttrs "id") "edge_default")) G.multi G.edges pn.2 with
      | error err =>
        rw [he] at hb
        simp only [Except.bind] at hb
        cases hb
      | ok pe =>
        rw [he] at hb
        simp only [Except.bind] at hb
        rw [Except.ok.injEq] at hb
        exact ⟨pg, pn, pe, rfl, hn, he, congrArg (fun r => r.2.1) hb.symm,
          congrArg (fun r => r.1) hb.symm⟩

theorem encodeLxmlKeys_inv (infer : Bool) (G : PyGraph)
    (rl : WriterState × List (String × String) × List (String × GVal))
    (hl : encodeLxmlKeys infer G = Except.ok rl) :
    ∃ st1 st2 st3,
      lxmlKeysPass infer (graphRecs ((aerase G.graphAttrs "id").filter
        (fun p => !(p.1 == "node_default") && !(p.1 == "edge_default")))) "graph" (fun _ => none)
        ((aerase G.graphAttrs "id").filter
        (fun p => !(p.1 == "node_default") && !(p.1 == "edge_default"))) ⟨[], []⟩ = Except.ok st1
      ∧ lxmlKeysPass infer ((graphRecs ((aerase G.graphAttrs "id").filter
        (fun p => !(p.1 == "node_default") && !(p.1 == "edge_default"))))
            ++ ((G.nodes.map (nodeRecs (asBag (alookup (aerase G.graphAttrs "id") "node_default")))).flatten)) "node"
          (alookup (asBag (alookup (aerase G.graphAttrs "id") "node_default"))) (lxmlNodeAttrs G.nodes) st1 = Except.ok st2
      ∧ lxmlKeysPass infer ((graphRecs ((aerase G.graphAttrs "id").filter
        (fun p => !(p.1 == "node_default") && !(p.1 == "edge_default"))))
            ++ ((G.nodes.map (nodeRecs (asBag (alookup (aerase G.graphAttrs "id") "node_default")))).flatten)
            ++ lxmlEdgeScanRecs G.multi (asBag (alookup (aerase G.graphAttrs "id") "edge_default")) G.edges) "edge"
          (alookup (asBag (alookup (aerase G.graphAttrs "id") "edge_default"))) (lxmlEdgeAttrs G.multi G.edges) st2 = Except.ok st3
      ∧ rl.1 = st3 := by
  rw [encodeLxmlKeys_eq] at hl
  cases h1 : lxmlKeysPass infer (graphRecs ((aerase G.graphAttrs "id").filter
        (fun p => !(p.1 == "node_default") && !(p.1 == "edge_default")))) "graph" (fun _ => none)
      ((aerase G.graphAttrs "id").filter
        (fun p => !(p.1 == "node_default") && !(p.1 == "edge_default"))) ⟨[], []⟩ with
  | error err =>
    rw [h1] at hl
    simp only [Except.bind] at hl
    cases hl
  | ok st1 =>
    rw [h1] at hl
    simp only [Except.bind] at hl
    cases h2 : lxmlKeysPass infer ((graphRecs ((aerase G.graphAttrs "id").filter
        (fun p => !(p.1 == "node_default") && !(p.1 == "edge_default"))))
          ++ ((G.nodes.map (nodeRecs (asBag (alookup (aerase G.graphAttrs "id") "node_default")))).flatten)) "node"
        (alookup (asBag (alookup (aerase G.graphAttrs "id") "node_default"))) (lxmlNodeAttrs G.nodes) st1 with
    | error err =>
      rw [h2] at hl
      simp only [Except.bind] at hl
      cases hl
    | ok st2 =>
      rw [h2] at hl
      simp only [Except.bind] at hl
      cases h3 : lxmlKeysPass infer ((graphRecs ((aerase G.graphAttrs "id").filter
        (fun p => !(p.1 == "node_default") && !(p.1 == "edge_default"))))
            ++ ((G.nodes.map (nodeRecs (asBag (alookup (aerase G.graphAttrs "id") "node_default")))).flatten)
            ++ lxmlEdgeScanRecs G.multi (asBag (alookup (aerase G.graphAttrs "id") "edge_default")) G.edges) "edge"
          (alookup (asBag (alookup (aerase G.graphAttrs "id") "edge_default"))) (lxmlEdgeAttrs G.multi G.edges) st2 with
      | error err =>
        rw [h3] at hl
        simp only [Except.bind] at hl
        cases hl
      | ok st3 =>
        rw [h3] at hl
        simp only [Except.bind] at hl
        rw [Except.ok.injEq] at hl
        exact ⟨st1, st2, st3, rfl, h2, h3, congrArg (fun r => r.1) hl.symm⟩
/-- C5 (amended core): for a non-multigraph input with type inference
enabled, the buffered writer and the lxml streaming writer finish their
key passes in identical registry states: the same `(name, type, scope) →
id` table and the same `<key>` elements. -/
theorem C5_key_table_refinement (G : PyGraph) (hmulti : G.multi = false)
    (rb : XmlElem × WriterState × List (String × GVal))
    (rl : WriterState × List (String × String) × List (String × GVal))
    (hb : encodeBuffered true G = Except.ok rb)
    (hl : encodeLxmlKeys true G = Except.ok rl) :
    rb.2.1 = rl.1 := by
  obtain ⟨pg, pn, pe, hg, hn, he, hrb, _⟩ := encodeBuffered_inv true G rb hb
  obtain ⟨st1, st2, st3, h1, h2, h3, hrl⟩ := encodeLxmlKeys_inv true G rl hl
  rw [hmulti] at he h3
  rw [show lxmlEdgeScanRecs false (asBag (alookup (aerase G.graphAttrs "id") "edge_default")) G.edges
      = ((G.edges.map (edgeRecs (asBag (alookup (aerase G.graphAttrs "id") "edge_default")))).flatten) from rfl] at h3
  have hOg : ∀ k, observedTypes ((graphRecs ((aerase G.graphAttrs "id").filter
        (fun p => !(p.1 == "node_default") && !(p.1 == "edge_default"))))
      ++ ((G.nodes.map (nodeRecs (asBag (alookup (aerase G.graphAttrs "id") "node_default")))).flatten)
      ++ ((G.edges.map (edgeRecs (asBag (alookup (aerase G.graphAttrs "id") "edge_default")))).flatten)) k "graph"
      = observedTypes (graphRecs ((aerase G.graphAttrs "id").filter
        (fun p => !(p.1 == "node_default") && !(p.1 == "edge_default")))) k "graph" := by
    intro k
    rw [observedTypes_append _ _ k "graph" (by
      intro r hr
      rw [edgeRecs_scope _ _ r hr]
      decide)]
    refine observedTypes_append _ _ k "graph" ?_
    intro r hr
    rw [nodeRecs_scope _ _ r hr]
    decide
  have hOn : ∀ k, observedTypes ((graphRecs ((aerase G.graphAttrs "id").filter
        (fun p => !(p.1 == "node_default") && !(p.1 == "edge_default"))))
      ++ ((G.nodes.map (nodeRecs (asBag (alookup (aerase G.graphAttrs "id") "node_default")))).flatten)
      ++ ((G.edges.map (edgeRecs (asBag (alookup (aerase G.graphAttrs "id") "edge_default")))).flatten)) k "node"
      = observedTypes ((graphRecs ((aerase G.graphAttrs "id").filter
        (fun p => !(p.1 == "node_default") && !(p.1 == "edge_default")))) ++ ((G.nodes.map (nodeRecs (asBag (alookup (aerase G.graphAttrs "id") "node_default")))).flatten)) k "node" := by
    intro k
    refine observedTypes_append _ _ k "node" ?_
    intro r hr
    rw [edgeRecs_scope _ _ r hr]
    decide
  have hgstate : pg.2 = pairFold (fun k => xmlTypeOf (attrType true (observedTypes ((graphRecs ((aerase G.graphAttrs "id").filter
        (fun p => !(p.1 == "node_default") && !(p.1 == "edge_default"))))
      ++ ((G.nodes.map (nodeRecs (asBag (alookup (aerase G.graphAttrs "id") "node_default")))).flatten)
      ++ ((G.edges.map (edgeRecs (asBag (alookup (aerase G.graphAttrs "id") "edge_default")))).flatten)) k "graph") GVal.PNone)) (fun _ => none) "graph"
      ((aerase G.graphAttrs "id").filter
        (fun p => !(p.1 == "node_default") && !(p.1 == "edge_default"))) ⟨[], []⟩ :=
    emitDatas_state_graph true ((graphRecs ((aerase G.graphAttrs "id").filter
        (fun p => !(p.1 == "node_default") && !(p.1 == "edge_default"))))
      ++ ((G.nodes.map (nodeRecs (asBag (alookup (aerase G.graphAttrs "id") "node_default")))).flatten)
      ++ ((G.edges.map (edgeRecs (asBag (alookup (aerase G.graphAttrs "id") "edge_default")))).flatten)) (fun k => xmlTypeOf (attrType true (observedTypes ((graphRecs ((aerase G.graphAttrs "id").filter
        (fun p => !(p.1 == "node_default") && !(p.1 == "edge_default"))))
      ++ ((G.nodes.map (nodeRecs (asBag (alookup (aerase G.graphAttrs "id") "node_default")))).flatten)
      ++ ((G.edges.map (edgeRecs (asBag (alookup (aerase G.graphAttrs "id") "edge_default")))).flatten)) k "graph") GVal.PNone))
      ((aerase G.graphAttrs "id").filter
        (fun p => !(p.1 == "node_default") && !(p.1 == "edge_default"))) ⟨[], []⟩ pg hg (by
        intro q hq
        exact congrArg xmlTypeOf (attrType_infer_indep _ q.2 GVal.PNone
          (observedTypes_mem_ne_nil ((graphRecs ((aerase G.graphAttrs "id").filter
        (fun p => !(p.1 == "node_default") && !(p.1 == "edge_default"))))
      ++ ((G.nodes.map (nodeRecs (asBag (alookup (aerase G.graphAttrs "id") "node_default")))).flatten)
      ++ ((G.edges.map (edgeRecs (asBag (alookup (aerase G.graphAttrs "id") "edge_default")))).flatten)) ⟨q.1, q.2, "graph", none⟩
            (List.mem_append_left _ (List.mem_append_left _ (graphRec_mem ((aerase G.graphAttrs "id").filter
        (fun p => !(p.1 == "node_default") && !(p.1 == "edge_default"))) q hq))))))
  have hnstate : pn.2 = G.nodes.foldl (fun s n =>
      pairFold (fun k => xmlTypeOf (attrType true (observedTypes ((graphRecs ((aerase G.graphAttrs "id").filter
        (fun p => !(p.1 == "node_default") && !(p.1 == "edge_default"))))
      ++ ((G.nodes.map (nodeRecs (asBag (alookup (aerase G.graphAttrs "id") "node_default")))).flatten)
      ++ ((G.edges.map (edgeRecs (asBag (alookup (aerase G.graphAttrs "id") "edge_default")))).flatten)) k "node") GVal.PNone)) (alookup (asBag (alookup (aerase G.graphAttrs "id") "node_default"))) "node" n.2 s) pg.2 :=
    emitNodes_state true ((graphRecs ((aerase G.graphAttrs "id").filter
        (fun p => !(p.1 == "node_default") && !(p.1 == "edge_default"))))
      ++ ((G.nodes.map (nodeRecs (asBag (alookup (aerase G.graphAttrs "id") "node_default")))).flatten)
      ++ ((G.edges.map (edgeRecs (asBag (alookup (aerase G.graphAttrs "id") "edge_default")))).flatten)) (asBag (alookup (aerase G.graphAttrs "id") "node_default")) (fun k => xmlTypeOf (attrType true (observedTypes ((graphRecs ((aerase G.graphAttrs "id").filter
        (fun p => !(p.1 == "node_default") && !(p.1 == "edge_default"))))
      ++ ((G.nodes.map (nodeRecs (asBag (alookup (aerase G.graphAttrs "id") "node_default")))).flatten)
      ++ ((G.edges.map (edgeRecs (asBag (alookup (aerase G.graphAttrs "id") "edge_default")))).flatten)) k "node") GVal.PNone)) G.nodes pg.2 pn hn (by
      intro n hn2 q hq
      exact congrArg xmlTypeOf (attrType_infer_indep _ q.2 GVal.PNone
        (observedTypes_mem_ne_nil ((graphRecs ((aerase G.graphAttrs "id").filter
        (fun p => !(p.1 == "node_default") && !(p.1 == "edge_default"))))
      ++ ((G.nodes.map (nodeRecs (asBag (alookup (aerase G.graphAttrs "id") "node_default")))).flatten)
      ++ ((G.edges.map (edgeRecs (asBag (alookup (aerase G.graphAttrs "id") "edge_default")))).flatten))
          ⟨q.1, q.2, "node", alookup (asBag (alookup (aerase G.graphAttrs "id") "node_default")) q.1⟩
          (List.mem_append_left _ (List.mem_append_right _
            (nodeRec_mem (asBag (alookup (aerase G.graphAttrs "id") "node_default")) G.nodes n q hn2 hq))))))
  have hestate : pe.2 = G.edges.foldl (fun s e =>
      pairFold (fun k => xmlTypeOf (attrType true (observedTypes ((graphRecs ((aerase G.graphAttrs "id").filter
        (fun p => !(p.1 == "node_default") && !(p.1 == "edge_default"))))
      ++ ((G.nodes.map (nodeRecs (asBag (alookup (aerase G.graphAttrs "id") "node_default")))).flatten)
      ++ ((G.edges.map (edgeRecs (asBag (alookup (aerase G.graphAttrs "id") "edge_default")))).flatten)) k "edge") GVal.PNone)) (alookup (asBag (alookup (aerase G.graphAttrs "id") "edge_default"))) "edge" e.data s) pn.2 :=
    emitEdges_state true ((graphRecs ((aerase G.graphAttrs "id").filter
        (fun p => !(p.1 == "node_default") && !(p.1 == "edge_default"))))
      ++ ((G.nodes.map (nodeRecs (asBag (alookup (aerase G.graphAttrs "id") "node_default")))).flatten)
      ++ ((G.edges.map (edgeRecs (asBag (alookup (aerase G.graphAttrs "id") "edge_default")))).flatten)) (asBag (alookup (aerase G.graphAttrs "id") "edge_default")) false (fun k => xmlTypeOf (attrType true (observedTypes ((graphRecs ((aerase G.graphAttrs "id").filter
        (fun p => !(p.1 == "node_default") && !(p.1 == "edge_default"))))
      ++ ((G.nodes.map (nodeRecs (asBag (alookup (aerase G.graphAttrs "id") "node_default")))).flatten)
      ++ ((G.edges.map (edgeRecs (asBag (alookup (aerase G.graphAttrs "id") "edge_default")))).flatten)) k "edge") GVal.PNone)) G.edges pn.2 pe he (by
      intro e he2 q hq
      exact congrArg xmlTypeOf (attrType_infer_indep _ q.2 GVal.PNone
        (observedTypes_mem_ne_nil ((graphRecs ((aerase G.graphAttrs "id").filter
        (fun p => !(p.1 == "node_default") && !(p.1 == "edge_default"))))
      ++ ((G.nodes.map (nodeRecs (asBag (alookup (aerase G.graphAttrs "id") "node_default")))).flatten)
      ++ ((G.edges.map (edgeRecs (asBag (alookup (aerase G.graphAttrs "id") "edge_default")))).flatten))
          ⟨q.1, q.2, "edge", alookup (asBag (alookup (aerase G.graphAttrs "id") "edge_default")) q.1⟩
          (List.mem_append_right _ ((
            edgeRec_mem (asBag (alookup (aerase G.graphAttrs "id") "edge_default")) G.edges e q he2 hq))))))
  have h1state : st1 = pairFold (fun k => xmlTypeOf (attrType true (observedTypes ((graphRecs ((aerase G.graphAttrs "id").filter
        (fun p => !(p.1 == "node_default") && !(p.1 == "edge_default"))))
      ++ ((G.nodes.map (nodeRecs (asBag (alookup (aerase G.graphAttrs "id") "node_default")))).flatten)
      ++ ((G.edges.map (edgeRecs (asBag (alookup (aerase G.graphAttrs "id") "edge_default")))).flatten)) k "graph") GVal.PNone)) (fun _ => none) "graph"
      ((aerase G.graphAttrs "id").filter
        (fun p => !(p.1 == "node_default") && !(p.1 == "edge_default"))) ⟨[], []⟩ :=
    lxmlKeysPass_state true (graphRecs ((aerase G.graphAttrs "id").filter
        (fun p => !(p.1 == "node_default") && !(p.1 == "edge_default")))) "graph" (fun _ => none) (fun k => xmlTypeOf (attrType true (observedTypes ((graphRecs ((aerase G.graphAttrs "id").filter
        (fun p => !(p.1 == "node_default") && !(p.1 == "edge_default"))))
      ++ ((G.nodes.map (nodeRecs (asBag (alookup (aerase G.graphAttrs "id") "node_default")))).flatten)
      ++ ((G.edges.map (edgeRecs (asBag (alookup (aerase G.graphAttrs "id") "edge_default")))).flatten)) k "graph") GVal.PNone))
      ((aerase G.graphAttrs "id").filter
        (fun p => !(p.1 == "node_default") && !(p.1 == "edge_default"))) ⟨[], []⟩ st1 h1 (by
        intro q hq
        have hne : observedTypes (graphRecs ((aerase G.graphAttrs "id").filter
        (fun p => !(p.1 == "node_default") && !(p.1 == "edge_default")))) q.1 "graph" ≠ [] :=
          observedTypes_mem_ne_nil (graphRecs ((aerase G.graphAttrs "id").filter
        (fun p => !(p.1 == "node_default") && !(p.1 == "edge_default")))) ⟨q.1, q.2, "graph", none⟩
            (graphRec_mem ((aerase G.graphAttrs "id").filter
        (fun p => !(p.1 == "node_default") && !(p.1 == "edge_default"))) q hq)
        show xmlTypeOf (attrType true
            (observedTypes (graphRecs ((aerase G.graphAttrs "id").filter
        (fun p => !(p.1 == "node_default") && !(p.1 == "edge_default")))) q.1 "graph") q.2)
          = xmlTypeOf (attrType true (observedTypes ((graphRecs ((aerase G.graphAttrs "id").filter
        (fun p => !(p.1 == "node_default") && !(p.1 == "edge_default"))))
      ++ ((G.nodes.map (nodeRecs (asBag (alookup (aerase G.graphAttrs "id") "node_default")))).flatten)
      ++ ((G.edges.map (edgeRecs (asBag (alookup (aerase G.graphAttrs "id") "edge_default")))).flatten)) q.1 "graph")
              GVal.PNone)
        rw [hOg q.1]
        exact congrArg xmlTypeOf (attrType_infer_indep _ q.2 GVal.PNone hne))
  have h2state : st2 = pairFold (fun k => xmlTypeOf (attrType true (observedTypes ((graphRecs ((aerase G.graphAttrs "id").filter
        (fun p => !(p.1 == "node_default") && !(p.1 == "edge_default"))))
      ++ ((G.nodes.map (nodeRecs (asBag (alookup (aerase G.graphAttrs "id") "node_default")))).flatten)
      ++ ((G.edges.map (edgeRecs (asBag (alookup (aerase G.graphAttrs "id") "edge_default")))).flatten)) k "node") GVal.PNone)) (alookup (asBag (alookup (aerase G.graphAttrs "id") "node_default"))) "node"
      (lxmlNodeAttrs G.nodes) st1 :=
    lxmlKeysPass_state true ((graphRecs ((aerase G.graphAttrs "id").filter
        (fun p => !(p.1 == "node_default") && !(p.1 == "edge_default")))) ++ ((G.nodes.map (nodeRecs (asBag (alookup (aerase G.graphAttrs "id") "node_default")))).flatten)) "node"
      (alookup (asBag (alookup (aerase G.graphAttrs "id") "node_default"))) (fun k => xmlTypeOf (attrType true (observedTypes ((graphRecs ((aerase G.graphAttrs "id").filter
        (fun p => !(p.1 == "node_default") && !(p.1 == "edge_default"))))
      ++ ((G.nodes.map (nodeRecs (asBag (alookup (aerase G.graphAttrs "id") "node_default")))).flatten)
      ++ ((G.edges.map (edgeRecs (asBag (alookup (aerase G.graphAttrs "id") "edge_default")))).flatten)) k "node") GVal.PNone)) (lxmlNodeAttrs G.nodes) st1 st2 h2 (by
        intro q hq
        obtain ⟨n, hnm, hqn⟩ := lxmlNodeAttrs_mem G.nodes q hq
        have hne : observedTypes ((graphRecs ((aerase G.graphAttrs "id").filter
        (fun p => !(p.1 == "node_default") && !(p.1 == "edge_default")))) ++ ((G.nodes.map (nodeRecs (asBag (alookup (aerase G.graphAttrs "id") "node_default")))).flatten)) q.1 "node" ≠ [] :=
          observedTypes_mem_ne_nil _ ⟨q.1, q.2, "node", alookup (asBag (alookup (aerase G.graphAttrs "id") "node_default")) q.1⟩
            (List.mem_append_right _ (nodeRec_mem (asBag (alookup (aerase G.graphAttrs "id") "node_default")) G.nodes n q hnm hqn))
        show xmlTypeOf (attrType true
            (observedTypes ((graphRecs ((aerase G.graphAttrs "id").filter
        (fun p => !(p.1 == "node_default") && !(p.1 == "edge_default")))) ++ ((G.nodes.map (nodeRecs (asBag (alookup (aerase G.graphAttrs "id") "node_default")))).flatten)) q.1 "node") q.2)
          = xmlTypeOf (attrType true (observedTypes ((graphRecs ((aerase G.graphAttrs "id").filter
        (fun p => !(p.1 == "node_default") && !(p.1 == "edge_default"))))
      ++ ((G.nodes.map (nodeRecs (asBag (alookup (aerase G.graphAttrs "id") "node_default")))).flatten)
      ++ ((G.edges.map (edgeRecs (asBag (alookup (aerase G.graphAttrs "id") "edge_default")))).flatten)) q.1 "node")
              GVal.PNone)
        rw [hOn q.1]
        exact congrArg xmlTypeOf (attrType_infer_indep _ q.2 GVal.PNone hne))
  have h3state : st3 = pairFold (fun k => xmlTypeOf (attrType true (observedTypes ((graphRecs ((aerase G.graphAttrs "id").filter
        (fun p => !(p.1 == "node_default") && !(p.1 == "edge_default"))))
      ++ ((G.nodes.map (nodeRecs (asBag (alookup (aerase G.graphAttrs "id") "node_default")))).flatten)
      ++ ((G.edges.map (edgeRecs (asBag (alookup (aerase G.graphAttrs "id") "edge_default")))).flatten)) k "edge") GVal.PNone)) (alookup (asBag (alookup (aerase G.graphAttrs "id") "edge_default"))) "edge"
      (lxmlEdgeAttrs false G.edges) st2 :=
    lxmlKeysPass_state true ((graphRecs ((aerase G.graphAttrs "id").filter
        (fun p => !(p.1 == "node_default") && !(p.1 == "edge_default")))) ++ ((G.nodes.map (nodeRecs (asBag (alookup (aerase G.graphAttrs "id") "node_default")))).flatten) ++ ((G.edges.map (edgeRecs (asBag (alookup (aerase G.graphAttrs "id") "edge_default")))).flatten)) "edge"
      (alookup (asBag (alookup (aerase G.graphAttrs "id") "edge_default"))) (fun k => xmlTypeOf (attrType true (observedTypes ((graphRecs ((aerase G.graphAttrs "id").filter
        (fun p => !(p.1 == "node_default") && !(p.1 == "edge_default"))))
      ++ ((G.nodes.map (nodeRecs (asBag (alookup (aerase G.graphAttrs "id") "node_default")))).flatten)
      ++ ((G.edges.map (edgeRecs (asBag (alookup (aerase G.graphAttrs "id") "edge_default")))).flatten)) k "edge") GVal.PNone)) (lxmlEdgeAttrs false G.edges) st2 st3 h3 (by
        intro q hq
        obtain ⟨e, hem, hqe⟩ := lxmlEdgeAttrs_mem G.edges q hq
        exact congrArg xmlTypeOf (attrType_infer_indep _ q.2 GVal.PNone
          (observedTypes_mem_ne_nil ((graphRecs ((aerase G.graphAttrs "id").filter
        (fun p => !(p.1 == "node_default") && !(p.1 == "edge_default"))))
      ++ ((G.nodes.map (nodeRecs (asBag (alookup (aerase G.graphAttrs "id") "node_default")))).flatten)
      ++ ((G.edges.map (edgeRecs (asBag (alookup (aerase G.graphAttrs "id") "edge_default")))).flatten))
            ⟨q.1, q.2, "edge", alookup (asBag (alookup (aerase G.graphAttrs "id") "edge_default")) q.1⟩
            (List.mem_append_right _ ((
              edgeRec_mem (asBag (alookup (aerase G.graphAttrs "id") "edge_default")) G.edges e q hem hqe))))))
  have hdictN : pairFold (fun k => xmlTypeOf (attrType true (observedTypes ((graphRecs ((aerase G.graphAttrs "id").filter
        (fun p => !(p.1 == "node_default") && !(p.1 == "edge_default"))))
      ++ ((G.nodes.map (nodeRecs (asBag (alookup (aerase G.graphAttrs "id") "node_default")))).flatten)
      ++ ((G.edges.map (edgeRecs (asBag (alookup (aerase G.graphAttrs "id") "edge_default")))).flatten)) k "node") GVal.PNone)) (alookup (asBag (alookup (aerase G.graphAttrs "id") "node_default"))) "node"
      (lxmlNodeAttrs G.nodes) st1
      = G.nodes.foldl (fun s n =>
          pairFold (fun k => xmlTypeOf (attrType true (observedTypes ((graphRecs ((aerase G.graphAttrs "id").filter
        (fun p => !(p.1 == "node_default") && !(p.1 == "edge_default"))))
      ++ ((G.nodes.map (nodeRecs (asBag (alookup (aerase G.graphAttrs "id") "node_default")))).flatten)
      ++ ((G.edges.map (edgeRecs (asBag (alookup (aerase G.graphAttrs "id") "edge_default")))).flatten)) k "node") GVal.PNone)) (alookup (asBag (alookup (aerase G.graphAttrs "id") "node_default"))) "node" n.2 s) st1 := by
    rw [show lxmlNodeAttrs G.nodes
        = (G.nodes.map (fun n => n.2)).foldl (fun m2 b =>
            b.foldl (fun m3 p => addFirst m3 p.1 p.2) m2) []
      from (List.foldl_map _ _ _ _).symm]
    rw [pairFold_dict_bags]
    rw [List.foldl_map]
    rfl
  have hdictE : pairFold (fun k => xmlTypeOf (attrType true (observedTypes ((graphRecs ((aerase G.graphAttrs "id").filter
        (fun p => !(p.1 == "node_default") && !(p.1 == "edge_default"))))
      ++ ((G.nodes.map (nodeRecs (asBag (alookup (aerase G.graphAttrs "id") "node_default")))).flatten)
      ++ ((G.edges.map (edgeRecs (asBag (alookup (aerase G.graphAttrs "id") "edge_default")))).flatten)) k "edge") GVal.PNone)) (alookup (asBag (alookup (aerase G.graphAttrs "id") "edge_default"))) "edge"
      (lxmlEdgeAttrs false G.edges) st2
      = G.edges.foldl (fun s e =>
          pairFold (fun k => xmlTypeOf (attrType true (observedTypes ((graphRecs ((aerase G.graphAttrs "id").filter
        (fun p => !(p.1 == "node_default") && !(p.1 == "edge_default"))))
      ++ ((G.nodes.map (nodeRecs (asBag (alookup (aerase G.graphAttrs "id") "node_default")))).flatten)
      ++ ((G.edges.map (edgeRecs (asBag (alookup (aerase G.graphAttrs "id") "edge_default")))).flatten)) k "edge") GVal.PNone)) (alookup (asBag (alookup (aerase G.graphAttrs "id") "edge_default"))) "edge" e.data s) st2 := by
    rw [show lxmlEdgeAttrs false G.edges
        = (G.edges.map (fun e => e.data)).foldl (fun m2 b =>
            b.foldl (fun m3 p => addFirst m3 p.1 p.2) m2) []
      from (List.foldl_map _ _ _ _).symm]
    rw [pairFold_dict_bags]
    rw [List.foldl_map]
    rfl
  rw [hrb, hrl, hestate, hnstate, hgstate, h3state, hdictE, h2state, hdictN,
    h1state]

/-- C5 counterexample: on a multigraph the two writer strategies do not
produce the same key table.  The streaming (lxml) writer records each
edge's multiplicity key under the attribute name "key" and declares a
`("key", "long", "edge")` key, while the buffered writer stores the edge
key in the `id` XML attribute and declares no key at all. -/
theorem C5_counterexample :
    (∃ rb, encodeBuffered true singleEdgeMulti = Except.ok rb
      ∧ rb.2.1.keys = [])
    ∧ (∃ rl, encodeLxmlKeys true singleEdgeMulti = Except.ok rl
      ∧ rl.1.keys = [(("key", "long", "edge"), "d0")]) :=
  ⟨⟨_, rfl, rfl⟩, ⟨_, rfl, rfl⟩⟩

/-- Witness for the amended C5 theorem at a concrete simple graph with
graph, node and edge attributes. -/
theorem C5_witness :
    ∃ rb rl, encodeBuffered true c5WitG = Except.ok rb
      ∧ encodeLxmlKeys true c5WitG = Except.ok rl ∧ rb.2.1 = rl.1 := by
  obtain ⟨rb, hb⟩ : ∃ rb, encodeBuffered true c5WitG = Except.ok rb := ⟨_, rfl⟩
  obtain ⟨rl, hl⟩ : ∃ rl, encodeLxmlKeys true c5WitG = Except.ok rl := ⟨_, rfl⟩
  exact ⟨rb, rl, hb, hl, C5_key_table_refinement c5WitG rfl rb rl hb hl⟩

theorem pythonTypeOf_xmlTypeOf (t : TagTy) (xt : String)
    (h : xmlTypeOf t = some xt) : pythonTypeOf xt = some t := by
  cases t with
  | tBool =>
    simp only [xmlTypeOf] at h
    cases h
    rfl
  | tInt =>
    simp only [xmlTypeOf] at h
    cases h
    rfl
  | tFloat =>
    simp only [xmlTypeOf] at h
    cases h
    rfl
  | tStr =>
    simp only [xmlTypeOf] at h
    cases h
    rfl
  | tNone => cases h
  | tDict => cases h

theorem attrType_false (types : List TagTy) (v : GVal) :
    attrType false types v = tagOf v := rfl

theorem getKey_lookup_self (n x s : String) (d : Option GAtom) (st : WriterState) :
    alookup ((getKey n x s d st).2).keys (n, x, s)
      = some (getKey n x s d st).1 := by
  unfold getKey
  cases hl : alookup st.keys (n, x, s) with
  | some i0 => exact hl
  | none =>
    show alookup (st.keys ++ [((n, x, s), dId st.keys.length)]) (n, x, s)
      = some (dId st.keys.length)
    rw [alookup_append_none _ _ _ hl]
    simp only [alookup]
    simp

theorem emitDatas_keys_persist (infer : Bool) (R : List ARec) :
    ∀ (recs : List ARec) (st : WriterState) (p : List XmlElem × WriterState),
      emitDatas infer R recs st = Except.ok p →
      ∀ t i, alookup st.keys t = some i → alookup p.2.keys t = some i := by
  intro recs
  induction recs with
  | nil =>
    intro st p h t i hi
    cases h
    exact hi
  | cons r rest ih =>
    intro st p h t i hi
    rw [emitDatas_cons] at h
    cases ha : addData r.name (attrType infer (observedTypes R r.name r.scope)
        r.value) (pyStr r.value) r.scope r.dflt st with
    | error err =>
      rw [ha] at h
      simp only [Except.bind] at h
      cases h
    | ok pr =>
      rw [ha] at h
      simp only [Except.bind] at h
      cases he : emitDatas infer R rest pr.2 with
      | error err =>
        rw [he] at h
        simp only [Except.bind] at h
        cases h
      | ok q =>
        rw [he] at h
        simp only [Except.bind] at h
        cases h
        obtain ⟨xt, hx, hpr⟩ := addData_inv _ _ _ _ _ _ _ ha
        show alookup q.2.keys t = some i
        refine ih pr.2 q he t i ?_
        rw [hpr]
        exact getKey_keys_persist _ _ _ _ _ _ _ hi

theorem emitNodes_keys_persist (infer : Bool) (R : List ARec)
    (ndef : List (String × GAtom)) :
    ∀ (nodes : List (String × List (String × GVal))) (st : WriterState)
      (p : List XmlElem × WriterState),
      emitNodes infer R ndef nodes st = Except.ok p →
      ∀ t i, alookup st.keys t = some i → alookup p.2.keys t = some i := by
  intro nodes
  induction nodes with
  | nil =>
    intro st p h t i hi
    cases h
    exact hi
  | cons n rest ih =>
    intro st p h t i hi
    rw [emitNodes_cons] at h
    cases hd : emitDatas infer R (nodeRecs ndef n) st with
    | error err =>
      rw [hd] at h
      simp only [Except.bind] at h
      cases h
    | ok pd =>
      rw [hd] at h
      simp only [Except.bind] at h
      cases hn : emitNodes infer R ndef rest pd.2 with
      | error err =>
        rw [hn] at h
        simp only [Except.bind] at h
        cases h
      | ok q =>
        rw [hn] at h
        simp only [Except.bind] at h
        cases h
        exact ih pd.2 q hn t i (emitDatas_keys_persist infer R _ st pd hd t i hi)

theorem emitEdges_keys_persist (infer : Bool) (R : List ARec)
    (edef : List (String × GAtom)) (multi : Bool) :
    ∀ (edges : List PyEdge) (st : WriterState)
      (p : List XmlElem × WriterState),
      emitEdges infer R edef multi edges st = Except.ok p →
      ∀ t i, alookup st.keys t = some i → alookup p.2.keys t = some i := by
  intro edges
  induction edges with
  | nil =>
    intro st p h t i hi
    cases h
    exact hi
  | cons e0 rest ih =>
    intro st p h t i hi
    rw [emitEdges_cons] at h
    cases hd : emitDatas infer R (edgeRecs edef e0) st with
    | error err =>
      rw [hd] at h
      simp only [Except.bind] at h
      cases h
    | ok pd =>
      rw [hd] at h
      simp only [Except.bind] at h
      cases hn : emitEdges infer R edef multi rest pd.2 with
      | error err =>
        rw [hn] at h
        simp only [Except.bind] at h
        cases h
      | ok q =>
        rw [hn] at h
        simp only [Except.bind] at h
        cases h
        exact ih pd.2 q hn t i (emitDatas_keys_persist infer R _ st pd hd t i hi)

theorem wsOk_getKey (n x s : String) (st : WriterState)
    (hpt : (pythonTypeOf x).isSome = true) (h : wsOk st) :
    wsOk (getKey n x s none st).2 := by
  refine ⟨(registryWf_getKey n x s none st h.1).1, ?_, ?_⟩
  · unfold getKey
    cases hl : alookup st.keys (n, x, s) with
    | some i0 => exact h.2.1
    | none =>
      show st.keyElems ++ [mkKeyElem n x s (dId st.keys.length) none]
        = (st.keys ++ [((n, x, s), dId st.keys.length)]).map keyElemOf
      rw [List.map_append, h.2.1]
      rfl
  · unfold getKey
    cases hl : alookup st.keys (n, x, s) with
    | some i0 => exact h.2.2
    | none =>
      intro q hq
      rcases List.mem_append.mp hq with hm | hone
      · exact h.2.2 q hm
      · rw [List.mem_singleton.mp hone]
        exact hpt

theorem wsOk_addData (name : String) (ety : TagTy) (value scope : String)
    (st : WriterState) (pr : XmlElem × WriterState)
    (hp : addData name ety value scope none st = Except.ok pr) (h : wsOk st) :
    wsOk pr.2 := by
  obtain ⟨xt, hx, hpr⟩ := addData_inv _ _ _ _ _ _ _ hp
  rw [hpr]
  refine wsOk_getKey _ _ _ _ ?_ h
  rw [pythonTypeOf_xmlTypeOf ety xt hx]
  rfl

theorem wsOk_emitDatas (infer : Bool) (R : List ARec) :
    ∀ (recs : List ARec) (st : WriterState) (p : List XmlElem × WriterState),
      emitDatas infer R recs st = Except.ok p →
      (∀ r ∈ recs, r.dflt = none) → wsOk st → wsOk p.2 := by
  intro recs
  induction recs with
  | nil =>
    intro st p h _ hws
    cases h
    exact hws
  | cons r rest ih =>
    intro st p h hd hws
    rw [emitDatas_cons] at h
    cases ha : addData r.name (attrType infer (observedTypes R r.name r.scope)
        r.value) (pyStr r.value) r.scope r.dflt st with
    | error err =>
      rw [ha] at h
      simp only [Except.bind] at h
      cases h
    | ok pr =>
      rw [ha] at h
      simp only [Except.bind] at h
      cases he : emitDatas infer R rest pr.2 with
      | error err =>
        rw [he] at h
        simp only [Except.bind] at h
        cases h
      | ok q =>
        rw [he] at h
        simp only [Except.bind] at h
        cases h
        refine ih pr.2 q he (fun r2 h2 => hd r2 (List.mem_cons_of_mem _ h2)) ?_
        rw [hd r (List.mem_cons_self _ _)] at ha
        exact wsOk_addData _ _ _ _ _ _ ha hws

theorem wsOk_emitNodes (infer : Bool) (R : List ARec) :
    ∀ (nodes : List (String × List (String × GVal))) (st : WriterState)
      (p : List XmlElem × WriterState),
      emitNodes infer R [] nodes st = Except.ok p → wsOk st → wsOk p.2 := by
  intro nodes
  induction nodes with
  | nil =>
    intro st p h hws
    cases h
    exact hws
  | cons n rest ih =>
    intro st p h hws
    rw [emitNodes_cons] at h
    cases hd : emitDatas infer R (nodeRecs [] n) st with
    | error err =>
      rw [hd] at h
      simp only [Except.bind] at h
      cases h
    | ok pd =>
      rw [hd] at h
      simp only [Except.bind] at h
      cases hn : emitNodes infer R [] rest pd.2 with
      | error err =>
        rw [hn] at h
        simp only [Except.bind] at h
        cases h
      | ok q =>
        rw [hn] at h
        simp only [Except.bind] at h
        cases h
        refine ih pd.2 q hn (wsOk_emitDatas infer R _ st pd hd ?_ hws)
        intro r hr
        obtain ⟨q2, hq2, rfl⟩ := List.mem_map.mp hr
        rfl

theorem wsOk_emitEdges (infer : Bool) (R : List ARec) (multi : Bool) :
    ∀ (edges : List PyEdge) (st : WriterState)
      (p : List XmlElem × WriterState),
      emitEdges infer R [] multi edges st = Except.ok p → wsOk st → wsOk p.2 := by
  intro edges
  induction edges with
  | nil =>
    intro st p h hws
    cases h
    exact hws
  | cons e0 rest ih =>
    intro st p h hws
    rw [emitEdges_cons] at h
    cases hd : emitDatas infer R (edgeRecs [] e0) st with
    | error err =>
      rw [hd] at h
      simp only [Except.bind] at h
      cases h
    | ok pd =>
      rw [hd] at h
      simp only [Except.bind] at h
      cases hn : emitEdges infer R [] multi rest pd.2 with
      | error err =>
        rw [hn] at h
        simp only [Except.bind] at h
        cases h
      | ok q =>
        rw [hn] at h
        simp only [Except.bind] at h
        cases h
        refine ih pd.2 q hn (wsOk_emitDatas infer R _ st pd hd ?_ hws)
        intro r hr
        obtain ⟨q2, hq2, rfl⟩ := List.mem_map.mp hr
        rfl

theorem addData_elem (name : String) (ety : TagTy) (value scope : String)
    (dflt : Option GAtom) (st : WriterState) (pr : XmlElem × WriterState)
    (h : addData name ety value scope dflt st = Except.ok pr) :
    ∃ xt, xmlTypeOf ety = some xt
      ∧ pr.1 = XmlElem.mk "data" [("key", (getKey name xt scope dflt st).1)]
          (some value) [] := by
  unfold addData at h
  cases hx : xmlTypeOf ety with
  | none =>
    rw [hx] at h
    cases h
  | some xt =>
    rw [hx] at h
    have h2 : Except.ok ((XmlElem.mk "data"
        [("key", (getKey name xt scope dflt st).1)] (some value) []),
        (getKey name xt scope dflt st).2) = Except.ok pr := h
    rw [Except.ok.injEq] at h2
    exact ⟨xt, rfl, (congrArg Prod.fst h2).symm⟩

theorem decodeDatas_cons (table : List (Option String × KeyEntry)) (d : XmlElem)
    (rest : List XmlElem) (data : List (String × GVal)) :
    decodeDatas table (d :: rest) data =
      match alookup table (d.get "key") with
      | none => .error (.unknownKey (d.get "key"))
      | some entry =>
        match d.text, d.children with
        | some t, [] => Except.bind (convertData entry.ptype t)
            (fun v => decodeDatas table rest (aupdate data entry.name v))
        | none, [] => decodeDatas table rest data
        | _, _ :: _ => decodeDatas table rest (yfilesExtract d data) := rfl

theorem aupdate_none_append {α β : Type} [DecidableEq α] (l : List (α × β))
    (k : α) (v : β) (h : alookup l k = none) : aupdate l k v = l ++ [(k, v)] := by
  induction l with
  | nil => rfl
  | cons p rest ih =>
    obtain ⟨a, b⟩ := p
    simp only [alookup] at h
    by_cases hp : a = k
    · rw [if_pos hp] at h
      cases h
    · rw [if_neg hp] at h
      simp only [aupdate, if_neg hp, List.cons_append]
      rw [ih h]

theorem aupdate_fresh_append {α β : Type} [DecidableEq α] :
    ∀ (ps acc : List (α × β)), ((ps.map Prod.fst).Nodup) →
      (∀ p ∈ ps, alookup acc p.1 = none) →
      ps.foldl (fun d p => aupdate d p.1 p.2) acc = acc ++ ps := by
  intro ps
  induction ps with
  | nil =>
    intro acc _ _
    rw [List.append_nil]
    rfl
  | cons p rest ih =>
    intro acc hnd hfresh
    simp only [List.map_cons, List.nodup_cons] at hnd
    rw [List.foldl_cons]
    rw [show aupdate acc p.1 p.2 = acc ++ [(p.1, p.2)] from
      aupdate_none_append acc p.1 p.2 (hfresh p (List.mem_cons_self _ _))]
    rw [ih (acc ++ [(p.1, p.2)]) hnd.2 (by
      intro q hq
      rw [alookup_append_none _ _ _ (hfresh q (List.mem_cons_of_mem _ hq))]
      simp only [alookup]
      rw [if_neg (by
        intro hcontra
        exact hnd.1 (List.mem_map.mpr ⟨q, hq, hcontra.symm⟩))])]
    rw [List.append_assoc]
    rfl

theorem emitDatas_tags (infer : Bool) (R : List ARec) :
    ∀ (recs : List ARec) (st : WriterState) (p : List XmlElem × WriterState),
      emitDatas infer R recs st = Except.ok p → ∀ d ∈ p.1, d.tag = "data" := by
  intro recs
  induction recs with
  | nil =>
    intro st p h d hd
    cases h
    cases hd
  | cons r rest ih =>
    intro st p h d hd
    rw [emitDatas_cons] at h
    cases ha : addData r.name (attrType infer (observedTypes R r.name r.scope)
        r.value) (pyStr r.value) r.scope r.dflt st with
    | error err =>
      rw [ha] at h
      simp only [Except.bind] at h
      cases h
    | ok pr =>
      rw [ha] at h
      simp only [Except.bind] at h
      cases he : emitDatas infer R rest pr.2 with
      | error err =>
        rw [he] at h
        simp only [Except.bind] at h
        cases h
      | ok q =>
        rw [he] at h
        simp only [Except.bind] at h
        cases h
        rcases List.mem_cons.mp hd with rfl | hd2
        · obtain ⟨xt, _, helem⟩ := addData_elem _ _ _ _ _ _ _ ha
          rw [helem]
          rfl
        · exact ih pr.2 q he d hd2

theorem decode_emitDatas (R : List ARec) (table : List (Option String × KeyEntry)) :
    ∀ (recs : List ARec) (st : WriterState) (p : List XmlElem × WriterState),
      emitDatas false R recs st = Except.ok p →
      tableCorr p.2.keys table →
      (∀ r ∈ recs, ValOk r.value) →
      ∀ acc, decodeDatas table p.1 acc
        = Except.ok (recs.foldl (fun d r => aupdate d r.name r.value) acc) := by
  intro recs
  induction recs with
  | nil =>
    intro st p h _ _ acc
    cases h
    rfl
  | cons r rest ih =>
    intro st p h hcorr hvals acc
    rw [emitDatas_cons] at h
    cases ha : addData r.name (attrType false (observedTypes R r.name r.scope)
        r.value) (pyStr r.value) r.scope r.dflt st with
    | error err =>
      rw [ha] at h
      simp only [Except.bind] at h
      cases h
    | ok pr =>
      rw [ha] at h
      simp only [Except.bind] at h
      cases he : emitDatas false R rest pr.2 with
      | error err =>
        rw [he] at h
        simp only [Except.bind] at h
        cases h
      | ok q =>
        rw [he] at h
        simp only [Except.bind] at h
        cases h
        obtain ⟨xt, hx, hpr2⟩ := addData_inv _ _ _ _ _ _ _ ha
        obtain ⟨xt2, hx2, helem⟩ := addData_elem _ _ _ _ _ _ _ ha
        have hxteq : xt2 = xt := by
          rw [hx] at hx2
          exact (Option.some.inj hx2).symm
        rw [hxteq] at helem
        have hxv : xmlTypeOf (tagOf r.value) = some xt := hx
        have hval := hvals r (List.mem_cons_self _ _)
        have hid : pr.1.get "key"
            = some ((getKey r.name xt r.scope r.dflt st).1) := by
          rw [helem]
          simp [XmlElem.get, alookup]
        have hlkq : alookup q.2.keys (r.name, xt, r.scope)
            = some ((getKey r.name xt r.scope r.dflt st).1) := by
          refine emitDatas_keys_persist false R rest pr.2 q he _ _ ?_
          rw [hpr2]
          exact getKey_lookup_self _ _ _ _ _
        have hentry := hcorr r.name xt r.scope _ (tagOf r.value) hlkq
          (pythonTypeOf_xmlTypeOf _ _ hxv)
        have htext : pr.1.text = some (pyStr r.value) := by
          rw [helem]
          rfl
        have hchild : pr.1.children = [] := by
          rw [helem]
          rfl
        show decodeDatas table (pr.1 :: q.1) acc = _
        rw [decodeDatas_cons, hid, hentry, htext, hchild]
        dsimp only
        rw [hval.2]
        simp only [Except.bind]
        rw [List.foldl_cons]
        exact ih pr.2 q he hcorr (fun r2 h2 => hvals r2 (List.mem_cons_of_mem _ h2))
          (aupdate acc r.name r.value)

theorem nodesFold_cons (table : List (Option String × KeyEntry)) (d : XmlElem)
    (rest : List XmlElem) (G : PyGraph) :
    nodesFold table (d :: rest) G =
      Except.bind (addNodeR table G d)
        (fun G1 => nodesFold table rest G1) := rfl

theorem edgesFold_cons (table : List (Option String × KeyEntry)) (d : XmlElem)
    (rest : List XmlElem) (G : PyGraph) (st : ReaderState) :
    edgesFold table (d :: rest) G st =
      Except.bind (addEdgeR table d G st)
        (fun p => edgesFold table rest p.1 p.2) := rfl

theorem findall_data_all (t : Option String) (attrs : List (String × String))
    (tag : String) (ds : List XmlElem) (hd : ∀ d ∈ ds, d.tag = "data") :
    (XmlElem.mk tag attrs t ds).findall "data" = ds := by
  unfold XmlElem.findall
  show ds.filter _ = ds
  rw [List.filter_eq_self]
  intro d hmem
  rw [hd d hmem]
  decide

theorem ensureNode_present (G : PyGraph) (u : String)
    (h : (alookup G.nodes u).isSome = true) : ensureNode G u = G := by
  unfold ensureNode
  rw [if_pos h]

theorem hasEdge_false_any (G : PyGraph) (u v : String) (X : PyEdge → Bool)
    (h : hasEdge G u v = false) :
    G.edges.any (fun e => edgeMatches G.directed u v e && X e) = false := by
  unfold hasEdge at h
  rw [List.any_eq_false] at h ⊢
  intro e he
  simp only [Bool.and_eq_true, not_and]
  intro hcontra
  exact absurd hcontra (h e he)

theorem graphAddEdge_fresh (G : PyGraph) (u v : String) (key : Option GVal)
    (data : List (String × GVal))
    (hu : (alookup G.nodes u).isSome = true)
    (hv : (alookup G.nodes v).isSome = true)
    (hne : hasEdge G u v = false) :
    ∃ k, graphAddEdge G u v key data
      = {G with edges := G.edges ++ [⟨u, v, some k, data⟩]} := by
  unfold graphAddEdge
  rw [show ensureNode (ensureNode G u) v = G by
    rw [ensureNode_present G u hu, ensureNode_present G v hv]]
  cases key with
  | some k =>
    dsimp only
    rw [hasEdge_false_any G u v _ hne]
    exact ⟨k, rfl⟩
  | none => exact ⟨_, rfl⟩

theorem hasEdge_append_single (G : PyGraph) (e1 : PyEdge) (u v : String) :
    hasEdge {G with edges := G.edges ++ [e1]} u v
      = (hasEdge G u v || edgeMatches G.directed u v e1) := by
  unfold hasEdge
  show (G.edges ++ [e1]).any (edgeMatches G.directed u v) = _
  rw [List.any_append]
  simp

theorem hasDupPair_cons (d : Bool) (e : PyEdge) (rest : List PyEdge) :
    hasDupPair d (e :: rest)
      = ((rest.any fun x => pairMatches d (e.src, e.tgt) (x.src, x.tgt))
        || hasDupPair d rest) := rfl

theorem dup_false_head_edges (d : Bool) (e : PyEdge) (rest : List PyEdge)
    (h : hasDupPair d (e :: rest) = false) :
    (∀ x ∈ rest, pairMatches d (e.src, e.tgt) (x.src, x.tgt) = false)
      ∧ hasDupPair d rest = false := by
  rw [hasDupPair_cons, Bool.or_eq_false_iff] at h
  refine ⟨?_, h.2⟩
  intro x hmem
  have h1 := h.1
  rw [List.any_eq_false] at h1
  simpa using h1 x hmem

theorem decode_emitNodes (R : List ARec) (ndef : List (String × GAtom))
    (table : List (Option String × KeyEntry)) :
    ∀ (nodes : List (String × List (String × GVal))) (st : WriterState)
      (p : List XmlElem × WriterState) (G : PyGraph),
      emitNodes false R ndef nodes st = Except.ok p →
      tableCorr p.2.keys table →
      (∀ n ∈ nodes, (n.2.map Prod.fst).Nodup ∧ ∀ q ∈ n.2, ValOk q.2) →
      (∀ n ∈ nodes, alookup G.nodes n.1 = none) →
      ((nodes.map Prod.fst).Nodup) →
      nodesFold table p.1 G = Except.ok {G with nodes := G.nodes ++ nodes} := by
  intro nodes
  induction nodes with
  | nil =>
    intro st p G h _ _ _ _
    cases h
    show Except.ok G = _
    rw [List.append_nil]
  | cons n rest ih =>
    intro st p G h hcorr hbags hfresh hnodup
    simp only [List.map_cons, List.nodup_cons] at hnodup
    rw [emitNodes_cons] at h
    cases hd : emitDatas false R (nodeRecs ndef n) st with
    | error err =>
      rw [hd] at h
      simp only [Except.bind] at h
      cases h
    | ok pd =>
      rw [hd] at h
      simp only [Except.bind] at h
      cases hn : emitNodes false R ndef rest pd.2 with
      | error err =>
        rw [hn] at h
        simp only [Except.bind] at h
        cases h
      | ok q =>
        rw [hn] at h
        simp only [Except.bind] at h
        cases h
        have hcorr2 : tableCorr pd.2.keys table := by
          intro n2 x s id t hlk hpt
          exact hcorr n2 x s id t
            (emitNodes_keys_persist false R ndef rest pd.2 q hn _ _ hlk) hpt
        have hfa : (XmlElem.mk "node" [("id", n.1)] none pd.1).findall "data"
            = pd.1 :=
          findall_data_all none _ "node" pd.1
            (emitDatas_tags false R (nodeRecs ndef n) st pd hd)
        have hdec : decodeDatas table pd.1 [] = Except.ok n.2 := by
          rw [decode_emitDatas R table (nodeRecs ndef n) st pd hd hcorr2 (by
            intro r hr
            obtain ⟨q2, hq2, rfl⟩ := List.mem_map.mp hr
            exact (hbags n (List.mem_cons_self _ _)).2 q2 hq2) []]
          show Except.ok _ = _
          refine congrArg Except.ok ?_
          show (nodeRecs ndef n).foldl (fun d r => aupdate d r.name r.value) []
            = n.2
          unfold nodeRecs
          rw [List.foldl_map]
          exact (aupdate_fresh_append n.2 []
            (hbags n (List.mem_cons_self _ _)).1 (fun p2 hp2 => rfl)).trans
            (List.nil_append n.2)
        have haddN : addNodeR table G (XmlElem.mk "node" [("id", n.1)] none pd.1)
            = Except.ok (graphAddNode G n.1 n.2) := by
          unfold addNodeR
          rw [hfa, hdec]
          simp only [Bind.bind, Except.bind]
          rfl
        have hga : graphAddNode G n.1 n.2
            = {G with nodes := G.nodes ++ [(n.1, n.2)]} := by
          unfold graphAddNode
          rw [hfresh n (List.mem_cons_self _ _)]
        show nodesFold table (XmlElem.mk "node" [("id", n.1)] none pd.1 :: q.1)
          G = _
        rw [nodesFold_cons, haddN]
        simp only [Except.bind]
        rw [hga]
        rw [ih pd.2 q {G with nodes := G.nodes ++ [(n.1, n.2)]} hn hcorr
          (fun n2 h2 => hbags n2 (List.mem_cons_of_mem _ h2))
          (by
            intro m hm
            show alookup (G.nodes ++ [(n.1, n.2)]) m.1 = none
            rw [alookup_append_none _ _ _ (hfresh m (List.mem_cons_of_mem _ hm))]
            simp only [alookup]
            rw [if_neg (by
              intro hcontra
              exact hnodup.1 (List.mem_map.mpr ⟨m, hm, hcontra.symm⟩))])
          hnodup.2]
        show Except.ok _ = Except.ok _
        refine congrArg Except.ok ?_
        show ({G with nodes := (G.nodes ++ [(n.1, n.2)]) ++ rest} : PyGraph) = _
        rw [List.append_assoc]
        rfl

theorem addEdgeR_plain (table : List (Option String × KeyEntry)) (ex : XmlElem)
    (G : PyGraph) (rst : ReaderState) (data : List (String × GVal))
    (hdir : ex.get "directed" = none) (hid : ex.get "id" = none)
    (hne : hasEdge G (pyNodeType (ex.get "source"))
      (pyNodeType (ex.get "target")) = false)
    (hdec : decodeDatas table (ex.findall "data") [] = Except.ok data) :
    addEdgeR table ex G rst
      = Except.ok (graphAddEdge G (pyNodeType (ex.get "source"))
          (pyNodeType (ex.get "target")) (alookup data "key") data, rst) := by
  unfold addEdgeR
  rw [hdir]
  rw [if_neg (fun hc => Option.noConfusion hc.2)]
  rw [if_neg (fun hc => Option.noConfusion hc.2)]
  simp only [Bind.bind]
  rw [hdec]
  simp only [Except.bind]
  rw [hid]
  dsimp only
  rw [hne]
  rw [if_neg Bool.false_ne_true]

theorem decode_emitEdges (R : List ARec) (edef : List (String × GAtom))
    (table : List (Option String × KeyEntry)) :
    ∀ (edges : List PyEdge) (st : WriterState) (p : List XmlElem × WriterState)
      (G : PyGraph) (rst : ReaderState),
      emitEdges false R edef false edges st = Except.ok p →
      tableCorr p.2.keys table →
      (∀ e ∈ edges, (e.data.map Prod.fst).Nodup ∧ ∀ q ∈ e.data, ValOk q.2) →
      (∀ e ∈ edges, (alookup G.nodes e.src).isSome = true
        ∧ (alookup G.nodes e.tgt).isSome = true) →
      (∀ e ∈ edges, hasEdge G e.src e.tgt = false) →
      hasDupPair G.directed edges = false →
      ∃ q, edgesFold table p.1 G rst = Except.ok q
        ∧ q.1.edges.map (fun e => {e with key := none})
            = G.edges.map (fun e => {e with key := none})
              ++ edges.map (fun e => {e with key := none})
        ∧ q.1.nodes = G.nodes ∧ q.1.directed = G.directed
        ∧ q.1.multi = G.multi ∧ q.1.graphAttrs = G.graphAttrs
        ∧ q.2 = rst := by
  intro edges
  induction edges with
  | nil =>
    intro st p G rst h _ _ _ _ _
    cases h
    refine ⟨(G, rst), rfl, ?_, rfl, rfl, rfl, rfl, rfl⟩
    rw [List.map_nil, List.append_nil]
  | cons e0 rest ih =>
    intro st p G rst h hcorr hbags hnodes hfree hdup
    rw [emitEdges_cons] at h
    cases hd : emitDatas false R (edgeRecs edef e0) st with
    | error err =>
      rw [hd] at h
      simp only [Except.bind] at h
      cases h
    | ok pd =>
      rw [hd] at h
      simp only [Except.bind] at h
      cases hn : emitEdges false R edef false rest pd.2 with
      | error err =>
        rw [hn] at h
        simp only [Except.bind] at h
        cases h
      | ok qe =>
        rw [hn] at h
        simp only [Except.bind] at h
        cases h
        obtain ⟨hhead, hrest⟩ := dup_false_head_edges G.directed e0 rest hdup
        have hcorr2 : tableCorr pd.2.keys table := fun n2 x s id t hlk hpt =>
          hcorr n2 x s id t
            (emitEdges_keys_persist false R edef false rest pd.2 qe hn _ _ hlk)
            hpt
        have hfa : (XmlElem.mk "edge" [("source", e0.src), ("target", e0.tgt)]
            none pd.1).findall "data" = pd.1 :=
          findall_data_all none _ "edge" pd.1
            (emitDatas_tags false R (edgeRecs edef e0) st pd hd)
        have hdec : decodeDatas table pd.1 [] = Except.ok e0.data := by
          rw [decode_emitDatas R table (edgeRecs edef e0) st pd hd hcorr2 (by
            intro r hr
            obtain ⟨q2, hq2, rfl⟩ := List.mem_map.mp hr
            exact (hbags e0 (List.mem_cons_self _ _)).2 q2 hq2) []]
          refine congrArg Except.ok ?_
          show (edgeRecs edef e0).foldl (fun d r => aupdate d r.name r.value) []
            = e0.data
          unfold edgeRecs
          rw [List.foldl_map]
          exact (aupdate_fresh_append e0.data []
            (hbags e0 (List.mem_cons_self _ _)).1 (fun p2 hp2 => rfl)).trans
            (List.nil_append e0.data)
        have haddE := addEdgeR_plain table
          (XmlElem.mk "edge" [("source", e0.src), ("target", e0.tgt)] none pd.1)
          G rst e0.data rfl rfl
          (by
            show hasEdge G e0.src e0.tgt = false
            exact hfree e0 (List.mem_cons_self _ _))
          (by
            rw [hfa]
            exact hdec)
        rw [show (XmlElem.mk "edge"
            (if (false : Bool) then [("source", e0.src), ("target", e0.tgt),
              ("id", pyStr (e0.key.getD .PNone))]
             else [("source", e0.src), ("target", e0.tgt)]) none pd.1)
          = XmlElem.mk "edge" [("source", e0.src), ("target", e0.tgt)] none pd.1
          from rfl]
        rw [edgesFold_cons, haddE]
        simp only [Except.bind]
        obtain ⟨k, hga⟩ := graphAddEdge_fresh G e0.src e0.tgt
          (alookup e0.data "key") e0.data
          (hnodes e0 (List.mem_cons_self _ _)).1
          (hnodes e0 (List.mem_cons_self _ _)).2
          (hfree e0 (List.mem_cons_self _ _))
        rw [show pyNodeType ((XmlElem.mk "edge" [("source", e0.src),
            ("target", e0.tgt)] none pd.1).get "source") = e0.src from rfl,
          show pyNodeType ((XmlElem.mk "edge" [("source", e0.src),
            ("target", e0.tgt)] none pd.1).get "target") = e0.tgt from rfl]
        rw [hga]
        obtain ⟨q, hq, hqe, hqn, hqd, hqm, hqa, hqrst⟩ := ih pd.2 qe
          {G with edges := G.edges ++ [⟨e0.src, e0.tgt, some k, e0.data⟩]} rst
          hn hcorr (fun e he => hbags e (List.mem_cons_of_mem _ he))
          (fun e he => hnodes e (List.mem_cons_of_mem _ he))
          (by
            intro e he
            rw [hasEdge_append_single, hfree e (List.mem_cons_of_mem _ he),
              edgeMatches_eq_pm, Bool.false_or, pairMatches_symm]
            exact hhead e he)
          hrest
        refine ⟨q, hq, ?_, hqn, hqd, hqm, hqa, hqrst⟩
        rw [hqe]
        show (G.edges ++ [(⟨e0.src, e0.tgt, some k, e0.data⟩ : PyEdge)]).map
            (fun e : PyEdge => ({e with key := none} : PyEdge))
            ++ rest.map (fun e : PyEdge => ({e with key := none} : PyEdge))
          = G.edges.map (fun e : PyEdge => ({e with key := none} : PyEdge))
            ++ (e0 :: rest).map (fun e : PyEdge => ({e with key := none} : PyEdge))
        rw [List.map_append, List.map_cons, List.append_assoc]
        rfl

theorem alookup_some_mem {α β : Type} [DecidableEq α] :
    ∀ (l : List (α × β)) (k : α) (v : β), alookup l k = some v → (k, v) ∈ l := by
  intro l
  induction l with
  | nil =>
    intro k v h
    cases h
  | cons p rest ih =>
    intro k v h
    obtain ⟨a, b⟩ := p
    simp only [alookup] at h
    by_cases hp : a = k
    · rw [if_pos hp] at h
      rw [Option.some.injEq] at h
      rw [← hp, ← h]
      exact List.mem_cons_self _ _
    · rw [if_neg hp] at h
      exact List.mem_cons_of_mem _ (ih k v h)

theorem alookup_mem_nodup {α β : Type} [DecidableEq α] :
    ∀ (l : List (α × β)) (q : α × β), q ∈ l → ((l.map Prod.fst).Nodup) →
      alookup l q.1 = some q.2 := by
  intro l
  induction l with
  | nil =>
    intro q hq
    cases hq
  | cons p rest ih =>
    intro q hq hnd
    simp only [List.map_cons, List.nodup_cons] at hnd
    rcases List.mem_cons.mp hq with rfl | hq2
    · simp [alookup]
    · simp only [alookup]
      rw [if_neg (by
        intro hcontra
        exact hnd.1 (List.mem_map.mpr ⟨q, hq2, hcontra.symm⟩))]
      exact ih q hq2 hnd.2

theorem findKeysFold_keyElems :
    ∀ (ks : List ((String × String × String) × String))
      (table0 : List (Option String × KeyEntry))
      (defaults0 : List (Option String × Option String)),
      (∀ q ∈ ks, (pythonTypeOf q.1.2.1).isSome = true) →
      findKeysFold (ks.map keyElemOf) table0 defaults0
        = Except.ok (ks.foldl (fun t q => aupdate t (some q.2)
            ⟨q.1.1, (pythonTypeOf q.1.2.1).getD .tStr, some q.1.2.2⟩) table0,
          defaults0) := by
  intro ks
  induction ks with
  | nil =>
    intro table0 defaults0 _
    rfl
  | cons q0 rest ih =>
    intro table0 defaults0 hty
    obtain ⟨⟨n, x, s⟩, id⟩ := q0
    rw [List.map_cons, findKeysFold_cons]
    have hty0 := hty ((n, x, s), id) (List.mem_cons_self _ _)
    rw [show resolvedKeyName (keyElemOf ((n, x, s), id)) = some n from rfl]
    rw [show resolvedKeyTypeName (keyElemOf ((n, x, s), id)) = x from rfl]
    cases hp : pythonTypeOf x with
    | none =>
      rw [hp] at hty0
      cases hty0
    | some pt =>
      dsimp only
      rw [show (keyElemOf ((n, x, s), id)).findTag "default" = none from rfl]
      rw [show (keyElemOf ((n, x, s), id)).get "id" = some id from rfl]
      rw [show (keyElemOf ((n, x, s), id)).get "for" = some s from rfl]
      rw [ih _ defaults0 (fun q hq => hty q (List.mem_cons_of_mem _ hq))]
      rw [List.foldl_cons]
      dsimp only
      rw [hp]
      rfl

theorem tableCorr_of_wsOk (st : WriterState) (hws : wsOk st)
    (table : List (Option String × KeyEntry))
    (defaults : List (Option String × Option String))
    (hfk : findKeysFold st.keyElems.reverse [] [] = Except.ok (table, defaults)) :
    tableCorr st.keys table ∧ defaults = [] := by
  have helems : st.keyElems.reverse = (st.keys.reverse).map keyElemOf := by
    rw [hws.2.1, List.map_reverse]
  rw [helems] at hfk
  rw [findKeysFold_keyElems st.keys.reverse [] []
    (fun q hq => hws.2.2 q (List.mem_reverse.mp hq))] at hfk
  rw [Except.ok.injEq] at hfk
  have hids : ((st.keys.reverse.map (fun q => ((some q.2 : Option String),
      (⟨q.1.1, (pythonTypeOf q.1.2.1).getD .tStr, some q.1.2.2⟩ : KeyEntry)))).map
        Prod.fst).Nodup := by
    rw [List.map_map]
    have h1 : (st.keys.map Prod.snd).Nodup := by
      rw [hws.1.2]
      exact (List.nodup_range _).map dId_inj
    have h2 : (st.keys.reverse.map Prod.snd).Nodup := by
      rw [List.map_reverse]
      exact List.nodup_reverse.mpr h1
    have h3 := h2.map (Option.some_injective String)
    rw [List.map_map] at h3
    exact h3
  have ht : st.keys.reverse.foldl (fun t q => aupdate t (some q.2)
      ⟨q.1.1, (pythonTypeOf q.1.2.1).getD .tStr, some q.1.2.2⟩) [] = table :=
    congrArg Prod.fst hfk
  have htab : table = st.keys.reverse.map (fun q => ((some q.2 : Option String),
      (⟨q.1.1, (pythonTypeOf q.1.2.1).getD .tStr, some q.1.2.2⟩ : KeyEntry))) := by
    rw [← ht]
    rw [show st.keys.reverse.foldl (fun t q => aupdate t (some q.2)
        ⟨q.1.1, (pythonTypeOf q.1.2.1).getD .tStr, some q.1.2.2⟩) []
      = (st.keys.reverse.map (fun q => ((some q.2 : Option String),
          (⟨q.1.1, (pythonTypeOf q.1.2.1).getD .tStr,
            some q.1.2.2⟩ : KeyEntry)))).foldl
          (fun t p => aupdate t p.1 p.2) [] from
      (List.foldl_map (fun q => ((some q.2 : Option String),
          (⟨q.1.1, (pythonTypeOf q.1.2.1).getD .tStr,
            some q.1.2.2⟩ : KeyEntry)))
        (fun t p => aupdate t p.1 p.2) st.keys.reverse []).symm]
    rw [aupdate_fresh_append _ [] hids (fun p hp => rfl)]
    rw [List.nil_append]
  refine ⟨?_, (show ([] : List (Option String × Option String)) = defaults from
    congrArg Prod.snd hfk).symm⟩
  intro n x s id t hlk hpt
  rw [htab]
  have hmem : (((n, x, s), id) : (String × String × String) × String)
      ∈ st.keys.reverse :=
    List.mem_reverse.mpr (alookup_some_mem st.keys (n, x, s) id hlk)
  have := alookup_mem_nodup _ _ (List.mem_map.mpr ⟨((n, x, s), id), hmem, rfl⟩)
    hids
  rw [this]
  refine congrArg some ?_
  show (⟨n, (pythonTypeOf x).getD .tStr, some s⟩ : KeyEntry) = _
  rw [hpt]
  rfl

theorem aerase_not_mem {α β : Type} [DecidableEq α] :
    ∀ (l : List (α × β)) (k : α), (∀ p ∈ l, p.1 ≠ k) → aerase l k = l := by
  intro l
  induction l with
  | nil =>
    intro k _
    rfl
  | cons p rest ih =>
    intro k hno
    obtain ⟨a, b⟩ := p
    simp only [aerase]
    rw [if_neg (hno (a, b) (List.mem_cons_self _ _))]
    rw [ih k (fun q hq => hno q (List.mem_cons_of_mem _ hq))]

theorem alookup_not_mem {α β : Type} [DecidableEq α] (l : List (α × β)) (k : α)
    (h : ∀ p ∈ l, p.1 ≠ k) : alookup l k = none := by
  cases hl : alookup l k with
  | none => rfl
  | some v => exact absurd rfl (h (k, v) (alookup_some_mem l k v hl))

theorem emitNodes_tags (infer : Bool) (R : List ARec)
    (ndef : List (String × GAtom)) :
    ∀ (nodes : List (String × List (String × GVal))) (st : WriterState)
      (p : List XmlElem × WriterState),
      emitNodes infer R ndef nodes st = Except.ok p →
      ∀ d ∈ p.1, d.tag = "node" := by
  intro nodes
  induction nodes with
  | nil =>
    intro st p h d hd
    cases h
    cases hd
  | cons n rest ih =>
    intro st p h d hd
    rw [emitNodes_cons] at h
    cases h1 : emitDatas infer R (nodeRecs ndef n) st with
    | error err =>
      rw [h1] at h
      simp only [Except.bind] at h
      cases h
    | ok pd =>
      rw [h1] at h
      simp only [Except.bind] at h
      cases h2 : emitNodes infer R ndef rest pd.2 with
      | error err =>
        rw [h2] at h
        simp only [Except.bind] at h
        cases h
      | ok q =>
        rw [h2] at h
        simp only [Except.bind] at h
        cases h
        rcases List.mem_cons.mp hd with rfl | hd2
        · rfl
        · exact ih pd.2 q h2 d hd2

theorem emitEdges_tags (infer : Bool) (R : List ARec)
    (edef : List (String × GAtom)) (multi : Bool) :
    ∀ (edges : List PyEdge) (st : WriterState)
      (p : List XmlElem × WriterState),
      emitEdges infer R edef multi edges st = Except.ok p →
      ∀ d ∈ p.1, d.tag = "edge" := by
  intro edges
  induction edges with
  | nil =>
    intro st p h d hd
    cases h
    cases hd
  | cons e0 rest ih =>
    intro st p h d hd
    rw [emitEdges_cons] at h
    cases h1 : emitDatas infer R (edgeRecs edef e0) st with
    | error err =>
      rw [h1] at h
      simp only [Except.bind] at h
      cases h
    | ok pd =>
      rw [h1] at h
      simp only [Except.bind] at h
      cases h2 : emitEdges infer R edef multi rest pd.2 with
      | error err =>
        rw [h2] at h
        simp only [Except.bind] at h
        cases h
      | ok q =>
        rw [h2] at h
        simp only [Except.bind] at h
        cases h
        rcases List.mem_cons.mp hd with rfl | hd2
        · rfl
        · exact ih pd.2 q h2 d hd2

theorem findall_mk (tag t : String) (attrs : List (String × String))
    (tx : Option String) (cs : List XmlElem) :
    (XmlElem.mk tag attrs tx cs).findall t
      = cs.filter (fun c => c.tag = t) := rfl

theorem filter_tag_self (t : String) (cs : List XmlElem)
    (h : ∀ c ∈ cs, c.tag = t) : cs.filter (fun c => decide (c.tag = t)) = cs := by
  rw [List.filter_eq_self]
  intro c hc
  rw [h c hc]
  simp

theorem filter_tag_nil (t : String) (cs : List XmlElem)
    (h : ∀ c ∈ cs, c.tag ≠ t) : cs.filter (fun c => decide (c.tag = t)) = [] := by
  rw [List.filter_eq_nil_iff]
  intro c hc
  simp only [decide_eq_true_eq]
  exact h c hc

theorem map_keynone_id :
    ∀ (l : List PyEdge), (∀ e ∈ l, e.key = none) →
      l.map (fun e => ({e with key := none} : PyEdge)) = l := by
  intro l
  induction l with
  | nil =>
    intro _
    rfl
  | cons e rest ih =>
    intro h
    rw [List.map_cons, ih (fun e2 h2 => h e2 (List.mem_cons_of_mem _ h2))]
    refine congrArg (fun x => x :: rest) ?_
    obtain ⟨s, t, k, d⟩ := e
    have hk : k = none := h ⟨s, t, k, d⟩ (List.mem_cons_self _ _)
    rw [hk]

theorem downgrade_nil (G : PyGraph) :
    downgrade G []
      = {G with
          multi := false
          edges := G.edges.map (fun e => {e with key := none})} := rfl

theorem wsOk_init : wsOk ⟨[], []⟩ := by
  refine ⟨⟨List.nodup_nil, rfl⟩, rfl, ?_⟩
  intro q hq
  cases hq
/-- C1 (amended): the decode-encode round trip restated for the
configurations in which it actually holds: a simple graph written with
type inference off, empty attribute defaults, fresh attribute names, and
values that survive their own printed form.  (The unrestricted claim is
false: see the counterexample — a multigraph with no parallel edges comes
back as a simple graph with its edge keys demoted to `id` attributes.) -/
theorem C1_roundtrip (G : PyGraph) (plain : List (String × GVal))
    (res : XmlElem × WriterState × List (String × GVal))
    (henc : encodeBuffered false G = Except.ok res)
    (hmulti : G.multi = false)
    (hga : G.graphAttrs = ("node_default", GVal.PDict [])
      :: ("edge_default", GVal.PDict []) :: plain)
    (hplain : (plain.map Prod.fst).Nodup
      ∧ ∀ p ∈ plain, p.1 ≠ "id" ∧ p.1 ≠ "node_default"
          ∧ p.1 ≠ "edge_default" ∧ ValOk p.2)
    (hnodes : (G.nodes.map Prod.fst).Nodup
      ∧ ∀ n ∈ G.nodes, (n.2.map Prod.fst).Nodup ∧ ∀ q ∈ n.2, ValOk q.2)
    (hedges : ∀ e ∈ G.edges, e.key = none ∧ (e.data.map Prod.fst).Nodup
      ∧ (∀ q ∈ e.data, ValOk q.2)
      ∧ (alookup G.nodes e.src).isSome = true
      ∧ (alookup G.nodes e.tgt).isSome = true)
    (hdup : hasDupPair G.directed G.edges = false) :
    decodeDocument res.1 = Except.ok [G] := by
  obtain ⟨pg, pn, pe, hg, hn, he, hres21, hres1⟩ :=
    encodeBuffered_inv false G res henc
  have hnoid : ∀ p ∈ G.graphAttrs, p.1 ≠ "id" := by
    rw [hga]
    intro p hp
    rcases List.mem_cons.mp hp with rfl | hp2
    · decide
    rcases List.mem_cons.mp hp2 with rfl | hp3
    · decide
    · exact (hplain.2 p hp3).1
  have hX1 : aerase G.graphAttrs "id" = G.graphAttrs := aerase_not_mem _ _ hnoid
  have hgid : alookup G.graphAttrs "id" = none := alookup_not_mem _ _ hnoid
  have hplaineq : (aerase G.graphAttrs "id").filter
      (fun p => !(p.1 == "node_default") && !(p.1 == "edge_default")) = plain := by
    rw [hX1, hga]
    show plain.filter _ = plain
    rw [List.filter_eq_self]
    intro p hp
    obtain ⟨_, hnd, hed, _⟩ := hplain.2 p hp
    simp [hnd, hed]
  have hndefeq : asBag (alookup (aerase G.graphAttrs "id") "node_default")
      = ([] : List (String × GAtom)) := by
    rw [hX1, hga]
    rfl
  have hedefeq : asBag (alookup (aerase G.graphAttrs "id") "edge_default")
      = ([] : List (String × GAtom)) := by
    rw [hX1, hga]
    rfl
  rw [hplaineq, hndefeq, hedefeq] at hg hn he
  rw [hmulti] at he
  have hdflt : ∀ r ∈ graphRecs plain, r.dflt = none := by
    intro r hr
    obtain ⟨q2, hq2, rfl⟩ := List.mem_map.mp hr
    rfl
  have hws1 : wsOk pg.2 :=
    wsOk_emitDatas false (graphRecs plain ++ (G.nodes.map (nodeRecs [])).flatten
      ++ (G.edges.map (edgeRecs [])).flatten) (graphRecs plain) ⟨[], []⟩ pg hg hdflt wsOk_init
  have hws2 : wsOk pn.2 :=
    wsOk_emitNodes false (graphRecs plain ++ (G.nodes.map (nodeRecs [])).flatten
      ++ (G.edges.map (edgeRecs [])).flatten) G.nodes pg.2 pn hn hws1
  have hws3 : wsOk pe.2 :=
    wsOk_emitEdges false (graphRecs plain ++ (G.nodes.map (nodeRecs [])).flatten
      ++ (G.edges.map (edgeRecs [])).flatten) false G.edges pn.2 pe he hws2
  have htags : ∀ e2 ∈ pe.2.keyElems.reverse, e2.tag = "key" := by
    intro e2 he2
    rw [List.mem_reverse] at he2
    rw [hws3.2.1] at he2
    obtain ⟨q2, hq2, rfl⟩ := List.mem_map.mp he2
    rfl
  have helems : pe.2.keyElems.reverse = (pe.2.keys.reverse).map keyElemOf := by
    rw [hws3.2.1, List.map_reverse]
  have hfk : findKeysFold pe.2.keyElems.reverse [] []
      = Except.ok ((pe.2.keys.reverse.foldl (fun t q => aupdate t (some q.2)
      ⟨q.1.1, (pythonTypeOf q.1.2.1).getD .tStr, some q.1.2.2⟩) []), []) := by
    rw [helems]
    exact findKeysFold_keyElems pe.2.keys.reverse [] []
      (fun q hq => hws3.2.2 q (List.mem_reverse.mp hq))
  obtain ⟨hcorrT, _⟩ := tableCorr_of_wsOk pe.2 hws3 (pe.2.keys.reverse.foldl (fun t q => aupdate t (some q.2)
      ⟨q.1.1, (pythonTypeOf q.1.2.1).getD .tStr, some q.1.2.2⟩) []) [] hfk
  have hcorr_pn : tableCorr pn.2.keys (pe.2.keys.reverse.foldl (fun t q => aupdate t (some q.2)
      ⟨q.1.1, (pythonTypeOf q.1.2.1).getD .tStr, some q.1.2.2⟩) []) := by
    intro n2 x s id t hlk hpt
    exact hcorrT n2 x s id t
      (emitEdges_keys_persist false (graphRecs plain ++ (G.nodes.map (nodeRecs [])).flatten
      ++ (G.edges.map (edgeRecs [])).flatten) [] false G.edges pn.2 pe he _ _ hlk)
      hpt
  have hcorr_pg : tableCorr pg.2.keys (pe.2.keys.reverse.foldl (fun t q => aupdate t (some q.2)
      ⟨q.1.1, (pythonTypeOf q.1.2.1).getD .tStr, some q.1.2.2⟩) []) := by
    intro n2 x s id t hlk hpt
    exact hcorr_pn n2 x s id t
      (emitNodes_keys_persist false (graphRecs plain ++ (G.nodes.map (nodeRecs [])).flatten
      ++ (G.edges.map (edgeRecs [])).flatten) [] G.nodes pg.2 pn hn _ _ hlk) hpt
  rw [hgid] at hres1
  dsimp only at hres1
  have hfg : findGraphmlKeys (XmlElem.mk "graphml" rootAttrs none
      (pe.2.keyElems.reverse ++ [(XmlElem.mk "graph"
      [("edgedefault", if G.directed then "directed" else "undirected")]
      none (pn.1 ++ pe.1 ++ pg.1))]))
      = Except.ok ((pe.2.keys.reverse.foldl (fun t q => aupdate t (some q.2)
      ⟨q.1.1, (pythonTypeOf q.1.2.1).getD .tStr, some q.1.2.2⟩) []), []) := by
    unfold findGraphmlKeys
    rw [show (XmlElem.mk "graphml" rootAttrs none
        (pe.2.keyElems.reverse ++ [(XmlElem.mk "graph"
      [("edgedefault", if G.directed then "directed" else "undirected")]
      none (pn.1 ++ pe.1 ++ pg.1))])).findall "key"
      = pe.2.keyElems.reverse from by
        rw [findall_mk, List.filter_append, filter_tag_self _ _ htags,
          filter_tag_nil _ _ (by
            intro c hc
            rw [List.mem_singleton.mp hc]
            show ("graph" : String) ≠ "key"
            decide), List.append_nil]]
    exact hfk
  unfold decodeDocument
  rw [hres1, hfg]
  simp only [Bind.bind, Except.bind]
  rw [findall_keys_graph _ _ _ _ htags]
  rw [graphsFold_cons]
  have hchild_tags : ∀ c ∈ pn.1 ++ pe.1 ++ pg.1, c.tag ≠ "hyperedge" := by
    intro c hc
    rcases List.mem_append.mp hc with hc1 | hc3
    · rcases List.mem_append.mp hc1 with hc1 | hc2
      · rw [emitNodes_tags false (graphRecs plain ++ (G.nodes.map (nodeRecs [])).flatten
      ++ (G.edges.map (edgeRecs [])).flatten) [] G.nodes pg.2 pn hn c hc1]
        decide
      · rw [emitEdges_tags false (graphRecs plain ++ (G.nodes.map (nodeRecs [])).flatten
      ++ (G.edges.map (edgeRecs [])).flatten) [] false G.edges pn.2 pe he c hc2]
        decide
    · rw [emitDatas_tags false (graphRecs plain ++ (G.nodes.map (nodeRecs [])).flatten
      ++ (G.edges.map (edgeRecs [])).flatten) (graphRecs plain) ⟨[], []⟩ pg hg c hc3]
      decide
  have hmk : makeGraph (pe.2.keys.reverse.foldl (fun t q => aupdate t (some q.2)
      ⟨q.1.1, (pythonTypeOf q.1.2.1).getD .tStr, some q.1.2.2⟩) []) [] (XmlElem.mk "graph"
      [("edgedefault", if G.directed then "directed" else "undirected")]
      none (pn.1 ++ pe.1 ++ pg.1)) ⟨false, []⟩
      = Except.ok (G, (⟨false, []⟩ : ReaderState)) := by
    rw [makeGraph_eq]
    rw [show defaultsFold (pe.2.keys.reverse.foldl (fun t q => aupdate t (some q.2)
      ⟨q.1.1, (pythonTypeOf q.1.2.1).getD .tStr, some q.1.2.2⟩) []) [] [] []
      = Except.ok (([] : List (String × GAtom)), ([] : List (String × GAtom)))
      from rfl]
    simp only [Except.bind]
    have hhyp : ((XmlElem.mk "graph"
      [("edgedefault", if G.directed then "directed" else "undirected")]
      none (pn.1 ++ pe.1 ++ pg.1))).findTag "hyperedge" = none := by
      unfold XmlElem.findTag
      rw [findall_mk, filter_tag_nil _ _ hchild_tags]
      rfl
    rw [hhyp]
    rw [if_neg (show ¬((none : Option XmlElem).isSome = true) from
      fun hc => Bool.false_ne_true hc)]
    have hfn : ((XmlElem.mk "graph"
      [("edgedefault", if G.directed then "directed" else "undirected")]
      none (pn.1 ++ pe.1 ++ pg.1))).findall "node" = pn.1 := by
      rw [findall_mk, List.filter_append, List.filter_append]
      rw [filter_tag_self _ _ (emitNodes_tags false (graphRecs plain ++ (G.nodes.map (nodeRecs [])).flatten
      ++ (G.edges.map (edgeRecs [])).flatten) [] G.nodes pg.2 pn hn)]
      rw [filter_tag_nil _ _ (fun c hc => by
        rw [emitEdges_tags false (graphRecs plain ++ (G.nodes.map (nodeRecs [])).flatten
      ++ (G.edges.map (edgeRecs [])).flatten) [] false G.edges pn.2 pe he c hc]
        decide)]
      rw [filter_tag_nil _ _ (fun c hc => by
        rw [emitDatas_tags false (graphRecs plain ++ (G.nodes.map (nodeRecs [])).flatten
      ++ (G.edges.map (edgeRecs [])).flatten) (graphRecs plain) ⟨[], []⟩ pg hg c hc]
        decide)]
      rw [List.append_nil, List.append_nil]
    have hfe : ((XmlElem.mk "graph"
      [("edgedefault", if G.directed then "directed" else "undirected")]
      none (pn.1 ++ pe.1 ++ pg.1))).findall "edge" = pe.1 := by
      rw [findall_mk, List.filter_append, List.filter_append]
      rw [filter_tag_nil _ _ (fun c hc => by
        rw [emitNodes_tags false (graphRecs plain ++ (G.nodes.map (nodeRecs [])).flatten
      ++ (G.edges.map (edgeRecs [])).flatten) [] G.nodes pg.2 pn hn c hc]
        decide)]
      rw [filter_tag_self _ _ (emitEdges_tags false (graphRecs plain ++ (G.nodes.map (nodeRecs [])).flatten
      ++ (G.edges.map (edgeRecs [])).flatten) [] false G.edges
        pn.2 pe he)]
      rw [filter_tag_nil _ _ (fun c hc => by
        rw [emitDatas_tags false (graphRecs plain ++ (G.nodes.map (nodeRecs [])).flatten
      ++ (G.edges.map (edgeRecs [])).flatten) (graphRecs plain) ⟨[], []⟩ pg hg c hc]
        decide)]
      rw [List.nil_append, List.append_nil]
    have hfd : ((XmlElem.mk "graph"
      [("edgedefault", if G.directed then "directed" else "undirected")]
      none (pn.1 ++ pe.1 ++ pg.1))).findall "data" = pg.1 := by
      rw [findall_mk, List.filter_append, List.filter_append]
      rw [filter_tag_nil _ _ (fun c hc => by
        rw [emitNodes_tags false (graphRecs plain ++ (G.nodes.map (nodeRecs [])).flatten
      ++ (G.edges.map (edgeRecs [])).flatten) [] G.nodes pg.2 pn hn c hc]
        decide)]
      rw [filter_tag_nil _ _ (fun c hc => by
        rw [emitEdges_tags false (graphRecs plain ++ (G.nodes.map (nodeRecs [])).flatten
      ++ (G.edges.map (edgeRecs [])).flatten) [] false G.edges pn.2 pe he c hc]
        decide)]
      rw [filter_tag_self _ _ (emitDatas_tags false (graphRecs plain ++ (G.nodes.map (nodeRecs [])).flatten
      ++ (G.edges.map (edgeRecs [])).flatten) (graphRecs plain)
        ⟨[], []⟩ pg hg)]
      rw [List.nil_append, List.nil_append]
    rw [hfn, hfe, hfd]
    have hG0dir : (decide (((XmlElem.mk "graph"
      [("edgedefault", if G.directed then "directed" else "undirected")]
      none (pn.1 ++ pe.1 ++ pg.1))).get "edgedefault" = some "directed") : Bool)
        = G.directed := by
      rw [show ((XmlElem.mk "graph"
      [("edgedefault", if G.directed then "directed" else "undirected")]
      none (pn.1 ++ pe.1 ++ pg.1))).get "edgedefault"
        = some (if G.directed then "directed" else "undirected") from rfl]
      cases G.directed
      · rfl
      · rfl
    rw [hG0dir]
    have hnf2 : nodesFold (pe.2.keys.reverse.foldl (fun t q => aupdate t (some q.2)
      ⟨q.1.1, (pythonTypeOf q.1.2.1).getD .tStr, some q.1.2.2⟩) []) pn.1 (⟨G.directed, true, [], [],
      [("node_default", GVal.PDict []), ("edge_default", GVal.PDict [])]⟩ : PyGraph) = Except.ok (⟨G.directed, true, G.nodes, [],
      [("node_default", GVal.PDict []), ("edge_default", GVal.PDict [])]⟩ : PyGraph) :=
      decode_emitNodes (graphRecs plain ++ (G.nodes.map (nodeRecs [])).flatten
      ++ (G.edges.map (edgeRecs [])).flatten) [] (pe.2.keys.reverse.foldl (fun t q => aupdate t (some q.2)
      ⟨q.1.1, (pythonTypeOf q.1.2.1).getD .tStr, some q.1.2.2⟩) []) G.nodes pg.2 pn (⟨G.directed, true, [], [],
      [("node_default", GVal.PDict []), ("edge_default", GVal.PDict [])]⟩ : PyGraph) hn hcorr_pn
        hnodes.2 (fun n2 hn2 => rfl) hnodes.1
    rw [hnf2]
    simp only [Except.bind]
    obtain ⟨q, hq, hqe, hqn, hqd, hqm, hqa, hqrst⟩ :=
      decode_emitEdges (graphRecs plain ++ (G.nodes.map (nodeRecs [])).flatten
      ++ (G.edges.map (edgeRecs [])).flatten) [] (pe.2.keys.reverse.foldl (fun t q => aupdate t (some q.2)
      ⟨q.1.1, (pythonTypeOf q.1.2.1).getD .tStr, some q.1.2.2⟩) []) G.edges pn.2 pe (⟨G.directed, true, G.nodes, [],
      [("node_default", GVal.PDict []), ("edge_default", GVal.PDict [])]⟩ : PyGraph) ⟨false, []⟩ he
        hcorrT
        (fun e he2 => ⟨(hedges e he2).2.1, (hedges e he2).2.2.1⟩)
        (fun e he2 => ⟨(hedges e he2).2.2.2.1, (hedges e he2).2.2.2.2⟩)
        (fun e he2 => rfl)
        hdup
    rw [hq]
    simp only [Except.bind]
    have hgd : decodeDatas (pe.2.keys.reverse.foldl (fun t q => aupdate t (some q.2)
      ⟨q.1.1, (pythonTypeOf q.1.2.1).getD .tStr, some q.1.2.2⟩) []) pg.1 [] = Except.ok plain := by
      rw [decode_emitDatas (graphRecs plain ++ (G.nodes.map (nodeRecs [])).flatten
      ++ (G.edges.map (edgeRecs [])).flatten) (pe.2.keys.reverse.foldl (fun t q => aupdate t (some q.2)
      ⟨q.1.1, (pythonTypeOf q.1.2.1).getD .tStr, some q.1.2.2⟩) []) (graphRecs plain) ⟨[], []⟩ pg hg
        hcorr_pg (by
          intro r hr
          obtain ⟨q2, hq2, rfl⟩ := List.mem_map.mp hr
          exact (hplain.2 q2 hq2).2.2.2) []]
      refine congrArg Except.ok ?_
      show (graphRecs plain).foldl (fun d r => aupdate d r.name r.value) []
        = plain
      unfold graphRecs
      rw [List.foldl_map]
      exact (aupdate_fresh_append plain [] hplain.1 (fun p hp => rfl)).trans
        (List.nil_append plain)
    rw [hgd]
    simp only [Except.bind]
    rw [show q.2.multigraph = false from by rw [hqrst]]
    rw [if_neg Bool.false_ne_true]
    rw [show q.2.edgeIds = ([] : List ((String × String) × String)) from by
      rw [hqrst]]
    rw [downgrade_nil]
    rw [hqrst]
    refine congrArg Except.ok ?_
    refine congrArg (fun g => (g, (⟨false, []⟩ : ReaderState))) ?_
    have hqd2 : q.1.directed = G.directed := hqd
    have hqn2 : q.1.nodes = G.nodes := hqn
    have hqa2 : q.1.graphAttrs
        = [("node_default", GVal.PDict []), ("edge_default", GVal.PDict [])] :=
      hqa
    have hqe2 : q.1.edges.map (fun e => ({e with key := none} : PyEdge))
        = G.edges.map (fun e => ({e with key := none} : PyEdge)) := hqe
    have hqe3 : q.1.edges.map (fun e => ({e with key := none} : PyEdge))
        = G.edges := hqe2.trans (map_keynone_id G.edges
          (fun e he2 => (hedges e he2).1))
    show PyGraph.mk q.1.directed false q.1.nodes
      (q.1.edges.map (fun e => ({e with key := none} : PyEdge)))
      (aupdates q.1.graphAttrs plain) = G
    rw [hqd2, hqn2, hqe3, hqa2]
    rw [show aupdates [("node_default", GVal.PDict []),
        ("edge_default", GVal.PDict [])] plain
      = ("node_default", GVal.PDict []) :: ("edge_default", GVal.PDict [])
        :: plain from by
      show plain.foldl (fun acc p => aupdate acc p.1 p.2) _ = _
      rw [aupdate_fresh_append plain _ hplain.1 (by
        intro p hp
        obtain ⟨_, hnd, hed, _⟩ := hplain.2 p hp
        show alookup _ p.1 = none
        simp only [alookup]
        rw [if_neg (fun hc => hnd hc.symm), if_neg (fun hc => hed hc.symm)])]
      rfl]
    rw [← hmulti, ← hga]
  rw [hmk]
  simp only [Except.bind]
  rw [graphsFold_nil]

/-- C1 counterexample: `singleEdgeMulti` is a multigraph with a single
edge (no duplicate endpoint pair) whose attribute values are all
supported, yet the round trip returns a simple graph: the multigraph
flag is lost (the reader downgrades because no endpoint pair repeats)
and the edge key `0` comes back as a plain `id` edge attribute. -/
theorem C1_counterexample :
    (encodeBuffered false singleEdgeMulti).map (fun r => decodeDocument r.1)
      = Except.ok (Except.ok
          [⟨false, false, [("a", []), ("b", [])],
            [⟨"a", "b", none, [("id", GVal.PStr "0")]⟩],
            [("node_default", GVal.PDict []), ("edge_default", GVal.PDict [])]⟩])
    ∧ (⟨false, false, [("a", []), ("b", [])],
        [⟨"a", "b", none, [("id", GVal.PStr "0")]⟩],
        [("node_default", GVal.PDict []),
         ("edge_default", GVal.PDict [])]⟩ : PyGraph)
      ≠ singleEdgeMulti :=
  ⟨rfl, by decide⟩

/-- Witness for the amended C1 round-trip theorem at a concrete simple
graph with a graph attribute, a node attribute and an edge attribute. -/
theorem C1_witness :
    ∃ res, encodeBuffered false c1WitG = Except.ok res
      ∧ decodeDocument res.1 = Except.ok [c1WitG] := by
  obtain ⟨res, hres⟩ : ∃ r, encodeBuffered false c1WitG = Except.ok r := ⟨_, rfl⟩
  refine ⟨res, hres, C1_roundtrip c1WitG [("title", GVal.PStr "t")] res hres
    rfl rfl ⟨by decide, ?_⟩ ⟨by decide, ?_⟩ ?_ (by decide)⟩
  · intro p hp
    rw [List.mem_singleton.mp hp]
    exact ⟨by decide, by decide, by decide, rfl, rfl⟩
  · intro n hn
    rcases List.mem_cons.mp hn with rfl | hn2
    · refine ⟨by decide, ?_⟩
      intro q hq
      rw [List.mem_singleton.mp hq]
      exact ⟨rfl, rfl⟩
    · rw [List.mem_singleton.mp hn2]
      exact ⟨by decide, by
        intro q hq
        cases hq⟩
  · intro e he
    rw [List.mem_singleton.mp he]
    refine ⟨rfl, by decide, ?_, rfl, rfl⟩
    intro q hq
    rw [List.mem_singleton.mp hq]
    exact ⟨rfl, rfl⟩

end GraphML
